import Mathlib

/-!
# Sea battle: field engine and turn session

A shallow embedding of `src/seabattle.h` (class `SeabattleField`) and of the
class `SeabattleAgent` of `src/main.cpp` (move and result codec, game loop),
followed by theorems about them.

Conventions of the embedding

* `size_t` values are natural numbers below `2 ^ 64`; every `size_t` addition
  or subtraction of the source is written with `szAdd` / `szSub`, which reduce
  modulo `2 ^ 64` (so `0 + (-1)` is `2 ^ 64 - 1`, as in the source).
* `std::array<State, 64>` is a list of cells; `SeabattleField.WF` says that the
  list has exactly 64 entries.
* `int weight` is an integer.
* The two `for` loops that walk over the grid in a direction
  (`IsKilledInDirection`, `MarkKillInDirection`) take a number of iterations
  they may run; they answer `none` when that number is used up before the
  loop ends.  The callers pass `field_size`, and the theorems show that this
  is always enough for a start cell inside the grid.
* The random engine together with `std::uniform_int_distribution` is a
  stream `Nat → Nat` of raw values and a read position; a draw from
  `Param(lo, hi)` reads one raw value `r` and yields `lo + r % (hi - lo + 1)`.
* The console and the socket are given to `StartGame` as a list of `RoundIO`,
  one entry per pass through the loop body: the word read from `std::cin`,
  whether `WriteExact` completes, and what `ReadExact` returns.  Console output
  is left out, except for the verdict printed after the loop.
* A `ShotResult` read from the socket is kept as its underlying integer, since
  `static_cast<ShotResult>` of a received byte need not be an enumerator.
* The dereference of an empty `std::optional` in `GetMoveFromUser` is the
  outcome `undefined`.
-/

namespace Seabattle

/-- Cell state, `SeabattleField::State`. -/
inductive State where
  | UNKNOWN
  | EMPTY
  | KILLED
  | SHIP
deriving DecidableEq, Repr

/-- Result of a shot, `SeabattleField::ShotResult` (`MISS = 0`, `HIT = 1`, `KILL = 2`). -/
inductive ShotResult where
  | MISS
  | HIT
  | KILL
deriving DecidableEq, Repr

/-- The constant `SeabattleField::field_size`. -/
def field_size : Nat := 8

/-- The data members of `SeabattleField`: the cell array and `weight`. -/
structure SeabattleField where
  field : List State
  weight : Int
deriving DecidableEq, Repr

/-- The array of a field has `field_size * field_size` entries. -/
def SeabattleField.WF (f : SeabattleField) : Prop := f.field.length = 64

instance (f : SeabattleField) : Decidable f.WF := by
  unfold SeabattleField.WF; infer_instance

/-- Addition of an `int` to a `size_t`, modulo `2 ^ 64`. -/
def szAdd (x : Nat) (d : Int) : Nat := (((x : Int) + d) % 18446744073709551616).toNat

/-- Subtraction of an `int` from a `size_t`, modulo `2 ^ 64`. -/
def szSub (x : Nat) (d : Int) : Nat := (((x : Int) - d) % 18446744073709551616).toNat

/-- The constructor `SeabattleField(State default_elem_)`: every cell is
`default_elem_`, `weight` has its default member initialiser
`1 * 4 + 2 * 3 + 3 * 2 + 4 * 1`. -/
def SeabattleField.init (default_elem : State) : SeabattleField :=
  { field := List.replicate (field_size * field_size) default_elem,
    weight := 1 * 4 + 2 * 3 + 3 * 2 + 4 * 1 }

/-- The index `x_ + y_ * field_size` used by `Get`. -/
def cellIndex (x y : Nat) : Nat := (x + y * field_size) % 18446744073709551616

/-- The read accessor `Get(x_, y_) const`: `field[x_ + y_ * field_size]`.
An index outside the array is undefined in the source; here it reads `UNKNOWN`. -/
def Get (f : SeabattleField) (x y : Nat) : State :=
  f.field.getD (cellIndex x y) State.UNKNOWN

/-- An assignment through the reference returned by `Get(x_, y_)`. -/
def SetCell (f : SeabattleField) (x y : Nat) (s : State) : SeabattleField :=
  { f with field := f.field.set (cellIndex x y) s }

/-- The method `IsKilledInDirection`; the first argument bounds the number of
loop iterations, `none` means the bound was reached. -/
def IsKilledInDirection : Nat → SeabattleField → Nat → Nat → Int → Int → Option Bool
  | 0, _, x, y, _, _ =>
    if x < field_size ∧ y < field_size then none else some true
  | n + 1, f, x, y, dx, dy =>
    if x < field_size ∧ y < field_size then
      if Get f x y = State.EMPTY then some true
      else if Get f x y ≠ State.KILLED then some false
      else IsKilledInDirection n f (szAdd x dx) (szAdd y dy) dx dy
    else some true

/-- Short-circuit conjunction of two walks: the second is run only when the
first answered `true`. -/
def andAlso (a : Option Bool) (b : Option Bool) : Option Bool :=
  match a with
  | none => none
  | some false => some false
  | some true => b

/-- The method `IsKilled`. -/
def IsKilled (f : SeabattleField) (x y : Nat) : Option Bool :=
  andAlso (IsKilledInDirection field_size f x y 1 0)
    (andAlso (IsKilledInDirection field_size f x y (-1) 0)
      (andAlso (IsKilledInDirection field_size f x y 0 1)
        (IsKilledInDirection field_size f x y 0 (-1))))

/-- The method `Shoot`: the result and the field after the call. -/
def Shoot (f : SeabattleField) (x y : Nat) : Option (ShotResult × SeabattleField) :=
  if Get f x y ≠ State.SHIP then some (ShotResult.MISS, f)
  else
    let f1 : SeabattleField := { SetCell f x y State.KILLED with weight := f.weight - 1 }
    match IsKilled f1 x y with
    | none => none
    | some true => some (ShotResult.KILL, f1)
    | some false => some (ShotResult.HIT, f1)

/-- The method `MarkMiss`. -/
def MarkMiss (f : SeabattleField) (x y : Nat) : SeabattleField :=
  if Get f x y ≠ State.UNKNOWN then f else SetCell f x y State.EMPTY

/-- The method `MarkHit`. -/
def MarkHit (f : SeabattleField) (x y : Nat) : SeabattleField :=
  if Get f x y ≠ State.UNKNOWN then f
  else SetCell { f with weight := f.weight - 1 } x y State.KILLED

/-- The lambda `mark_cell_empty` of `MarkKillInDirection`. -/
def mark_cell_empty (f : SeabattleField) (x y : Nat) : SeabattleField :=
  if x ≥ field_size ∨ y ≥ field_size then f
  else if Get f x y ≠ State.UNKNOWN then f
  else SetCell f x y State.EMPTY

/-- The method `MarkKillInDirection`; the first argument bounds the number of
loop iterations, `none` means the bound was reached. -/
def MarkKillInDirection : Nat → SeabattleField → Nat → Nat → Int → Int → Option SeabattleField
  | 0, f, x, y, _, _ =>
    if x < field_size ∧ y < field_size then none else some f
  | n + 1, f, x, y, dx, dy =>
    if x < field_size ∧ y < field_size then
      let f1 := mark_cell_empty f (szAdd x dy) (szAdd y dx)
      let f2 := mark_cell_empty f1 (szSub x dy) (szSub y dx)
      let f3 := mark_cell_empty f2 x y
      if Get f3 x y ≠ State.KILLED then some f3
      else MarkKillInDirection n f3 (szAdd x dx) (szAdd y dy) dx dy
    else some f

/-- The method `MarkKill`. -/
def MarkKill (f : SeabattleField) (x y : Nat) : Option SeabattleField :=
  if Get f x y ≠ State.UNKNOWN then some f
  else
    (MarkKillInDirection field_size (MarkHit f x y) x y 1 0).bind fun f1 =>
    (MarkKillInDirection field_size f1 x y (-1) 0).bind fun f2 =>
    (MarkKillInDirection field_size f2 x y 0 1).bind fun f3 =>
    MarkKillInDirection field_size f3 x y 0 (-1)

/-- The method `IsLoser`. -/
def IsLoser (f : SeabattleField) : Bool := f.weight == 0

/-! ### Random placement -/

/-- The container `std::set<std::pair<size_t, size_t>>`: its elements in
increasing (lexicographic) order. -/
abbrev CellSet := List (Nat × Nat)

/-- The order of `std::pair`: first components, then second components. -/
def pairLt (p q : Nat × Nat) : Bool := p.1 < q.1 || (p.1 == q.1 && p.2 < q.2)

/-- The member `std::set::insert`. -/
def setInsert : CellSet → Nat × Nat → CellSet
  | [], p => [p]
  | q :: t, p =>
    if pairLt p q then p :: q :: t
    else if p = q then q :: t
    else q :: setInsert t p

/-- The member `std::set::erase(key)`. -/
def setErase (s : CellSet) (p : Nat × Nat) : CellSet := s.filter fun q => q ≠ p

/-- The lambda `mark_cell_as_used` of `TryGetRandomField`. -/
def mark_cell_as_used (avail : CellSet) (x y : Nat) : CellSet :=
  ([-1, 0, 1] : List Int).foldl
    (fun a dy => ([-1, 0, 1] : List Int).foldl
      (fun a2 dx => setErase a2 (szAdd x dx, szAdd y dy)) a)
    avail

/-- The lambda `dir_to_dxdy` of `TryGetRandomField`. -/
def dir_to_dxdy (dir : Nat) : Int × Int :=
  (if dir = 1 then 1 else if dir = 3 then -1 else 0,
   if dir = 0 then 1 else if dir = 2 then -1 else 0)

/-- The lambda `check_ship_available` of `TryGetRandomField`. -/
def check_ship_available (avail : CellSet) (x y dir ship_length : Nat) : Bool :=
  (List.range ship_length).all fun (i : Nat) =>
    let cx := szAdd x ((dir_to_dxdy dir).1 * (i : Int))
    let cy := szAdd y ((dir_to_dxdy dir).2 * (i : Int))
    if cx ≥ field_size ∨ cy ≥ field_size then false
    else if ¬ (cx, cy) ∈ avail then false
    else true

/-- The lambda `mark_ship` of `TryGetRandomField`, on the pair of `result`
and `availableElements`. -/
def mark_ship (st : SeabattleField × CellSet) (x y dir ship_length : Nat) :
    SeabattleField × CellSet :=
  (List.range ship_length).foldl
    (fun s (i : Nat) =>
      let cx := szAdd x ((dir_to_dxdy dir).1 * (i : Int))
      let cy := szAdd y ((dir_to_dxdy dir).2 * (i : Int))
      (SetCell s.1 cx cy State.SHIP, mark_cell_as_used s.2 cx cy))
    st

/-- The set `availableElements` after the two loops that insert every `{x, y}`. -/
def initAvail : CellSet :=
  (List.range field_size).foldl
    (fun a y => (List.range field_size).foldl (fun a2 x => setInsert a2 (x, y)) a)
    []

/-- The vector `ship_sizes`. -/
def ship_sizes : List Nat := [4, 3, 3, 2, 2, 2, 1, 1, 1, 1]

/-- The constant `max_attempts`. -/
def max_attempts : Nat := 100

/-- One call `d(random_engine_, Param(lo, hi))`: the value drawn and the new
read position of the stream. -/
def draw (rng : Nat → Nat) (pos lo hi : Nat) : Nat × Nat :=
  (lo + rng pos % (hi - lo + 1), pos + 1)

/-- The `do ... while` loop of `TryGetRandomField` that looks for a place for
one ship.  The first argument is `max_attempts - attempt`.  The answer is the
position and direction found (or `none` for `return std::nullopt`) and the
new read position of the random stream. -/
def findPlace : Nat → (Nat → Nat) → Nat → CellSet → Nat →
    Option ((Nat × Nat) × Nat) × Nat
  | 0, _, p, _, _ => (none, p)
  | n + 1, rng, p, avail, length =>
    if avail.isEmpty then (none, p)
    else
      let pos_index := draw rng p 0 (avail.length - 1)
      let direction := draw rng pos_index.2 0 3
      let pos := avail.getD pos_index.1 (0, 0)
      if check_ship_available avail pos.1 pos.2 direction.1 length then
        (some (pos, direction.1), direction.2)
      else findPlace n rng direction.2 avail length

/-- The loop `for (int length : ship_sizes)` of `TryGetRandomField`. -/
def placeShips : List Nat → (Nat → Nat) → Nat → SeabattleField × CellSet →
    Option SeabattleField × Nat
  | [], _, p, st => (some st.1, p)
  | length :: rest, rng, p, st =>
    match findPlace max_attempts rng p st.2 length with
    | (none, p1) => (none, p1)
    | (some (pos, direction), p1) =>
      placeShips rest rng p1 (mark_ship st pos.1 pos.2 direction length)

/-- The method `TryGetRandomField`, reading the random stream `rng` from
position `p`: the field (or `none`) and the new read position. -/
def TryGetRandomField (rng : Nat → Nat) (p : Nat) : Option SeabattleField × Nat :=
  placeShips ship_sizes rng p (SeabattleField.init State.EMPTY, initAvail)

/-- The method `GetRandomField`; the first argument bounds the number of
calls of `TryGetRandomField`, `none` means the bound was reached. -/
def GetRandomField : Nat → (Nat → Nat) → Nat → Option SeabattleField
  | 0, _, _ => none
  | n + 1, rng, p =>
    match TryGetRandomField rng p with
    | (some res, _) => some res
    | (none, p1) => GetRandomField n rng p1


/-! ### Move codec of `SeabattleAgent` -/

/-- One `char` of a `std::string_view`, as its byte value. -/
abbrev Byte := Fin 256

/-- Integer promotion of a `char`; `char_signed` says whether plain `char` is
signed on the platform. -/
def charToInt (char_signed : Bool) (c : Byte) : Int :=
  if char_signed = true ∧ 128 ≤ c.val then (c.val : Int) - 256 else (c.val : Int)

/-- Conversion of an `int` to `size_t`, as done by the comparison
`p >= SeabattleField::field_size`. -/
def toSize (v : Int) : Nat := (v % 18446744073709551616).toNat

/-- The static method `SeabattleAgent::ParseMove`. -/
def ParseMove (char_signed : Bool) (sv : List Byte) : Option (Int × Int) :=
  if sv.length ≠ 2 then none
  else
    let p1 := charToInt char_signed (sv.getD 1 0) - 49
    let p2 := charToInt char_signed (sv.getD 0 0) - 65
    if p1 < 0 ∨ toSize p1 ≥ field_size ∨ p2 < 0 ∨ toSize p2 ≥ field_size then none
    else some (p1, p2)

/-- The method `SeabattleAgent::UpdateFieldWithResult` (and `ProcessResult`,
which does the same on `other_field_`), without the console output. -/
def UpdateFieldWithResult (f : SeabattleField) (x y : Nat) (result : ShotResult) :
    Option SeabattleField :=
  match result with
  | ShotResult.MISS => some (MarkMiss f x y)
  | ShotResult.HIT => some (MarkHit f x y)
  | ShotResult.KILL => MarkKill f x y

/-! ### Vocabulary of the statements -/

/-- Number of cells of the array that are in state `s`. -/
def countState (f : SeabattleField) (s : State) : Nat := f.field.count s

/-- A coordinate pair lies inside the grid. -/
def inBounds (p : Nat × Nat) : Prop := p.1 < field_size ∧ p.2 < field_size

instance (p : Nat × Nat) : Decidable (inBounds p) := by
  unfold inBounds; infer_instance

/-- Chebyshev distance of two cells. -/
def cheb (p q : Nat × Nat) : Nat :=
  max (max (p.1 - q.1) (q.1 - p.1)) (max (p.2 - q.2) (q.2 - p.2))

/-- A straight run of cells: it starts at `(x, y)` and extends to the right
(`horizontal`) or downwards over `length` cells. -/
structure Ship where
  x : Nat
  y : Nat
  horizontal : Bool
  length : Nat
deriving DecidableEq, Repr

/-- The cells of a run. -/
def Ship.cells (s : Ship) : List (Nat × Nat) :=
  (List.range s.length).map fun i => if s.horizontal then (s.x + i, s.y) else (s.x, s.y + i)

/-- A list of runs is a fleet of the field `f`: every run lies inside the
grid, two different runs are never adjacent (not even diagonally), every cell
of a run is `SHIP` or `KILLED` and every other cell of the grid is `EMPTY`. -/
def IsFleet (f : SeabattleField) (ships : List Ship) : Prop :=
  (∀ s ∈ ships, ∀ p ∈ s.cells, inBounds p) ∧
  ships.Pairwise (fun s t => ∀ p ∈ s.cells, ∀ q ∈ t.cells, 2 ≤ cheb p q) ∧
  (∀ s ∈ ships, ∀ p ∈ s.cells, Get f p.1 p.2 = State.SHIP ∨ Get f p.1 p.2 = State.KILLED) ∧
  (∀ x, x < field_size → ∀ y, y < field_size → (∀ s ∈ ships, (x, y) ∉ s.cells) →
    Get f x y = State.EMPTY)

instance (f : SeabattleField) (ships : List Ship) : Decidable (IsFleet f ships) := by
  unfold IsFleet; infer_instance

/-- A sequence of calls of `Shoot`: the results in order and the field after
the last call. -/
def shootAll : SeabattleField → List (Nat × Nat) → Option (List ShotResult × SeabattleField)
  | f, [] => some ([], f)
  | f, p :: rest =>
    match Shoot f p.1 p.2 with
    | none => none
    | some (r, f1) =>
      match shootAll f1 rest with
      | none => none
      | some (rs, f2) => some (r :: rs, f2)

/-- A sequence of calls of `MarkMiss` / `MarkHit` / `MarkKill`, each given by
the result it records and its coordinates. -/
def markAll : SeabattleField → List (ShotResult × Nat × Nat) → Option SeabattleField
  | f, [] => some f
  | f, m :: rest =>
    match UpdateFieldWithResult f m.2.1 m.2.2 m.1 with
    | none => none
    | some f1 => markAll f1 rest

/-- No obstacle to the right: walking from `(x, y)` in direction `+x`, the
first cell that is not `KILLED` (if the grid has one) is `EMPTY`. -/
def clearE (f : SeabattleField) (x y : Nat) : Prop :=
  ∀ a, x ≤ a → a < field_size → (∀ c, x ≤ c → c < a → Get f c y = State.KILLED) →
    Get f a y = State.KILLED ∨ Get f a y = State.EMPTY

/-- The same in direction `-x`. -/
def clearW (f : SeabattleField) (x y : Nat) : Prop :=
  ∀ a, a ≤ x → (∀ c, a < c → c ≤ x → Get f c y = State.KILLED) →
    Get f a y = State.KILLED ∨ Get f a y = State.EMPTY

/-- The same in direction `+y`. -/
def clearS (f : SeabattleField) (x y : Nat) : Prop :=
  ∀ b, y ≤ b → b < field_size → (∀ c, y ≤ c → c < b → Get f x c = State.KILLED) →
    Get f x b = State.KILLED ∨ Get f x b = State.EMPTY

/-- The same in direction `-y`. -/
def clearN (f : SeabattleField) (x y : Nat) : Prop :=
  ∀ b, b ≤ y → (∀ c, b < c → c ≤ y → Get f x c = State.KILLED) →
    Get f x b = State.KILLED ∨ Get f x b = State.EMPTY

/-- The field after a shot that hit `(x, y)`: the cell is `KILLED` and the
weight is one less (the two assignments of `Shoot`). -/
def shotField (f : SeabattleField) (x y : Nat) : SeabattleField :=
  { SetCell f x y State.KILLED with weight := f.weight - 1 }

/-- A sample field: one ship on the cells `(0, 0)` and `(1, 0)`, every other
cell `EMPTY`, weight 2. -/
def twoCellField : SeabattleField :=
  { field := State.SHIP :: State.SHIP :: List.replicate 62 State.EMPTY, weight := 2 }

/-- The field `g` is the field `f` with the cells selected by `T` marked:
same weight, and a cell inside the grid is `EMPTY` in `g` when it is `UNKNOWN`
in `f` and selected, and is as in `f` otherwise. -/
def Marked (f g : SeabattleField) (T : Nat → Nat → Prop) : Prop :=
  g.WF ∧ g.weight = f.weight ∧
  ∀ a b, a < field_size → b < field_size →
    (Get f a b = State.UNKNOWN ∧ T a b → Get g a b = State.EMPTY) ∧
    (¬ (Get f a b = State.UNKNOWN ∧ T a b) → Get g a b = Get f a b)

/-- Cells touched by the walk of `MarkKillInDirection` from `(x, y)` in
direction `+x`: the three cells of column `a`, for every `a` from `x` up to the
first cell of row `y` that is not `KILLED`. -/
def touchE (f : SeabattleField) (x y a b : Nat) : Prop :=
  x ≤ a ∧ (b + 1 = y ∨ b = y ∨ b = y + 1) ∧ ∀ c, x ≤ c → c < a → Get f c y = State.KILLED

/-- The same for direction `-x`. -/
def touchW (f : SeabattleField) (x y a b : Nat) : Prop :=
  a ≤ x ∧ (b + 1 = y ∨ b = y ∨ b = y + 1) ∧ ∀ c, a < c → c ≤ x → Get f c y = State.KILLED

/-- The same for direction `+y`. -/
def touchS (f : SeabattleField) (x y a b : Nat) : Prop :=
  y ≤ b ∧ (a + 1 = x ∨ a = x ∨ a = x + 1) ∧ ∀ c, y ≤ c → c < b → Get f x c = State.KILLED

/-- The same for direction `-y`. -/
def touchN (f : SeabattleField) (x y a b : Nat) : Prop :=
  b ≤ y ∧ (a + 1 = x ∨ a = x ∨ a = x + 1) ∧ ∀ c, b < c → c ≤ y → Get f x c = State.KILLED

/-- The cells reached from `(x, y)`: the cell itself together with every cell
`p` of its row or column such that all cells from `(x, y)` (excluded) to `p`
(included) are `KILLED`, i.e. the cells a walk from `(x, y)` in one of the four
cardinal directions passes through while it sees consecutive `KILLED` cells. -/
def inR (f : SeabattleField) (x y : Nat) (p : Nat × Nat) : Prop :=
  inBounds p ∧
  ((p.2 = y ∧ ∀ c, (p.1 ≤ c ∧ c < x) ∨ (x < c ∧ c ≤ p.1) → Get f c y = State.KILLED) ∨
   (p.1 = x ∧ ∀ c, (p.2 ≤ c ∧ c < y) ∨ (y < c ∧ c ≤ p.2) → Get f x c = State.KILLED))

/-- The cell `(a, b)` lies within Chebyshev distance 1 of a cell reached from `(x, y)`. -/
def nearR (f : SeabattleField) (x y a b : Nat) : Prop :=
  ∃ p, inR f x y p ∧ cheb (a, b) p ≤ 1

/-- A sample opponent view: `(3, 3)` is `KILLED`, every other cell `UNKNOWN`,
weight 19. -/
def sampleView : SeabattleField :=
  MarkHit (SeabattleField.init State.UNKNOWN) 3 3

/-- The field `g` differs from `f` only by resolving `UNKNOWN` cells: a cell
that is not `UNKNOWN` in `f` is the same in `g`, and a cell that is `UNKNOWN`
in `f` is `UNKNOWN`, `EMPTY` or `KILLED` in `g`. -/
def OnlyResolves (f g : SeabattleField) : Prop :=
  ∀ a b, a < field_size → b < field_size →
    (Get f a b ≠ State.UNKNOWN → Get g a b = Get f a b) ∧
    (Get f a b = State.UNKNOWN →
      Get g a b = State.UNKNOWN ∨ Get g a b = State.EMPTY ∨ Get g a b = State.KILLED)

/-- The invariant of an opponent view: no cell is `SHIP` and the weight is
20 minus the number of `KILLED` cells. -/
def ViewInv (f : SeabattleField) : Prop :=
  f.WF ∧ (∀ a b, a < field_size → b < field_size → Get f a b ≠ State.SHIP) ∧
  f.weight = 20 - (countState f State.KILLED : Int)

/-- The fleet of `twoCellField`: one horizontal run of length 2 at `(0, 0)`. -/
def twoCellFleet : List Ship := [{ x := 0, y := 0, horizontal := true, length := 2 }]

/-- The cells `(x + dx * i, y + dy * i)`, `i < ship_length`, that
`check_ship_available` tests and `mark_ship` assigns. -/
def placedCells (x y dir ship_length : Nat) : List (Nat × Nat) :=
  (List.range ship_length).map fun (i : Nat) =>
    (szAdd x ((dir_to_dxdy dir).1 * (i : Int)), szAdd y ((dir_to_dxdy dir).2 * (i : Int)))

/-- The run covered by a ship placed at `(x, y)` in direction `dir`: for the
directions 2 and 3 (`dy = -1`, `dx = -1`) the run starts at the far end. -/
def placedShip (x y dir ship_length : Nat) : Ship :=
  if dir = 0 then { x := x, y := y, horizontal := false, length := ship_length }
  else if dir = 1 then { x := x, y := y, horizontal := true, length := ship_length }
  else if dir = 2 then
    { x := x, y := y + 1 - ship_length, horizontal := false, length := ship_length }
  else { x := x + 1 - ship_length, y := y, horizontal := true, length := ship_length }

/-- The state of the placement loop (`result`, `availableElements`) agrees
with the list of ships placed so far: the ships form a fleet of `result` with
every ship cell `SHIP`, the weight is 20, the number of `SHIP` cells is the
total length of the ships, and every available cell lies inside the grid at
Chebyshev distance at least 2 from every ship cell. -/
def PlaceInv (st : SeabattleField × CellSet) (ships : List Ship) : Prop :=
  st.1.WF ∧ st.1.weight = 20 ∧ IsFleet st.1 ships ∧
  (∀ s ∈ ships, ∀ p ∈ s.cells, Get st.1 p.1 p.2 = State.SHIP) ∧
  countState st.1 State.SHIP = (ships.map Ship.length).sum ∧
  (∀ p ∈ st.2, inBounds p ∧ ∀ s ∈ ships, ∀ q ∈ s.cells, 2 ≤ cheb p q)

/-- The random stream `0, 1, 2, ...`. -/
def countingStream : Nat → Nat := fun i => i

/-- The field that `TryGetRandomField` builds from `countingStream`, row by
row (`o` for `SHIP`):
```
oooo.o..
........
ooo....o
....oo..
.oo....o
........
ooo.oo.o
........
``` -/
def generatedSample : SeabattleField :=
  { field :=
      [.SHIP, .SHIP, .SHIP, .SHIP, .EMPTY, .SHIP, .EMPTY, .EMPTY,
       .EMPTY, .EMPTY, .EMPTY, .EMPTY, .EMPTY, .EMPTY, .EMPTY, .EMPTY,
       .SHIP, .SHIP, .SHIP, .EMPTY, .EMPTY, .EMPTY, .EMPTY, .SHIP,
       .EMPTY, .EMPTY, .EMPTY, .EMPTY, .SHIP, .SHIP, .EMPTY, .EMPTY,
       .EMPTY, .SHIP, .SHIP, .EMPTY, .EMPTY, .EMPTY, .EMPTY, .SHIP,
       .EMPTY, .EMPTY, .EMPTY, .EMPTY, .EMPTY, .EMPTY, .EMPTY, .EMPTY,
       .SHIP, .SHIP, .SHIP, .EMPTY, .SHIP, .SHIP, .EMPTY, .SHIP,
       .EMPTY, .EMPTY, .EMPTY, .EMPTY, .EMPTY, .EMPTY, .EMPTY, .EMPTY],
    weight := 20 }

/-- A sample field: a one-cell ship at `(0, 0)`, every other cell `EMPTY`,
weight 1. -/
def oneCellField : SeabattleField :=
  { field := State.SHIP :: List.replicate 63 State.EMPTY, weight := 1 }

/-! ### The session `SeabattleAgent` -/

/-- Conversion of an `int` to one `char`, as its byte value. -/
def intToByte (v : Int) : Byte := ⟨(v % 256).toNat, by omega⟩

/-- The underlying value of a `ShotResult` (`MISS = 0`, `HIT = 1`, `KILL = 2`). -/
def ShotResult.toInt : ShotResult → Int
  | ShotResult.MISS => 0
  | ShotResult.HIT => 1
  | ShotResult.KILL => 2

/-- The static method `SeabattleAgent::MoveToString`: the two characters
`move_.second + 'A'` and `move_.first + '1'`. -/
def MoveToString (move : Int × Int) : List Byte :=
  [intToByte (move.2 + 65), intToByte (move.1 + 49)]

/-- The string `std::string(1, '0' + static_cast<int>(result_))` that
`SendResult` writes to the socket. -/
def SendResult_data (result : ShotResult) : List Byte := [intToByte (48 + result.toInt)]

/-- The method `ReadResult`, given what `ReadExact<1>` returned (`none` when
the read did not complete): the underlying value of the `ShotResult` it
returns, `static_cast<ShotResult>(result_str->at(0) - '0')`, which need not be
one of the three enumerators. -/
def ReadResult (char_signed : Bool) (result_str : Option Byte) : Int :=
  match result_str with
  | none => ShotResult.MISS.toInt
  | some c => charToInt char_signed c - 48

/-- The method `ReadMove`, given what `ReadExact<2>` returned. -/
def ReadMove (char_signed : Bool) (move_str : Option (Byte × Byte)) : Option (Int × Int) :=
  match move_str with
  | none => none
  | some (b0, b1) => ParseMove char_signed [b0, b1]

/-- The method `GetMoveFromUser`, given the word read from `std::cin`:
`return *ParseMove(move_str)`.  The optional is dereferenced without a test;
the value `none` stands for this dereference of an empty optional, whose
behaviour is undefined. -/
def GetMoveFromUser (char_signed : Bool) (move_str : List Byte) : Option (Int × Int) :=
  ParseMove char_signed move_str

/-- The method `ProcessResult` on `other_field_`, without the console output;
`result_` is given by its underlying value, and a value that is none of the
three enumerators matches no `case`. -/
def ProcessResult (other_field_ : SeabattleField) (move : Int × Int) (result : Int) :
    Option SeabattleField :=
  if result = ShotResult.MISS.toInt then
    some (MarkMiss other_field_ (toSize move.1) (toSize move.2))
  else if result = ShotResult.HIT.toInt then
    some (MarkHit other_field_ (toSize move.1) (toSize move.2))
  else if result = ShotResult.KILL.toInt then
    MarkKill other_field_ (toSize move.1) (toSize move.2)
  else some other_field_

/-- The data members of `SeabattleAgent`, together with the parameter
`my_initiative_` of `StartGame`, which the loop updates. -/
structure SeabattleAgent where
  my_field_ : SeabattleField
  other_field_ : SeabattleField
  my_initiative_ : Bool
deriving DecidableEq, Repr

/-- The constructor `SeabattleAgent(field_)` (`other_field_` is
default-constructed) and the initiative passed to `StartGame`. -/
def SeabattleAgent.init (field_ : SeabattleField) (my_initiative_ : Bool) : SeabattleAgent :=
  { my_field_ := field_, other_field_ := SeabattleField.init State.UNKNOWN,
    my_initiative_ := my_initiative_ }

/-- The method `IsGameEnded`. -/
def IsGameEnded (s : SeabattleAgent) : Bool := IsLoser s.my_field_ || IsLoser s.other_field_

/-- What the console and the connection do during one round of `StartGame`:
the word read from `std::cin`, whether `WriteExact` completes, and what
`ReadExact<1>` and `ReadExact<2>` return (`none` when the read does not
complete). -/
structure RoundIO where
  input : List Byte
  write_ok : Bool
  read1 : Option Byte
  read2 : Option (Byte × Byte)
deriving DecidableEq, Repr

/-- How one pass through the body of the `while` loop of `StartGame` ends:
at the end of the body (`next`), at a `break` (`stop`), in the undefined
dereference of `GetMoveFromUser` (`undefined`), or, in this model only, at the
iteration bound of a walk (`unfinished`). -/
inductive RoundResult where
  | next (s : SeabattleAgent)
  | stop (s : SeabattleAgent)
  | undefined
  | unfinished
deriving DecidableEq, Repr

/-- The opponent-turn branch of `StartGame` after `ReadMove` has returned a
move, with `x = move->first` and `y = move->second`: `Shoot`, `SendResult`,
`UpdateFieldWithResult` and the update of `my_initiative_`. -/
def answerMove (io : RoundIO) (s : SeabattleAgent) (x y : Nat) : RoundResult :=
  match Shoot s.my_field_ x y with
  | none => RoundResult.unfinished
  | some (result, f1) =>
    if io.write_ok = false then RoundResult.stop { s with my_field_ := f1 }
    else
      match UpdateFieldWithResult f1 x y result with
      | none => RoundResult.unfinished
      | some f2 =>
        RoundResult.next
          { s with my_field_ := f2,
                   my_initiative_ := if result = ShotResult.MISS then true else s.my_initiative_ }

/-- One pass through the body of the `while` loop of `StartGame`. -/
def playRound (char_signed : Bool) (io : RoundIO) (s : SeabattleAgent) : RoundResult :=
  if s.my_initiative_ = true then
    match GetMoveFromUser char_signed io.input with
    | none => RoundResult.undefined
    | some move =>
      if io.write_ok = false then RoundResult.stop s
      else
        let result := ReadResult char_signed io.read1
        match ProcessResult s.other_field_ move result with
        | none => RoundResult.unfinished
        | some other =>
          RoundResult.next
            { s with other_field_ := other,
                     my_initiative_ :=
                       if result = ShotResult.MISS.toInt then false else s.my_initiative_ }
  else
    match ReadMove char_signed io.read2 with
    | none => RoundResult.stop s
    | some move => answerMove io s (toSize move.1) (toSize move.2)

/-- How `StartGame` ends: with the line `Game over!` followed by ` You lost.`
(`you_lost = true`) or ` You won!` (`you_lost = false`); in undefined
behaviour; at the iteration bound of a walk (model only); or still inside the
loop when the given list of rounds of I/O is used up (`waiting`). -/
inductive GameResult where
  | over (s : SeabattleAgent) (you_lost : Bool)
  | undefined
  | unfinished
  | waiting (s : SeabattleAgent)
deriving DecidableEq, Repr

/-- The method `StartGame`, run against the I/O of the successive rounds. -/
def StartGame (char_signed : Bool) : List RoundIO → SeabattleAgent → GameResult
  | [], s =>
    if IsGameEnded s = true then GameResult.over s (IsLoser s.my_field_)
    else GameResult.waiting s
  | io :: rest, s =>
    if IsGameEnded s = true then GameResult.over s (IsLoser s.my_field_)
    else
      match playRound char_signed io s with
      | RoundResult.next s1 => StartGame char_signed rest s1
      | RoundResult.stop s1 => GameResult.over s1 (IsLoser s1.my_field_)
      | RoundResult.undefined => GameResult.undefined
      | RoundResult.unfinished => GameResult.unfinished

/-- One exchange seen from both sides: the receiver calls `Shoot(x, y)` on its
own field `F`, and the shooter applies the result to its view `V` of that
field (`ProcessResult`, which is `UpdateFieldWithResult` on `other_field_`). -/
def exchange (F V : SeabattleField) (x y : Nat) : Option (SeabattleField × SeabattleField) :=
  match Shoot F x y with
  | none => none
  | some (r, F1) =>
    match UpdateFieldWithResult V x y r with
    | none => none
    | some V1 => some (F1, V1)

/-- A sequence of exchanges. -/
def exchangeAll : SeabattleField → SeabattleField → List (Nat × Nat) →
    Option (SeabattleField × SeabattleField)
  | F, V, [] => some (F, V)
  | F, V, p :: rest =>
    match exchange F V p.1 p.2 with
    | none => none
    | some (F1, V1) => exchangeAll F1 V1 rest

/-- The arguments `(move->first, move->second)` of the call `my_field_.Shoot`
in the opponent-turn branch of `StartGame`, given what `ReadExact<2>`
returned; `none` when `ReadMove` returns no move. -/
def receivedShot (char_signed : Bool) (move_str : Option (Byte × Byte)) : Option (Nat × Nat) :=
  match ReadMove char_signed move_str with
  | none => none
  | some move => some (toSize move.1, toSize move.2)

/-- The character `static_cast<char>('A' + y_)` that `PrintLine` puts at both
ends of the row `y_` of a field. -/
def PrintLine_label (y : Nat) : Byte := intToByte (65 + (y : Int))

/-- A sample session on `twoCellField` in which the opponent moves first. -/
def sampleAgent : SeabattleAgent := SeabattleAgent.init twoCellField false

/-- A sample session on `twoCellField` in which the local player moves first. -/
def sampleAgentFirst : SeabattleAgent := SeabattleAgent.init twoCellField true

/-- The view `V` agrees with the field `F` it tracks, whose fleet is `ships`:
the same weight, the same `KILLED` cells, every `EMPTY` cell of `V` is `EMPTY`
in `F` (it is not a ship cell), and `V` has no `SHIP` cell. -/
def Sync (F V : SeabattleField) (ships : List Ship) : Prop :=
  F.WF ∧ V.WF ∧ IsFleet F ships ∧ V.weight = F.weight ∧
  ∀ a, a < field_size → ∀ b, b < field_size →
    (Get V a b = State.KILLED ↔ Get F a b = State.KILLED) ∧
    (Get V a b = State.EMPTY → Get F a b = State.EMPTY) ∧
    Get V a b ≠ State.SHIP

/-! ## Theorems -/

/-! ### Cells of the array -/

theorem cellIndex_lt {x y : Nat} (hx : x < field_size) (hy : y < field_size) :
    cellIndex x y < 64 := by
  unfold cellIndex field_size at *; omega

theorem cellIndex_inj {x y a b : Nat} (hx : x < field_size) (hy : y < field_size)
    (ha : a < field_size) (hb : b < field_size) :
    cellIndex a b = cellIndex x y ↔ a = x ∧ b = y := by
  unfold cellIndex field_size at *; omega

theorem WF_SetCell {f : SeabattleField} (x y : Nat) (s : State) (h : f.WF) :
    (SetCell f x y s).WF := by
  unfold SeabattleField.WF SetCell at *; simpa using h

theorem weight_SetCell (f : SeabattleField) (x y : Nat) (s : State) :
    (SetCell f x y s).weight = f.weight := rfl

theorem Get_SetCell {f : SeabattleField} (h : f.WF) {x y a b : Nat} (s : State)
    (hx : x < field_size) (hy : y < field_size)
    (ha : a < field_size) (hb : b < field_size) :
    Get (SetCell f x y s) a b = if a = x ∧ b = y then s else Get f a b := by
  have hi := cellIndex_inj hx hy ha hb
  have hl := cellIndex_lt hx hy
  unfold SeabattleField.WF at h
  unfold Get SetCell
  simp only [List.getD_eq_getElem?_getD]
  by_cases hc : a = x ∧ b = y
  · rw [if_pos hc, hc.1, hc.2, List.getElem?_set_self (by omega)]; rfl
  · rw [if_neg hc, List.getElem?_set_ne (fun e => hc (hi.mp e.symm))]

theorem Get_SetCell_same {f : SeabattleField} (h : f.WF) {x y : Nat} (s : State)
    (hx : x < field_size) (hy : y < field_size) :
    Get (SetCell f x y s) x y = s := by
  rw [Get_SetCell h s hx hy hx hy]; simp


/-! ### The walks of `IsKilled` -/

theorem IsKilledInDirection_east (f : SeabattleField) :
    ∀ n x y, x < field_size → y < field_size → field_size ≤ n + x →
      ∃ b, IsKilledInDirection n f x y 1 0 = some b ∧ (b = true ↔ clearE f x y) := by
  intro n
  induction n with
  | zero => intro x y hx _ hn; unfold field_size at *; omega
  | succ n ih =>
    intro x y hx hy hn
    have hsx : szAdd x 1 = x + 1 := by unfold szAdd field_size at *; omega
    have hsy : szAdd y 0 = y := by unfold szAdd field_size at *; omega
    unfold IsKilledInDirection
    rw [if_pos ⟨hx, hy⟩, hsx, hsy]
    by_cases hE : Get f x y = State.EMPTY
    · refine ⟨true, by rw [if_pos hE], ?_⟩
      simp only [true_iff]
      intro a hxa _ hk
      rcases Nat.eq_or_lt_of_le hxa with h | h
      · subst h; exact Or.inr hE
      · have := hk x (Nat.le_refl x) h; rw [hE] at this; cases this
    · rw [if_neg hE]
      by_cases hK : Get f x y = State.KILLED
      · rw [if_neg (by simpa using hK)]
        by_cases hx1 : x + 1 < field_size
        · obtain ⟨b, hb, hiff⟩ := ih (x + 1) y hx1 hy (by omega)
          refine ⟨b, hb, hiff.trans ?_⟩
          constructor
          · intro h a hxa ha hk
            rcases Nat.eq_or_lt_of_le hxa with e | e
            · subst e; exact Or.inl hK
            · exact h a e ha (fun c hc hca => hk c (by omega) hca)
          · intro h a hxa ha hk
            refine h a (by omega) ha (fun c hc hca => ?_)
            rcases Nat.eq_or_lt_of_le hc with e | e
            · subst e; exact hK
            · exact hk c e hca
        · refine ⟨true, ?_, ?_⟩
          · cases n <;> unfold IsKilledInDirection <;> rw [if_neg (fun h => hx1 h.1)]
          · simp only [true_iff]
            intro a hxa ha _
            have : a = x := by omega
            subst this; exact Or.inl hK
      · refine ⟨false, by rw [if_pos (by simpa using hK)], ?_⟩
        simp only [false_iff, Bool.false_eq_true]
        intro h
        rcases h x (Nat.le_refl x) hx (fun c h1 h2 => by omega) with h | h
        · exact hK h
        · exact hE h

theorem IsKilledInDirection_west (f : SeabattleField) :
    ∀ n x y, x < field_size → y < field_size → x + 1 ≤ n →
      ∃ b, IsKilledInDirection n f x y (-1) 0 = some b ∧ (b = true ↔ clearW f x y) := by
  intro n
  induction n with
  | zero => intro x y _ _ hn; omega
  | succ n ih =>
    intro x y hx hy hn
    have hsy : szAdd y 0 = y := by unfold szAdd field_size at *; omega
    unfold IsKilledInDirection
    rw [if_pos ⟨hx, hy⟩, hsy]
    by_cases hE : Get f x y = State.EMPTY
    · refine ⟨true, by rw [if_pos hE], ?_⟩
      simp only [true_iff]
      intro a hxa hk
      rcases Nat.eq_or_lt_of_le hxa with h | h
      · subst h; exact Or.inr hE
      · have := hk x h (Nat.le_refl x); rw [hE] at this; cases this
    · rw [if_neg hE]
      by_cases hK : Get f x y = State.KILLED
      · rw [if_neg (by simpa using hK)]
        by_cases hx1 : 0 < x
        · have hsx : szAdd x (-1) = x - 1 := by unfold szAdd field_size at *; omega
          rw [hsx]
          obtain ⟨b, hb, hiff⟩ := ih (x - 1) y (by omega) hy (by omega)
          refine ⟨b, hb, hiff.trans ?_⟩
          constructor
          · intro h a hxa hk
            rcases Nat.eq_or_lt_of_le hxa with e | e
            · subst e; exact Or.inl hK
            · exact h a (by omega) (fun c hc hca => hk c hc (by omega))
          · intro h a hxa hk
            refine h a (by omega) (fun c hc hca => ?_)
            rcases Nat.eq_or_lt_of_le hca with e | e
            · subst e; exact hK
            · exact hk c hc (by omega)
        · have hsx : ¬ szAdd x (-1) < field_size := by unfold szAdd field_size at *; omega
          refine ⟨true, ?_, ?_⟩
          · cases n <;> unfold IsKilledInDirection <;> rw [if_neg (fun h => hsx h.1)]
          · simp only [true_iff]
            intro a hxa _
            have : a = x := by omega
            subst this; exact Or.inl hK
      · refine ⟨false, by rw [if_pos (by simpa using hK)], ?_⟩
        simp only [false_iff, Bool.false_eq_true]
        intro h
        rcases h x (Nat.le_refl x) (fun c h1 h2 => by omega) with h | h
        · exact hK h
        · exact hE h

theorem IsKilledInDirection_south (f : SeabattleField) :
    ∀ n x y, x < field_size → y < field_size → field_size ≤ n + y →
      ∃ b, IsKilledInDirection n f x y 0 1 = some b ∧ (b = true ↔ clearS f x y) := by
  intro n
  induction n with
  | zero => intro x y _ hy hn; unfold field_size at *; omega
  | succ n ih =>
    intro x y hx hy hn
    have hsx : szAdd y 1 = y + 1 := by unfold szAdd field_size at *; omega
    have hsy : szAdd x 0 = x := by unfold szAdd field_size at *; omega
    unfold IsKilledInDirection
    rw [if_pos ⟨hx, hy⟩, hsx, hsy]
    by_cases hE : Get f x y = State.EMPTY
    · refine ⟨true, by rw [if_pos hE], ?_⟩
      simp only [true_iff]
      intro a hxa _ hk
      rcases Nat.eq_or_lt_of_le hxa with h | h
      · subst h; exact Or.inr hE
      · have := hk y (Nat.le_refl y) h; rw [hE] at this; cases this
    · rw [if_neg hE]
      by_cases hK : Get f x y = State.KILLED
      · rw [if_neg (by simpa using hK)]
        by_cases hx1 : y + 1 < field_size
        · obtain ⟨b, hb, hiff⟩ := ih x (y + 1) hx hx1 (by omega)
          refine ⟨b, hb, hiff.trans ?_⟩
          constructor
          · intro h a hxa ha hk
            rcases Nat.eq_or_lt_of_le hxa with e | e
            · subst e; exact Or.inl hK
            · exact h a e ha (fun c hc hca => hk c (by omega) hca)
          · intro h a hxa ha hk
            refine h a (by omega) ha (fun c hc hca => ?_)
            rcases Nat.eq_or_lt_of_le hc with e | e
            · subst e; exact hK
            · exact hk c e hca
        · refine ⟨true, ?_, ?_⟩
          · cases n <;> unfold IsKilledInDirection <;> rw [if_neg (fun h => hx1 h.2)]
          · simp only [true_iff]
            intro a hxa ha _
            have : a = y := by omega
            subst this; exact Or.inl hK
      · refine ⟨false, by rw [if_pos (by simpa using hK)], ?_⟩
        simp only [false_iff, Bool.false_eq_true]
        intro h
        rcases h y (Nat.le_refl y) hy (fun c h1 h2 => by omega) with h | h
        · exact hK h
        · exact hE h

theorem IsKilledInDirection_north (f : SeabattleField) :
    ∀ n x y, x < field_size → y < field_size → y + 1 ≤ n →
      ∃ b, IsKilledInDirection n f x y 0 (-1) = some b ∧ (b = true ↔ clearN f x y) := by
  intro n
  induction n with
  | zero => intro x y _ _ hn; omega
  | succ n ih =>
    intro x y hx hy hn
    have hsy : szAdd x 0 = x := by unfold szAdd field_size at *; omega
    unfold IsKilledInDirection
    rw [if_pos ⟨hx, hy⟩, hsy]
    by_cases hE : Get f x y = State.EMPTY
    · refine ⟨true, by rw [if_pos hE], ?_⟩
      simp only [true_iff]
      intro a hxa hk
      rcases Nat.eq_or_lt_of_le hxa with h | h
      · subst h; exact Or.inr hE
      · have := hk y h (Nat.le_refl y); rw [hE] at this; cases this
    · rw [if_neg hE]
      by_cases hK : Get f x y = State.KILLED
      · rw [if_neg (by simpa using hK)]
        by_cases hx1 : 0 < y
        · have hsx : szAdd y (-1) = y - 1 := by unfold szAdd field_size at *; omega
          rw [hsx]
          obtain ⟨b, hb, hiff⟩ := ih x (y - 1) hx (by omega) (by omega)
          refine ⟨b, hb, hiff.trans ?_⟩
          constructor
          · intro h a hxa hk
            rcases Nat.eq_or_lt_of_le hxa with e | e
            · subst e; exact Or.inl hK
            · exact h a (by omega) (fun c hc hca => hk c hc (by omega))
          · intro h a hxa hk
            refine h a (by omega) (fun c hc hca => ?_)
            rcases Nat.eq_or_lt_of_le hca with e | e
            · subst e; exact hK
            · exact hk c hc (by omega)
        · have hsx : ¬ szAdd y (-1) < field_size := by unfold szAdd field_size at *; omega
          refine ⟨true, ?_, ?_⟩
          · cases n <;> unfold IsKilledInDirection <;> rw [if_neg (fun h => hsx h.2)]
          · simp only [true_iff]
            intro a hxa _
            have : a = y := by omega
            subst this; exact Or.inl hK
      · refine ⟨false, by rw [if_pos (by simpa using hK)], ?_⟩
        simp only [false_iff, Bool.false_eq_true]
        intro h
        rcases h y (Nat.le_refl y) (fun c h1 h2 => by omega) with h | h
        · exact hK h
        · exact hE h

/-- The four walks of `IsKilled` end within `field_size` iterations, and the
answer is `true` exactly when no walk meets an obstacle. -/
theorem IsKilled_spec (f : SeabattleField) (x y : Nat)
    (hx : x < field_size) (hy : y < field_size) :
    ∃ b, IsKilled f x y = some b ∧
      (b = true ↔ clearE f x y ∧ clearW f x y ∧ clearS f x y ∧ clearN f x y) := by
  obtain ⟨b1, h1, i1⟩ := IsKilledInDirection_east f field_size x y hx hy (by omega)
  obtain ⟨b2, h2, i2⟩ := IsKilledInDirection_west f field_size x y hx hy
    (by unfold field_size at *; omega)
  obtain ⟨b3, h3, i3⟩ := IsKilledInDirection_south f field_size x y hx hy (by omega)
  obtain ⟨b4, h4, i4⟩ := IsKilledInDirection_north f field_size x y hx hy
    (by unfold field_size at *; omega)
  unfold IsKilled
  rw [h1, h2, h3, h4, ← i1, ← i2, ← i3, ← i4]
  cases b1 <;> cases b2 <;> cases b3 <;> cases b4 <;> simp [andAlso]


/-! ### `Shoot` -/

theorem Shoot_miss (f : SeabattleField) (x y : Nat) (h : Get f x y ≠ State.SHIP) :
    Shoot f x y = some (ShotResult.MISS, f) := by
  unfold Shoot; rw [if_pos h]

theorem WF_shotField {f : SeabattleField} (x y : Nat) (h : f.WF) : (shotField f x y).WF := by
  unfold SeabattleField.WF shotField SetCell at *; simpa using h

theorem Get_shotField {f : SeabattleField} (h : f.WF) {x y a b : Nat}
    (hx : x < field_size) (hy : y < field_size)
    (ha : a < field_size) (hb : b < field_size) :
    Get (shotField f x y) a b = if a = x ∧ b = y then State.KILLED else Get f a b := by
  rw [← Get_SetCell h State.KILLED hx hy ha hb]; rfl

/-- A shot at a `SHIP` cell inside the grid returns, with `KILL` or `HIT`
according to the four walks from the cell. -/
theorem Shoot_ship (f : SeabattleField) (x y : Nat)
    (hx : x < field_size) (hy : y < field_size) (h : Get f x y = State.SHIP) :
    ∃ b, Shoot f x y = some (if b = true then ShotResult.KILL else ShotResult.HIT,
        shotField f x y) ∧
      (b = true ↔ clearE (shotField f x y) x y ∧ clearW (shotField f x y) x y ∧
        clearS (shotField f x y) x y ∧ clearN (shotField f x y) x y) := by
  obtain ⟨b, hb, hiff⟩ := IsKilled_spec (shotField f x y) x y hx hy
  refine ⟨b, ?_, hiff⟩
  unfold Shoot
  rw [if_neg (by simpa using h)]
  unfold shotField at hb
  simp only [hb]
  cases b <;> rfl

/-- Claim C5. For every field and every cell `(x, y)` inside the grid:
if the cell is not `SHIP`, `Shoot` returns `MISS` and the field (all cells and
the weight) is unchanged; if the cell is `SHIP`, `Shoot` returns a result other
than `MISS`, the cell becomes `KILLED`, no other cell changes and the weight
drops by exactly 1; and a second shot at the same cell is always a `MISS` that
changes nothing, so the weight drops at most once per cell. -/
theorem C5_Shoot_frame (f : SeabattleField) (x y : Nat) (hwf : f.WF)
    (hx : x < field_size) (hy : y < field_size) :
    (Get f x y ≠ State.SHIP → Shoot f x y = some (ShotResult.MISS, f)) ∧
    (Get f x y = State.SHIP → ∃ r f1, Shoot f x y = some (r, f1) ∧ r ≠ ShotResult.MISS ∧
      f1.weight = f.weight - 1 ∧ Get f1 x y = State.KILLED ∧
      f1.field = f.field.set (cellIndex x y) State.KILLED ∧
      ∀ a b, a < field_size → b < field_size → ¬ (a = x ∧ b = y) → Get f1 a b = Get f a b) ∧
    (∀ r f1, Shoot f x y = some (r, f1) → Shoot f1 x y = some (ShotResult.MISS, f1)) := by
  refine ⟨Shoot_miss f x y, ?_, ?_⟩
  · intro h
    obtain ⟨b, hb, -⟩ := Shoot_ship f x y hx hy h
    refine ⟨_, _, hb, by cases b <;> simp, rfl, ?_, rfl, ?_⟩
    · rw [Get_shotField hwf hx hy hx hy]; simp
    · intro a b ha hb hne
      rw [Get_shotField hwf hx hy ha hb, if_neg hne]
  · intro r f1 hs
    by_cases h : Get f x y = State.SHIP
    · obtain ⟨b, hb, -⟩ := Shoot_ship f x y hx hy h
      rw [hb] at hs
      simp only [Option.some.injEq, Prod.mk.injEq] at hs
      rw [← hs.2]
      apply Shoot_miss
      rw [Get_shotField hwf hx hy hx hy]; simp
    · rw [Shoot_miss f x y h] at hs
      simp only [Option.some.injEq, Prod.mk.injEq] at hs
      rw [← hs.2]
      exact Shoot_miss f x y h

/-- Witness for C5: a field with a two-cell ship at `(0, 0)`, `(1, 0)`; the
shot at `(0, 0)` is a `HIT` and a second shot at `(0, 0)` is a `MISS`. -/
theorem C5_Shoot_frame_witness :
    twoCellField.WF ∧ 0 < field_size ∧
    (∃ r f1, Shoot twoCellField 0 0 = some (r, f1) ∧ r ≠ ShotResult.MISS ∧
      f1.weight = twoCellField.weight - 1 ∧ Get f1 0 0 = State.KILLED ∧
      f1.field = twoCellField.field.set (cellIndex 0 0) State.KILLED ∧
      ∀ a b, a < field_size → b < field_size → ¬ (a = 0 ∧ b = 0) →
        Get f1 a b = Get twoCellField a b) :=
  ⟨by decide, by decide,
    (C5_Shoot_frame twoCellField 0 0 (by decide) (by decide) (by decide)).2.1 (by decide)⟩


/-! ### `ParseMove` -/

theorem ParseMove_pair (char_signed : Bool) (c0 c1 : Byte) :
    ParseMove char_signed [c0, c1] =
      if 65 ≤ c0.val ∧ c0.val ≤ 72 ∧ 49 ≤ c1.val ∧ c1.val ≤ 56 then
        some ((c1.val : Int) - 49, (c0.val : Int) - 65)
      else none := by
  have h0 := c0.isLt
  have h1 := c1.isLt
  unfold ParseMove charToInt toSize field_size
  simp only [List.length_cons, List.length_nil, List.getD_cons_zero, List.getD_cons_succ]
  cases char_signed <;> simp only [Bool.false_eq_true, false_and, if_false, true_and] <;>
    split_ifs <;> first | rfl | omega

theorem ParseMove_length (char_signed : Bool) (s : List Byte) (h : s.length ≠ 2) :
    ParseMove char_signed s = none := by
  unfold ParseMove; rw [if_pos h]

/-- Claim C10. For every byte string `s` (whatever the signedness of `char`),
`ParseMove s` returns a coordinate exactly when `s` has exactly two characters,
the first in `'A'..'H'` (65..72) and the second in `'1'..'8'` (49..56), and
returns `nullopt` for every other string; every coordinate returned has both
components in `0..7`; `"A1"` gives `(0, 0)`, `"H8"` gives `(7, 7)`, `"I1"` and
`"A9"` are rejected. -/
theorem C10_ParseMove_accepts (char_signed : Bool) (s : List Byte) :
    ((ParseMove char_signed s).isSome = true ↔
      ∃ c0 c1 : Byte, s = [c0, c1] ∧ 65 ≤ c0.val ∧ c0.val ≤ 72 ∧ 49 ≤ c1.val ∧ c1.val ≤ 56) ∧
    ((ParseMove char_signed s).isSome = false ↔ ParseMove char_signed s = none) ∧
    (∀ m, ParseMove char_signed s = some m → 0 ≤ m.1 ∧ m.1 ≤ 7 ∧ 0 ≤ m.2 ∧ m.2 ≤ 7) ∧
    ParseMove char_signed [65, 49] = some (0, 0) ∧
    ParseMove char_signed [72, 56] = some (7, 7) ∧
    ParseMove char_signed [73, 49] = none ∧
    ParseMove char_signed [65, 57] = none := by
  refine ⟨?_, ?_, ?_, ?_, ?_, ?_, ?_⟩
  · constructor
    · intro h
      match s, h with
      | [], h => rw [ParseMove_length _ _ (by simp)] at h; cases h
      | [_], h => rw [ParseMove_length _ _ (by simp)] at h; cases h
      | [c0, c1], h =>
        rw [ParseMove_pair] at h
        by_cases hc : 65 ≤ c0.val ∧ c0.val ≤ 72 ∧ 49 ≤ c1.val ∧ c1.val ≤ 56
        · exact ⟨c0, c1, rfl, hc⟩
        · rw [if_neg hc] at h; cases h
      | _ :: _ :: _ :: _, h => rw [ParseMove_length _ _ (by simp)] at h; cases h
    · rintro ⟨c0, c1, rfl, hc⟩
      rw [ParseMove_pair, if_pos hc]; rfl
  · cases ParseMove char_signed s <;> simp
  · intro m hm
    match s, hm with
    | [], h => rw [ParseMove_length _ _ (by simp)] at h; cases h
    | [_], h => rw [ParseMove_length _ _ (by simp)] at h; cases h
    | [c0, c1], h =>
      rw [ParseMove_pair] at h
      by_cases hc : 65 ≤ c0.val ∧ c0.val ≤ 72 ∧ 49 ≤ c1.val ∧ c1.val ≤ 56
      · rw [if_pos hc] at h
        simp only [Option.some.injEq] at h
        rw [← h]; simp only; omega
      · rw [if_neg hc] at h; cases h
    | _ :: _ :: _ :: _, h => rw [ParseMove_length _ _ (by simp)] at h; cases h
  · cases char_signed <;> decide
  · cases char_signed <;> decide
  · cases char_signed <;> decide
  · cases char_signed <;> decide


/-! ### The marking operations -/

theorem Marked.of_no_cell {f : SeabattleField} (h : f.WF) (T : Nat → Nat → Prop)
    (hT : ∀ a b, a < field_size → b < field_size → ¬ T a b) : Marked f f T := by
  refine ⟨h, rfl, fun a b ha hb => ⟨fun h1 => absurd h1.2 (hT a b ha hb), fun _ => rfl⟩⟩

theorem Marked.killed_iff {f g : SeabattleField} {T : Nat → Nat → Prop} (h : Marked f g T)
    {a b : Nat} (ha : a < field_size) (hb : b < field_size) :
    Get g a b = State.KILLED ↔ Get f a b = State.KILLED := by
  obtain ⟨_, _, hc⟩ := h
  by_cases hm : Get f a b = State.UNKNOWN ∧ T a b
  · rw [(hc a b ha hb).1 hm, hm.1]; simp
  · rw [(hc a b ha hb).2 hm]

theorem Marked.trans {f g k : SeabattleField} {T U V : Nat → Nat → Prop}
    (h1 : Marked f g T) (h2 : Marked g k U)
    (hV : ∀ a b, a < field_size → b < field_size → (V a b ↔ T a b ∨ U a b)) :
    Marked f k V := by
  obtain ⟨_, hw1, hc1⟩ := h1
  obtain ⟨hwf2, hw2, hc2⟩ := h2
  refine ⟨hwf2, hw2.trans hw1, fun a b ha hb => ?_⟩
  have e1 := hc1 a b ha hb
  have e2 := hc2 a b ha hb
  have hv := hV a b ha hb
  by_cases hu : Get f a b = State.UNKNOWN
  · by_cases ht : T a b
    · have hg := e1.1 ⟨hu, ht⟩
      have hk := e2.2 (fun h => by rw [hg] at h; cases h.1)
      exact ⟨fun _ => hk.trans hg, fun h => absurd ⟨hu, hv.mpr (Or.inl ht)⟩ h⟩
    · have hg := e1.2 (fun h => ht h.2)
      by_cases hU : U a b
      · have hk := e2.1 ⟨hg.trans hu, hU⟩
        exact ⟨fun _ => hk, fun h => absurd ⟨hu, hv.mpr (Or.inr hU)⟩ h⟩
      · have hk := e2.2 (fun h => hU h.2)
        refine ⟨fun h => ?_, fun _ => hk.trans hg⟩
        rcases hv.mp h.2 with h | h
        · exact absurd h ht
        · exact absurd h hU
  · have hg := e1.2 (fun h => hu h.1)
    have hk := e2.2 (fun h => hu (hg ▸ h.1))
    exact ⟨fun h => absurd h.1 hu, fun _ => hk.trans hg⟩

theorem Marked.congr {f g : SeabattleField} {T V : Nat → Nat → Prop}
    (h : Marked f g T)
    (hV : ∀ a b, a < field_size → b < field_size → (V a b ↔ T a b)) :
    Marked f g V := by
  obtain ⟨hwf, hw, hc⟩ := h
  refine ⟨hwf, hw, fun a b ha hb => ?_⟩
  have hv := hV a b ha hb
  refine ⟨fun h => (hc a b ha hb).1 ⟨h.1, hv.mp h.2⟩, fun h => (hc a b ha hb).2 ?_⟩
  exact fun h2 => h ⟨h2.1, hv.mpr h2.2⟩

theorem mark_cell_empty_Marked {f : SeabattleField} (h : f.WF) (x y : Nat) :
    Marked f (mark_cell_empty f x y) (fun a b => a = x ∧ b = y) := by
  unfold mark_cell_empty
  by_cases hb : x ≥ field_size ∨ y ≥ field_size
  · rw [if_pos hb]
    exact Marked.of_no_cell h _ (fun a b ha hb2 hab => by
      rcases hb with hb | hb
      · rw [hab.1] at ha; exact absurd ha (Nat.not_lt.mpr hb)
      · rw [hab.2] at hb2; exact absurd hb2 (Nat.not_lt.mpr hb))
  · rw [if_neg hb]
    have hx : x < field_size := by omega
    have hy : y < field_size := by omega
    by_cases hu : Get f x y ≠ State.UNKNOWN
    · rw [if_pos hu]
      refine ⟨h, rfl, fun a b _ _ => ⟨fun hab => ?_, fun _ => rfl⟩⟩
      obtain ⟨h1, h2, h3⟩ := hab
      subst h2 h3; exact absurd h1 hu
    · rw [if_neg hu]
      refine ⟨WF_SetCell x y _ h, rfl, fun a b ha hb2 => ?_⟩
      rw [Get_SetCell h _ hx hy ha hb2]
      refine ⟨fun hab => by rw [if_pos hab.2], fun hab => ?_⟩
      by_cases hc : a = x ∧ b = y
      · obtain ⟨h2, h3⟩ := hc
        subst h2 h3
        exact absurd ⟨not_not.mp hu, rfl, rfl⟩ hab
      · rw [if_neg hc]

/-- One iteration of the loop of `MarkKillInDirection` marks the cell and its
two side cells `(x + dy, y + dx)` and `(x - dy, y - dx)`. -/
theorem mark_three_Marked {f : SeabattleField} (h : f.WF) (x y x1 y1 x2 y2 : Nat) :
    Marked f (mark_cell_empty (mark_cell_empty (mark_cell_empty f x1 y1) x2 y2) x y)
      (fun a b => (a = x1 ∧ b = y1) ∨ (a = x2 ∧ b = y2) ∨ (a = x ∧ b = y)) := by
  have m1 := mark_cell_empty_Marked h x1 y1
  have m2 := mark_cell_empty_Marked m1.1 x2 y2
  have m3 := mark_cell_empty_Marked m2.1 x y
  refine (m1.trans m2 (fun a b _ _ => Iff.rfl)).trans m3 (fun a b _ _ => ?_)
  tauto


theorem MarkKillInDirection_east :
    ∀ n (f : SeabattleField) x y, f.WF → x < field_size → y < field_size →
      field_size ≤ n + x →
      ∃ g, MarkKillInDirection n f x y 1 0 = some g ∧ Marked f g (touchE f x y) := by
  intro n
  induction n with
  | zero => intro f x y _ hx _ hn; unfold field_size at *; omega
  | succ n ih =>
    intro f x y hwf hx hy hn
    have m3 := mark_three_Marked hwf x y (szAdd x 0) (szAdd y 1) (szSub x 0) (szSub y 1)
    have hT : ∀ a b, a < field_size → b < field_size →
        (((a = szAdd x 0 ∧ b = szAdd y 1) ∨ (a = szSub x 0 ∧ b = szSub y 1) ∨ (a = x ∧ b = y)) ↔
          (a = x ∧ (b + 1 = y ∨ b = y ∨ b = y + 1))) := by
      intro a b ha hb
      unfold szAdd szSub field_size at *; omega
    have hk := m3.killed_iff hx hy
    unfold MarkKillInDirection
    rw [if_pos ⟨hx, hy⟩]
    simp only []
    by_cases hK : Get (mark_cell_empty (mark_cell_empty (mark_cell_empty f (szAdd x 0)
        (szAdd y 1)) (szSub x 0) (szSub y 1)) x y) x y = State.KILLED
    · rw [if_neg (by simpa using hK)]
      have hsx : szAdd x 1 = x + 1 := by unfold szAdd field_size at *; omega
      have hsy : szAdd y 0 = y := by unfold szAdd field_size at *; omega
      rw [hsx, hsy]
      by_cases hx1 : x + 1 < field_size
      · obtain ⟨g, hg, hm⟩ := ih _ (x + 1) y m3.1 hx1 hy (by omega)
        refine ⟨g, hg, m3.trans hm (fun a b ha hb => ?_)⟩
        rw [hT a b ha hb]
        unfold touchE
        constructor
        · rintro ⟨h1, h2, h3⟩
          rcases Nat.eq_or_lt_of_le h1 with e | e
          · exact Or.inl ⟨e.symm, h2⟩
          · refine Or.inr ⟨e, h2, fun c hc hca => ?_⟩
            rw [m3.killed_iff (by omega) hy]
            exact h3 c (by omega) hca
        · rintro (⟨h1, h2⟩ | ⟨h1, h2, h3⟩)
          · exact ⟨by omega, h2, fun c _ _ => by omega⟩
          · refine ⟨by omega, h2, fun c hc hca => ?_⟩
            rcases Nat.eq_or_lt_of_le hc with e | e
            · subst e; exact hk.mp hK
            · rw [← m3.killed_iff (by omega) hy]
              exact h3 c e hca
      · refine ⟨_, ?_, m3.congr (fun a b ha hb => ?_)⟩
        · cases n <;> unfold MarkKillInDirection <;> rw [if_neg (fun h => hx1 h.1)]
        · rw [hT a b ha hb]
          unfold touchE
          constructor
          · rintro ⟨h1, h2, -⟩
            exact ⟨by omega, h2⟩
          · rintro ⟨h1, h2⟩
            exact ⟨by omega, h2, fun c _ _ => by omega⟩
    · rw [if_pos (by simpa using hK)]
      refine ⟨_, rfl, m3.congr (fun a b ha hb => ?_)⟩
      rw [hT a b ha hb]
      unfold touchE
      constructor
      · rintro ⟨h1, h2, h3⟩
        rcases Nat.eq_or_lt_of_le h1 with e | e
        · exact ⟨e.symm, h2⟩
        · exact absurd (hk.mpr (h3 x (Nat.le_refl x) e)) hK
      · rintro ⟨h1, h2⟩
        exact ⟨by omega, h2, fun c _ _ => by omega⟩


theorem MarkKillInDirection_west :
    ∀ n (f : SeabattleField) x y, f.WF → x < field_size → y < field_size →
      x + 1 ≤ n →
      ∃ g, MarkKillInDirection n f x y (-1) 0 = some g ∧ Marked f g (touchW f x y) := by
  intro n
  induction n with
  | zero => intro f x y _ _ _ hn; omega
  | succ n ih =>
    intro f x y hwf hx hy hn
    have m3 := mark_three_Marked hwf x y (szAdd x 0) (szAdd y (-1)) (szSub x 0) (szSub y (-1))
    have hT : ∀ a b, a < field_size → b < field_size →
        (((a = szAdd x 0 ∧ b = szAdd y (-1)) ∨ (a = szSub x 0 ∧ b = szSub y (-1)) ∨
            (a = x ∧ b = y)) ↔
          (a = x ∧ (b + 1 = y ∨ b = y ∨ b = y + 1))) := by
      intro a b ha hb
      unfold szAdd szSub field_size at *; omega
    have hk := m3.killed_iff hx hy
    unfold MarkKillInDirection
    rw [if_pos ⟨hx, hy⟩]
    simp only []
    by_cases hK : Get (mark_cell_empty (mark_cell_empty (mark_cell_empty f (szAdd x 0)
        (szAdd y (-1))) (szSub x 0) (szSub y (-1))) x y) x y = State.KILLED
    · rw [if_neg (by simpa using hK)]
      have hsy : szAdd y 0 = y := by unfold szAdd field_size at *; omega
      rw [hsy]
      by_cases hx1 : 0 < x
      · have hsx : szAdd x (-1) = x - 1 := by unfold szAdd field_size at *; omega
        rw [hsx]
        obtain ⟨g, hg, hm⟩ := ih _ (x - 1) y m3.1 (by omega) hy (by omega)
        refine ⟨g, hg, m3.trans hm (fun a b ha hb => ?_)⟩
        rw [hT a b ha hb]
        unfold touchW
        constructor
        · rintro ⟨h1, h2, h3⟩
          rcases Nat.eq_or_lt_of_le h1 with e | e
          · exact Or.inl ⟨e, h2⟩
          · refine Or.inr ⟨by omega, h2, fun c hc hca => ?_⟩
            rw [m3.killed_iff (by omega) hy]
            exact h3 c hc (by omega)
        · rintro (⟨h1, h2⟩ | ⟨h1, h2, h3⟩)
          · exact ⟨by omega, h2, fun c _ _ => by omega⟩
          · refine ⟨by omega, h2, fun c hc hca => ?_⟩
            rcases Nat.eq_or_lt_of_le hca with e | e
            · subst e; exact hk.mp hK
            · rw [← m3.killed_iff (by omega) hy]
              exact h3 c hc (by omega)
      · have hsx : ¬ szAdd x (-1) < field_size := by unfold szAdd field_size at *; omega
        refine ⟨_, ?_, m3.congr (fun a b ha hb => ?_)⟩
        · cases n <;> unfold MarkKillInDirection <;> rw [if_neg (fun h => hsx h.1)]
        · rw [hT a b ha hb]
          unfold touchW
          constructor
          · rintro ⟨h1, h2, -⟩
            exact ⟨by omega, h2⟩
          · rintro ⟨h1, h2⟩
            exact ⟨by omega, h2, fun c _ _ => by omega⟩
    · rw [if_pos (by simpa using hK)]
      refine ⟨_, rfl, m3.congr (fun a b ha hb => ?_)⟩
      rw [hT a b ha hb]
      unfold touchW
      constructor
      · rintro ⟨h1, h2, h3⟩
        rcases Nat.eq_or_lt_of_le h1 with e | e
        · exact ⟨e, h2⟩
        · exact absurd (hk.mpr (h3 x e (Nat.le_refl x))) hK
      · rintro ⟨h1, h2⟩
        exact ⟨by omega, h2, fun c _ _ => by omega⟩

theorem MarkKillInDirection_south :
    ∀ n (f : SeabattleField) x y, f.WF → x < field_size → y < field_size →
      field_size ≤ n + y →
      ∃ g, MarkKillInDirection n f x y 0 1 = some g ∧ Marked f g (touchS f x y) := by
  intro n
  induction n with
  | zero => intro f x y _ _ hy hn; unfold field_size at *; omega
  | succ n ih =>
    intro f x y hwf hx hy hn
    have m3 := mark_three_Marked hwf x y (szAdd x 1) (szAdd y 0) (szSub x 1) (szSub y 0)
    have hT : ∀ a b, a < field_size → b < field_size →
        (((a = szAdd x 1 ∧ b = szAdd y 0) ∨ (a = szSub x 1 ∧ b = szSub y 0) ∨ (a = x ∧ b = y)) ↔
          (b = y ∧ (a + 1 = x ∨ a = x ∨ a = x + 1))) := by
      intro a b ha hb
      unfold szAdd szSub field_size at *; omega
    have hk := m3.killed_iff hx hy
    unfold MarkKillInDirection
    rw [if_pos ⟨hx, hy⟩]
    simp only []
    by_cases hK : Get (mark_cell_empty (mark_cell_empty (mark_cell_empty f (szAdd x 1)
        (szAdd y 0)) (szSub x 1) (szSub y 0)) x y) x y = State.KILLED
    · rw [if_neg (by simpa using hK)]
      have hsx : szAdd y 1 = y + 1 := by unfold szAdd field_size at *; omega
      have hsy : szAdd x 0 = x := by unfold szAdd field_size at *; omega
      rw [hsx, hsy]
      by_cases hx1 : y + 1 < field_size
      · obtain ⟨g, hg, hm⟩ := ih _ x (y + 1) m3.1 hx hx1 (by omega)
        refine ⟨g, hg, m3.trans hm (fun a b ha hb => ?_)⟩
        rw [hT a b ha hb]
        unfold touchS
        constructor
        · rintro ⟨h1, h2, h3⟩
          rcases Nat.eq_or_lt_of_le h1 with e | e
          · exact Or.inl ⟨e.symm, h2⟩
          · refine Or.inr ⟨e, h2, fun c hc hca => ?_⟩
            rw [m3.killed_iff hx (by omega)]
            exact h3 c (by omega) hca
        · rintro (⟨h1, h2⟩ | ⟨h1, h2, h3⟩)
          · exact ⟨by omega, h2, fun c _ _ => by omega⟩
          · refine ⟨by omega, h2, fun c hc hca => ?_⟩
            rcases Nat.eq_or_lt_of_le hc with e | e
            · subst e; exact hk.mp hK
            · rw [← m3.killed_iff hx (by omega)]
              exact h3 c e hca
      · refine ⟨_, ?_, m3.congr (fun a b ha hb => ?_)⟩
        · cases n <;> unfold MarkKillInDirection <;> rw [if_neg (fun h => hx1 h.2)]
        · rw [hT a b ha hb]
          unfold touchS
          constructor
          · rintro ⟨h1, h2, -⟩
            exact ⟨by omega, h2⟩
          · rintro ⟨h1, h2⟩
            exact ⟨by omega, h2, fun c _ _ => by omega⟩
    · rw [if_pos (by simpa using hK)]
      refine ⟨_, rfl, m3.congr (fun a b ha hb => ?_)⟩
      rw [hT a b ha hb]
      unfold touchS
      constructor
      · rintro ⟨h1, h2, h3⟩
        rcases Nat.eq_or_lt_of_le h1 with e | e
        · exact ⟨e.symm, h2⟩
        · exact absurd (hk.mpr (h3 y (Nat.le_refl y) e)) hK
      · rintro ⟨h1, h2⟩
        exact ⟨by omega, h2, fun c _ _ => by omega⟩

theorem MarkKillInDirection_north :
    ∀ n (f : SeabattleField) x y, f.WF → x < field_size → y < field_size →
      y + 1 ≤ n →
      ∃ g, MarkKillInDirection n f x y 0 (-1) = some g ∧ Marked f g (touchN f x y) := by
  intro n
  induction n with
  | zero => intro f x y _ _ _ hn; omega
  | succ n ih =>
    intro f x y hwf hx hy hn
    have m3 := mark_three_Marked hwf x y (szAdd x (-1)) (szAdd y 0) (szSub x (-1)) (szSub y 0)
    have hT : ∀ a b, a < field_size → b < field_size →
        (((a = szAdd x (-1) ∧ b = szAdd y 0) ∨ (a = szSub x (-1) ∧ b = szSub y 0) ∨
            (a = x ∧ b = y)) ↔
          (b = y ∧ (a + 1 = x ∨ a = x ∨ a = x + 1))) := by
      intro a b ha hb
      unfold szAdd szSub field_size at *; omega
    have hk := m3.killed_iff hx hy
    unfold MarkKillInDirection
    rw [if_pos ⟨hx, hy⟩]
    simp only []
    by_cases hK : Get (mark_cell_empty (mark_cell_empty (mark_cell_empty f (szAdd x (-1))
        (szAdd y 0)) (szSub x (-1)) (szSub y 0)) x y) x y = State.KILLED
    · rw [if_neg (by simpa using hK)]
      have hsy : szAdd x 0 = x := by unfold szAdd field_size at *; omega
      rw [hsy]
      by_cases hx1 : 0 < y
      · have hsx : szAdd y (-1) = y - 1 := by unfold szAdd field_size at *; omega
        rw [hsx]
        obtain ⟨g, hg, hm⟩ := ih _ x (y - 1) m3.1 hx (by omega) (by omega)
        refine ⟨g, hg, m3.trans hm (fun a b ha hb => ?_)⟩
        rw [hT a b ha hb]
        unfold touchN
        constructor
        · rintro ⟨h1, h2, h3⟩
          rcases Nat.eq_or_lt_of_le h1 with e | e
          · exact Or.inl ⟨e, h2⟩
          · refine Or.inr ⟨by omega, h2, fun c hc hca => ?_⟩
            rw [m3.killed_iff hx (by omega)]
            exact h3 c hc (by omega)
        · rintro (⟨h1, h2⟩ | ⟨h1, h2, h3⟩)
          · exact ⟨by omega, h2, fun c _ _ => by omega⟩
          · refine ⟨by omega, h2, fun c hc hca => ?_⟩
            rcases Nat.eq_or_lt_of_le hca with e | e
            · subst e; exact hk.mp hK
            · rw [← m3.killed_iff hx (by omega)]
              exact h3 c hc (by omega)
      · have hsx : ¬ szAdd y (-1) < field_size := by unfold szAdd field_size at *; omega
        refine ⟨_, ?_, m3.congr (fun a b ha hb => ?_)⟩
        · cases n <;> unfold MarkKillInDirection <;> rw [if_neg (fun h => hsx h.2)]
        · rw [hT a b ha hb]
          unfold touchN
          constructor
          · rintro ⟨h1, h2, -⟩
            exact ⟨by omega, h2⟩
          · rintro ⟨h1, h2⟩
            exact ⟨by omega, h2, fun c _ _ => by omega⟩
    · rw [if_pos (by simpa using hK)]
      refine ⟨_, rfl, m3.congr (fun a b ha hb => ?_)⟩
      rw [hT a b ha hb]
      unfold touchN
      constructor
      · rintro ⟨h1, h2, h3⟩
        rcases Nat.eq_or_lt_of_le h1 with e | e
        · exact ⟨e, h2⟩
        · exact absurd (hk.mpr (h3 y e (Nat.le_refl y))) hK
      · rintro ⟨h1, h2⟩
        exact ⟨by omega, h2, fun c _ _ => by omega⟩


theorem WF_init (s : State) : (SeabattleField.init s).WF := by
  unfold SeabattleField.WF SeabattleField.init field_size; simp

theorem MarkHit_unknown {f : SeabattleField} (h : f.WF) {x y : Nat}
    (hx : x < field_size) (hy : y < field_size) (hu : Get f x y = State.UNKNOWN) :
    (MarkHit f x y).WF ∧ (MarkHit f x y).weight = f.weight - 1 ∧
    (MarkHit f x y).field = f.field.set (cellIndex x y) State.KILLED ∧
    ∀ a b, a < field_size → b < field_size →
      Get (MarkHit f x y) a b = if a = x ∧ b = y then State.KILLED else Get f a b := by
  unfold MarkHit
  rw [if_neg (by simpa using hu)]
  refine ⟨WF_SetCell x y _ h, rfl, rfl, fun a b ha hb => ?_⟩
  rw [← Get_SetCell h State.KILLED hx hy ha hb]; rfl

theorem touchW_congr {f g : SeabattleField} {x y a b : Nat}
    (hx : x < field_size) (hy : y < field_size)
    (hk : ∀ c d, c < field_size → d < field_size →
      (Get g c d = State.KILLED ↔ Get f c d = State.KILLED)) :
    touchW g x y a b ↔ touchW f x y a b := by
  unfold touchW
  constructor
  · rintro ⟨h1, h2, h3⟩
    exact ⟨h1, h2, fun c hc hca => (hk c y (by omega) hy).mp (h3 c hc hca)⟩
  · rintro ⟨h1, h2, h3⟩
    exact ⟨h1, h2, fun c hc hca => (hk c y (by omega) hy).mpr (h3 c hc hca)⟩

theorem touchS_congr {f g : SeabattleField} {x y a b : Nat}
    (hx : x < field_size) (hb : b < field_size)
    (hk : ∀ c d, c < field_size → d < field_size →
      (Get g c d = State.KILLED ↔ Get f c d = State.KILLED)) :
    touchS g x y a b ↔ touchS f x y a b := by
  unfold touchS
  constructor
  · rintro ⟨h1, h2, h3⟩
    exact ⟨h1, h2, fun c hc hca => (hk x c hx (by omega)).mp (h3 c hc hca)⟩
  · rintro ⟨h1, h2, h3⟩
    exact ⟨h1, h2, fun c hc hca => (hk x c hx (by omega)).mpr (h3 c hc hca)⟩

theorem touchN_congr {f g : SeabattleField} {x y a b : Nat}
    (hx : x < field_size) (hy : y < field_size)
    (hk : ∀ c d, c < field_size → d < field_size →
      (Get g c d = State.KILLED ↔ Get f c d = State.KILLED)) :
    touchN g x y a b ↔ touchN f x y a b := by
  unfold touchN
  constructor
  · rintro ⟨h1, h2, h3⟩
    exact ⟨h1, h2, fun c hc hca => (hk x c hx (by omega)).mp (h3 c hc hca)⟩
  · rintro ⟨h1, h2, h3⟩
    exact ⟨h1, h2, fun c hc hca => (hk x c hx (by omega)).mpr (h3 c hc hca)⟩

/-- The four walks of `MarkKill` end within `field_size` iterations; together
they mark the cells touched by one of them. -/
theorem MarkKill_walks {f0 : SeabattleField} (h : f0.WF) {x y : Nat}
    (hx : x < field_size) (hy : y < field_size) :
    ∃ g,
      ((MarkKillInDirection field_size f0 x y 1 0).bind fun f1 =>
       (MarkKillInDirection field_size f1 x y (-1) 0).bind fun f2 =>
       (MarkKillInDirection field_size f2 x y 0 1).bind fun f3 =>
        MarkKillInDirection field_size f3 x y 0 (-1)) = some g ∧
      Marked f0 g (fun a b => touchE f0 x y a b ∨ touchW f0 x y a b ∨
        touchS f0 x y a b ∨ touchN f0 x y a b) := by
  obtain ⟨g1, e1, m1⟩ := MarkKillInDirection_east field_size f0 x y h hx hy (by omega)
  obtain ⟨g2, e2, m2⟩ := MarkKillInDirection_west field_size g1 x y m1.1 hx hy
    (by unfold field_size at *; omega)
  obtain ⟨g3, e3, m3⟩ := MarkKillInDirection_south field_size g2 x y m2.1 hx hy (by omega)
  obtain ⟨g4, e4, m4⟩ := MarkKillInDirection_north field_size g3 x y m3.1 hx hy
    (by unfold field_size at *; omega)
  refine ⟨g4, by rw [e1, Option.some_bind, e2, Option.some_bind, e3, Option.some_bind, e4], ?_⟩
  have m12 := m1.trans m2 (V := fun a b => touchE f0 x y a b ∨ touchW f0 x y a b)
    (fun a b _ _ => by
      rw [touchW_congr hx hy (fun c d hc hd => m1.killed_iff hc hd)])
  have m123 := m12.trans m3
    (V := fun a b => touchE f0 x y a b ∨ touchW f0 x y a b ∨ touchS f0 x y a b)
    (fun a b _ hb => by
      rw [touchS_congr hx hb (fun c d hc hd => m12.killed_iff hc hd)]; tauto)
  exact m123.trans m4 (fun a b _ _ => by
      rw [touchN_congr hx hy (fun c d hc hd => m123.killed_iff hc hd)]; tauto)

/-- Inside the grid, the cells touched by the four walks from a just-hit cell
are the cells within Chebyshev distance 1 of a cell reached from it. -/
theorem touch_iff_nearR {f f0 : SeabattleField} {x y a b : Nat}
    (hx : x < field_size) (hy : y < field_size)
    (ha : a < field_size) (hb : b < field_size)
    (hk : ∀ c d, c < field_size → d < field_size →
      (Get f0 c d = State.KILLED ↔ (c = x ∧ d = y) ∨ Get f c d = State.KILLED)) :
    (touchE f0 x y a b ∨ touchW f0 x y a b ∨ touchS f0 x y a b ∨ touchN f0 x y a b) ↔
      nearR f x y a b := by
  unfold touchE touchW touchS touchN nearR inR inBounds cheb
  constructor
  · rintro (⟨h1, h2, h3⟩ | ⟨h1, h2, h3⟩ | ⟨h1, h2, h3⟩ | ⟨h1, h2, h3⟩)
    · by_cases e : a = x
      · exact ⟨(x, y), ⟨⟨hx, hy⟩, Or.inl ⟨rfl, fun c hc => by simp only at hc; omega⟩⟩,
          by simp only; omega⟩
      · refine ⟨(a - 1, y), ⟨⟨by simp only; omega, hy⟩, Or.inl ⟨rfl, fun c hc => ?_⟩⟩,
          by simp only; omega⟩
        simp only at hc
        rcases (hk c y (by omega) hy).mp (h3 c (by omega) (by omega)) with h | h
        · omega
        · exact h
    · by_cases e : a = x
      · exact ⟨(x, y), ⟨⟨hx, hy⟩, Or.inl ⟨rfl, fun c hc => by simp only at hc; omega⟩⟩,
          by simp only; omega⟩
      · refine ⟨(a + 1, y), ⟨⟨by simp only; omega, hy⟩, Or.inl ⟨rfl, fun c hc => ?_⟩⟩,
          by simp only; omega⟩
        simp only at hc
        rcases (hk c y (by omega) hy).mp (h3 c (by omega) (by omega)) with h | h
        · omega
        · exact h
    · by_cases e : b = y
      · exact ⟨(x, y), ⟨⟨hx, hy⟩, Or.inl ⟨rfl, fun c hc => by simp only at hc; omega⟩⟩,
          by simp only; omega⟩
      · refine ⟨(x, b - 1), ⟨⟨hx, by simp only; omega⟩, Or.inr ⟨rfl, fun c hc => ?_⟩⟩,
          by simp only; omega⟩
        simp only at hc
        rcases (hk x c hx (by omega)).mp (h3 c (by omega) (by omega)) with h | h
        · omega
        · exact h
    · by_cases e : b = y
      · exact ⟨(x, y), ⟨⟨hx, hy⟩, Or.inl ⟨rfl, fun c hc => by simp only at hc; omega⟩⟩,
          by simp only; omega⟩
      · refine ⟨(x, b + 1), ⟨⟨hx, by simp only; omega⟩, Or.inr ⟨rfl, fun c hc => ?_⟩⟩,
          by simp only; omega⟩
        simp only at hc
        rcases (hk x c hx (by omega)).mp (h3 c (by omega) (by omega)) with h | h
        · omega
        · exact h
  · rintro ⟨⟨pa, pb⟩, ⟨⟨hpa, hpb⟩, hr⟩, hc⟩
    simp only at hpa hpb hr hc
    rcases hr with ⟨e, hr⟩ | ⟨e, hr⟩
    · subst e
      by_cases hax : x ≤ a
      · refine Or.inl ⟨hax, by omega, fun c h1 h2 => (hk c pb (by omega) hy).mpr ?_⟩
        by_cases ec : c = x
        · exact Or.inl ⟨ec, rfl⟩
        · exact Or.inr (hr c (by omega))
      · refine Or.inr (Or.inl ⟨by omega, by omega, fun c h1 h2 =>
          (hk c pb (by omega) hy).mpr ?_⟩)
        by_cases ec : c = x
        · exact Or.inl ⟨ec, rfl⟩
        · exact Or.inr (hr c (by omega))
    · subst e
      by_cases hby : y ≤ b
      · refine Or.inr (Or.inr (Or.inl ⟨hby, by omega, fun c h1 h2 =>
          (hk pa c hx (by omega)).mpr ?_⟩))
        by_cases ec : c = y
        · exact Or.inl ⟨rfl, ec⟩
        · exact Or.inr (hr c (by omega))
      · refine Or.inr (Or.inr (Or.inr ⟨by omega, by omega, fun c h1 h2 =>
          (hk pa c hx (by omega)).mpr ?_⟩))
        by_cases ec : c = y
        · exact Or.inl ⟨rfl, ec⟩
        · exact Or.inr (hr c (by omega))

/-- `MarkKill` on an `UNKNOWN` cell inside the grid returns; the result is
described cell by cell. -/
theorem MarkKill_unknown {f : SeabattleField} (hwf : f.WF) {x y : Nat}
    (hx : x < field_size) (hy : y < field_size) (hu : Get f x y = State.UNKNOWN) :
    ∃ g, MarkKill f x y = some g ∧ g.WF ∧ g.weight = f.weight - 1 ∧
      Get g x y = State.KILLED ∧
      ∀ a b, a < field_size → b < field_size → ¬ (a = x ∧ b = y) →
        (Get f a b = State.UNKNOWN ∧ nearR f x y a b → Get g a b = State.EMPTY) ∧
        (¬ (Get f a b = State.UNKNOWN ∧ nearR f x y a b) → Get g a b = Get f a b) := by
  obtain ⟨hwf0, hw0, -, hc0⟩ := MarkHit_unknown hwf hx hy hu
  obtain ⟨g, hg, hm⟩ := MarkKill_walks hwf0 hx hy
  have hk : ∀ c d, c < field_size → d < field_size →
      (Get (MarkHit f x y) c d = State.KILLED ↔ (c = x ∧ d = y) ∨ Get f c d = State.KILLED) := by
    intro c d hc hd
    rw [hc0 c d hc hd]
    by_cases e : c = x ∧ d = y
    · rw [if_pos e]; simp [e]
    · rw [if_neg e]; simp [e]
  refine ⟨g, ?_, hm.1, hm.2.1.trans hw0, ?_, fun a b ha hb hne => ?_⟩
  · unfold MarkKill; rw [if_neg (by simpa using hu)]; exact hg
  · rw [hm.killed_iff hx hy, hc0 x y hx hy]; simp
  · have hcell := hm.2.2 a b ha hb
    beta_reduce at hcell
    rw [touch_iff_nearR (f := f) hx hy ha hb hk, hc0 a b ha hb, if_neg hne] at hcell
    exact hcell

/-- Claim C7. For every field and every cell `(x, y)` inside the grid whose
state is `UNKNOWN`, `MarkKill(x, y)` returns and afterwards: cell `(x, y)` is
`KILLED` and the weight is one less; every other cell inside the grid that was
`UNKNOWN` and lies within Chebyshev distance 1 of a cell reached from `(x, y)`
(the cell itself or a cell reached by walking in one of the four cardinal
directions through consecutive `KILLED` cells) is `EMPTY`; and every remaining
cell of the grid is unchanged. -/
theorem C7_MarkKill_marks (f : SeabattleField) (x y : Nat) (hwf : f.WF)
    (hx : x < field_size) (hy : y < field_size) (hu : Get f x y = State.UNKNOWN) :
    ∃ g, MarkKill f x y = some g ∧ Get g x y = State.KILLED ∧ g.weight = f.weight - 1 ∧
      ∀ a b, a < field_size → b < field_size → ¬ (a = x ∧ b = y) →
        (Get f a b = State.UNKNOWN ∧ nearR f x y a b → Get g a b = State.EMPTY) ∧
        (¬ (Get f a b = State.UNKNOWN ∧ nearR f x y a b) → Get g a b = Get f a b) := by
  obtain ⟨g, h1, -, h2, h3, h4⟩ := MarkKill_unknown hwf hx hy hu
  exact ⟨g, h1, h3, h2, h4⟩


/-! ### Counting cells -/

theorem count_set_aux {α : Type} [DecidableEq α] (s v : α) :
    ∀ (l : List α) (i : Nat) (h : i < l.length),
      (l.set i v).count s + (if l[i] = s then 1 else 0) =
        l.count s + (if v = s then 1 else 0) := by
  intro l
  induction l with
  | nil => intro i h; simp at h
  | cons a t ih =>
    intro i h
    cases i with
    | zero =>
      simp only [List.set_cons_zero, List.getElem_cons_zero, List.count_cons]
      simp only [beq_iff_eq]
      omega
    | succ i =>
      have := ih i (by simpa using h)
      simp only [List.set_cons_succ, List.getElem_cons_succ, List.count_cons]
      omega

theorem count_congr_aux {α : Type} [DecidableEq α] (s d : α) :
    ∀ (l1 l2 : List α), l1.length = l2.length →
      (∀ i, i < l1.length → (l1.getD i d = s ↔ l2.getD i d = s)) →
      l1.count s = l2.count s := by
  intro l1
  induction l1 with
  | nil =>
    intro l2 hl _
    cases l2 with
    | nil => rfl
    | cons _ _ => simp at hl
  | cons a t ih =>
    intro l2 hl h
    cases l2 with
    | nil => simp at hl
    | cons b u =>
      have h0 := h 0 (by simp)
      simp only [List.getD_cons_zero] at h0
      have := ih u (by simpa using hl) (fun i hi => by
        have := h (i + 1) (by simpa using hi)
        simpa using this)
      simp only [List.count_cons, this, beq_iff_eq]
      by_cases e : a = s
      · rw [if_pos e, if_pos (h0.mp e)]
      · rw [if_neg e, if_neg (fun e2 => e (h0.mpr e2))]

theorem getD_eq_Get (f : SeabattleField) {i : Nat} (hi : i < 64) :
    f.field.getD i State.UNKNOWN = Get f (i % 8) (i / 8) := by
  unfold Get cellIndex field_size
  congr 1; omega

theorem countState_congr {f g : SeabattleField} (hf : f.WF) (hg : g.WF) (s : State)
    (h : ∀ a b, a < field_size → b < field_size → (Get f a b = s ↔ Get g a b = s)) :
    countState f s = countState g s := by
  unfold countState
  unfold SeabattleField.WF at hf hg
  refine count_congr_aux s State.UNKNOWN _ _ (hf.trans hg.symm) (fun i hi => ?_)
  rw [getD_eq_Get f (by omega), getD_eq_Get g (by omega)]
  exact h _ _ (by unfold field_size; omega) (by unfold field_size; omega)

theorem countState_SetCell {f : SeabattleField} (h : f.WF) {x y : Nat}
    (hx : x < field_size) (hy : y < field_size) (v s : State) :
    countState (SetCell f x y v) s + (if Get f x y = s then 1 else 0) =
      countState f s + (if v = s then 1 else 0) := by
  have hl := cellIndex_lt hx hy
  unfold SeabattleField.WF at h
  have := count_set_aux s v f.field (cellIndex x y) (by omega)
  unfold countState SetCell Get
  rw [List.getD_eq_getElem f.field State.UNKNOWN (by omega)]
  exact this

/-! ### `MarkMiss`, `MarkHit`, `MarkKill` never overwrite a resolved cell -/

theorem OnlyResolves_self (f : SeabattleField) : OnlyResolves f f :=
  fun _ _ _ _ => ⟨fun _ => rfl, fun h => Or.inl h⟩

theorem MarkMiss_known (f : SeabattleField) (x y : Nat) (h : Get f x y ≠ State.UNKNOWN) :
    MarkMiss f x y = f := by
  unfold MarkMiss; rw [if_pos h]

theorem MarkHit_known (f : SeabattleField) (x y : Nat) (h : Get f x y ≠ State.UNKNOWN) :
    MarkHit f x y = f := by
  unfold MarkHit; rw [if_pos h]

theorem MarkKill_known (f : SeabattleField) (x y : Nat) (h : Get f x y ≠ State.UNKNOWN) :
    MarkKill f x y = some f := by
  unfold MarkKill; rw [if_pos h]

theorem MarkMiss_unknown {f : SeabattleField} (h : f.WF) {x y : Nat}
    (hx : x < field_size) (hy : y < field_size) (hu : Get f x y = State.UNKNOWN) :
    (MarkMiss f x y).WF ∧ (MarkMiss f x y).weight = f.weight ∧
    (MarkMiss f x y).field = f.field.set (cellIndex x y) State.EMPTY ∧
    ∀ a b, a < field_size → b < field_size →
      Get (MarkMiss f x y) a b = if a = x ∧ b = y then State.EMPTY else Get f a b := by
  unfold MarkMiss
  rw [if_neg (by simpa using hu)]
  exact ⟨WF_SetCell x y _ h, rfl, rfl, fun a b ha hb => Get_SetCell h State.EMPTY hx hy ha hb⟩

theorem MarkMiss_resolves {f : SeabattleField} (h : f.WF) {x y : Nat}
    (hx : x < field_size) (hy : y < field_size) :
    OnlyResolves f (MarkMiss f x y) ∧ Get (MarkMiss f x y) x y ≠ State.UNKNOWN := by
  by_cases hu : Get f x y = State.UNKNOWN
  · obtain ⟨-, -, -, hc⟩ := MarkMiss_unknown h hx hy hu
    refine ⟨fun a b ha hb => ?_, by rw [hc x y hx hy]; simp⟩
    rw [hc a b ha hb]
    by_cases e : a = x ∧ b = y
    · rw [if_pos e, e.1, e.2]
      exact ⟨fun h2 => absurd hu h2, fun _ => Or.inr (Or.inl rfl)⟩
    · rw [if_neg e]
      exact ⟨fun _ => rfl, fun h2 => Or.inl h2⟩
  · rw [MarkMiss_known f x y hu]
    exact ⟨OnlyResolves_self f, hu⟩

theorem MarkHit_resolves {f : SeabattleField} (h : f.WF) {x y : Nat}
    (hx : x < field_size) (hy : y < field_size) :
    OnlyResolves f (MarkHit f x y) ∧ Get (MarkHit f x y) x y ≠ State.UNKNOWN := by
  by_cases hu : Get f x y = State.UNKNOWN
  · obtain ⟨-, -, -, hc⟩ := MarkHit_unknown h hx hy hu
    refine ⟨fun a b ha hb => ?_, by rw [hc x y hx hy]; simp⟩
    rw [hc a b ha hb]
    by_cases e : a = x ∧ b = y
    · rw [if_pos e, e.1, e.2]
      exact ⟨fun h2 => absurd hu h2, fun _ => Or.inr (Or.inr rfl)⟩
    · rw [if_neg e]
      exact ⟨fun _ => rfl, fun h2 => Or.inl h2⟩
  · rw [MarkHit_known f x y hu]
    exact ⟨OnlyResolves_self f, hu⟩

theorem MarkKill_resolves {f : SeabattleField} (h : f.WF) {x y : Nat}
    (hx : x < field_size) (hy : y < field_size) :
    ∃ g, MarkKill f x y = some g ∧ OnlyResolves f g ∧ Get g x y ≠ State.UNKNOWN := by
  by_cases hu : Get f x y = State.UNKNOWN
  · obtain ⟨g, hg, -, -, hk, hc⟩ := MarkKill_unknown h hx hy hu
    refine ⟨g, hg, fun a b ha hb => ?_, by rw [hk]; simp⟩
    by_cases e : a = x ∧ b = y
    · rw [e.1, e.2, hk]
      exact ⟨fun h2 => absurd hu h2, fun _ => Or.inr (Or.inr rfl)⟩
    · have := hc a b ha hb e
      by_cases hn : Get f a b = State.UNKNOWN ∧ nearR f x y a b
      · rw [this.1 hn]
        exact ⟨fun h2 => absurd hn.1 h2, fun _ => Or.inr (Or.inl rfl)⟩
      · rw [this.2 hn]
        exact ⟨fun _ => rfl, fun h2 => Or.inl h2⟩
  · exact ⟨f, MarkKill_known f x y hu, OnlyResolves_self f, hu⟩

/-- Claim C8. For every field and every cell `(x, y)` inside the grid, each of
`MarkMiss`, `MarkHit` and `MarkKill` leaves every cell that is not `UNKNOWN`
(so every `KILLED` or `EMPTY` cell) as it is and turns `UNKNOWN` cells only
into `EMPTY` or `KILLED`; when the target cell is not `UNKNOWN` the field
after the call, weight included, is the field before; and a second call of the
same operation at the same cell changes nothing more. -/
theorem C8_marks_never_overwrite (f : SeabattleField) (x y : Nat) (hwf : f.WF)
    (hx : x < field_size) (hy : y < field_size) :
    (OnlyResolves f (MarkMiss f x y) ∧
      (Get f x y ≠ State.UNKNOWN → MarkMiss f x y = f) ∧
      MarkMiss (MarkMiss f x y) x y = MarkMiss f x y) ∧
    (OnlyResolves f (MarkHit f x y) ∧
      (Get f x y ≠ State.UNKNOWN → MarkHit f x y = f) ∧
      MarkHit (MarkHit f x y) x y = MarkHit f x y) ∧
    (∃ g, MarkKill f x y = some g ∧ OnlyResolves f g ∧
      (Get f x y ≠ State.UNKNOWN → g = f) ∧
      MarkKill g x y = some g) := by
  refine ⟨?_, ?_, ?_⟩
  · obtain ⟨h1, h2⟩ := MarkMiss_resolves hwf hx hy
    exact ⟨h1, MarkMiss_known f x y, MarkMiss_known _ x y h2⟩
  · obtain ⟨h1, h2⟩ := MarkHit_resolves hwf hx hy
    exact ⟨h1, MarkHit_known f x y, MarkHit_known _ x y h2⟩
  · obtain ⟨g, hg, h1, h2⟩ := MarkKill_resolves hwf hx hy
    refine ⟨g, hg, h1, fun hu => ?_, MarkKill_known g x y h2⟩
    rw [MarkKill_known f x y hu] at hg
    exact (Option.some.inj hg).symm


/-! ### The opponent view -/

theorem Get_init (s : State) {a b : Nat} (ha : a < field_size) (hb : b < field_size) :
    Get (SeabattleField.init s) a b = s := by
  have hl := cellIndex_lt ha hb
  unfold Get SeabattleField.init field_size
  simp only [List.getD_eq_getElem?_getD, List.getElem?_replicate]
  rw [if_pos (by omega)]; rfl

theorem Get_init_UNKNOWN (a b : Nat) :
    Get (SeabattleField.init State.UNKNOWN) a b = State.UNKNOWN := by
  unfold Get SeabattleField.init field_size
  simp only [List.getD_eq_getElem?_getD, List.getElem?_replicate]
  split <;> rfl

theorem ViewInv_init : ViewInv (SeabattleField.init State.UNKNOWN) := by
  refine ⟨WF_init _, fun a b ha hb => ?_, by decide⟩
  rw [Get_init _ ha hb]; simp

theorem ViewInv_MarkMiss {f : SeabattleField} (h : ViewInv f) {x y : Nat}
    (hx : x < field_size) (hy : y < field_size) : ViewInv (MarkMiss f x y) := by
  obtain ⟨hwf, hs, hw⟩ := h
  by_cases hu : Get f x y = State.UNKNOWN
  · obtain ⟨h1, h2, -, h4⟩ := MarkMiss_unknown hwf hx hy hu
    refine ⟨h1, fun a b ha hb => ?_, ?_⟩
    · rw [h4 a b ha hb]
      by_cases e : a = x ∧ b = y
      · rw [if_pos e]; simp
      · rw [if_neg e]; exact hs a b ha hb
    · have hc := countState_SetCell hwf hx hy State.EMPTY State.KILLED
      rw [hu] at hc
      simp only [reduceCtorEq, if_false, Nat.add_zero] at hc
      unfold MarkMiss
      rw [if_neg (by simpa using hu), weight_SetCell, hc]
      exact hw
  · rw [MarkMiss_known f x y hu]; exact ⟨hwf, hs, hw⟩

theorem ViewInv_MarkHit {f : SeabattleField} (h : ViewInv f) {x y : Nat}
    (hx : x < field_size) (hy : y < field_size) : ViewInv (MarkHit f x y) := by
  obtain ⟨hwf, hs, hw⟩ := h
  by_cases hu : Get f x y = State.UNKNOWN
  · obtain ⟨h1, h2, -, h4⟩ := MarkHit_unknown hwf hx hy hu
    refine ⟨h1, fun a b ha hb => ?_, ?_⟩
    · rw [h4 a b ha hb]
      by_cases e : a = x ∧ b = y
      · rw [if_pos e]; simp
      · rw [if_neg e]; exact hs a b ha hb
    · have hc := countState_SetCell hwf hx hy State.KILLED State.KILLED
      rw [hu] at hc
      simp only [reduceCtorEq, if_false, if_true, Nat.add_zero] at hc
      have e : countState (MarkHit f x y) State.KILLED = countState f State.KILLED + 1 := by
        rw [← hc]; unfold MarkHit
        rw [if_neg (by simpa using hu)]; rfl
      rw [h2, e, hw]; push_cast; ring
  · rw [MarkHit_known f x y hu]; exact ⟨hwf, hs, hw⟩

theorem ViewInv_Marked {f g : SeabattleField} {T : Nat → Nat → Prop}
    (h : ViewInv f) (m : Marked f g T) : ViewInv g := by
  obtain ⟨hwf, hs, hw⟩ := h
  refine ⟨m.1, fun a b ha hb => ?_, ?_⟩
  · by_cases e : Get f a b = State.UNKNOWN ∧ T a b
    · rw [(m.2.2 a b ha hb).1 e]; simp
    · rw [(m.2.2 a b ha hb).2 e]; exact hs a b ha hb
  · rw [m.2.1, hw,
      countState_congr m.1 hwf State.KILLED (fun a b ha hb => m.killed_iff ha hb)]

theorem ViewInv_MarkKill {f : SeabattleField} (h : ViewInv f) {x y : Nat}
    (hx : x < field_size) (hy : y < field_size) :
    ∃ g, MarkKill f x y = some g ∧ ViewInv g := by
  by_cases hu : Get f x y = State.UNKNOWN
  · have h0 := ViewInv_MarkHit h hx hy
    obtain ⟨g, hg, hm⟩ := MarkKill_walks h0.1 hx hy
    refine ⟨g, ?_, ViewInv_Marked h0 hm⟩
    unfold MarkKill; rw [if_neg (by simpa using hu)]; exact hg
  · exact ⟨f, MarkKill_known f x y hu, h⟩

theorem ViewInv_markAll :
    ∀ (ops : List (ShotResult × Nat × Nat)) (f : SeabattleField), ViewInv f →
      (∀ m ∈ ops, m.2.1 < field_size ∧ m.2.2 < field_size) →
      ∃ g, markAll f ops = some g ∧ ViewInv g := by
  intro ops
  induction ops with
  | nil => intro f h _; exact ⟨f, rfl, h⟩
  | cons m rest ih =>
    intro f h hb
    have hm := hb m (List.mem_cons_self _ _)
    have hrest : ∀ m2 ∈ rest, m2.2.1 < field_size ∧ m2.2.2 < field_size :=
      fun m2 h2 => hb m2 (List.mem_cons_of_mem _ h2)
    obtain ⟨r, x, y⟩ := m
    have step : ∃ f1, UpdateFieldWithResult f x y r = some f1 ∧ ViewInv f1 := by
      cases r with
      | MISS => exact ⟨_, rfl, ViewInv_MarkMiss h hm.1 hm.2⟩
      | HIT => exact ⟨_, rfl, ViewInv_MarkHit h hm.1 hm.2⟩
      | KILL => exact ViewInv_MarkKill h hm.1 hm.2
    obtain ⟨f1, e1, h1⟩ := step
    obtain ⟨g, eg, hg⟩ := ih f1 h1 hrest
    refine ⟨g, ?_, hg⟩
    unfold markAll
    simp only [e1]
    exact eg

/-- Claim C9. Starting from the default-constructed field (every cell
`UNKNOWN`, weight 20), every finite sequence of `MarkMiss` / `MarkHit` /
`MarkKill` calls at cells inside the grid runs to its end, and afterwards no
cell is `SHIP` (the array does not contain `SHIP` at all) and the weight is 20
minus the number of `KILLED` cells. -/
theorem C9_view_invariant (ops : List (ShotResult × Nat × Nat))
    (hb : ∀ m ∈ ops, m.2.1 < field_size ∧ m.2.2 < field_size) :
    (∀ a b, Get (SeabattleField.init State.UNKNOWN) a b = State.UNKNOWN) ∧
    (SeabattleField.init State.UNKNOWN).weight = 20 ∧
    ∃ g, markAll (SeabattleField.init State.UNKNOWN) ops = some g ∧
      (∀ a b, a < field_size → b < field_size → Get g a b ≠ State.SHIP) ∧
      State.SHIP ∉ g.field ∧
      g.weight = 20 - (countState g State.KILLED : Int) := by
  refine ⟨Get_init_UNKNOWN, rfl, ?_⟩
  · obtain ⟨g, hg, hwf, hs, hw⟩ := ViewInv_markAll ops _ ViewInv_init hb
    refine ⟨g, hg, hs, fun hmem => ?_, hw⟩
    obtain ⟨i, hi, e⟩ := List.getElem_of_mem hmem
    unfold SeabattleField.WF at hwf
    have h1 := getD_eq_Get g (i := i) (by omega)
    rw [List.getD_eq_getElem _ _ hi, e] at h1
    exact hs _ _ (by unfold field_size; omega) (by unfold field_size; omega) h1.symm

/-- Witness for C9: a miss at `(0, 0)`, a hit at `(3, 3)` and a kill at `(4, 3)`. -/
theorem C9_view_invariant_witness :
    (∀ m ∈ [(ShotResult.MISS, 0, 0), (ShotResult.HIT, 3, 3), (ShotResult.KILL, 4, 3)],
      m.2.1 < field_size ∧ m.2.2 < field_size) ∧
    ∃ g, markAll (SeabattleField.init State.UNKNOWN)
        [(ShotResult.MISS, 0, 0), (ShotResult.HIT, 3, 3), (ShotResult.KILL, 4, 3)] = some g ∧
      (∀ a b, a < field_size → b < field_size → Get g a b ≠ State.SHIP) ∧
      State.SHIP ∉ g.field ∧
      g.weight = 20 - (countState g State.KILLED : Int) :=
  ⟨by decide, (C9_view_invariant _ (by decide)).2.2⟩

/-- Witness for C7: on the view whose only resolved cell is the `KILLED` cell
`(3, 3)`, `MarkKill(4, 3)` returns, `(4, 3)` becomes `KILLED` and the weight
drops by 1. -/
theorem C7_MarkKill_marks_witness :
    sampleView.WF ∧ 4 < field_size ∧ 3 < field_size ∧ Get sampleView 4 3 = State.UNKNOWN ∧
    ∃ g, MarkKill sampleView 4 3 = some g ∧ Get g 4 3 = State.KILLED ∧
      g.weight = sampleView.weight - 1 :=
  ⟨by decide, by decide, by decide, by decide,
    (C7_MarkKill_marks sampleView 4 3 (by decide) (by decide) (by decide) (by decide)).imp
      fun _ h => ⟨h.1, h.2.1, h.2.2.1⟩⟩

/-- Witness for C8: the three operations at the resolved cell `(3, 3)` of the
sample view. -/
theorem C8_marks_never_overwrite_witness :
    sampleView.WF ∧ 3 < field_size ∧
    (MarkMiss (MarkMiss sampleView 3 3) 3 3 = MarkMiss sampleView 3 3) ∧
    (MarkHit (MarkHit sampleView 3 3) 3 3 = MarkHit sampleView 3 3) :=
  ⟨by decide, by decide,
    (C8_marks_never_overwrite sampleView 3 3 (by decide) (by decide) (by decide)).1.2.2,
    (C8_marks_never_overwrite sampleView 3 3 (by decide) (by decide) (by decide)).2.1.2.2⟩


/-! ### When is a ship sunk: the walks along and across a run -/

theorem clearE_run (g : SeabattleField) (x0 y len i0 : Nat)
    (hcells : ∀ i, i < len → Get g (x0 + i) y = State.SHIP ∨ Get g (x0 + i) y = State.KILLED)
    (hend : x0 + len < field_size → Get g (x0 + len) y = State.EMPTY)
    (hin : x0 + len ≤ field_size) (hi0 : i0 < len) :
    clearE g (x0 + i0) y ↔ ∀ i, i0 ≤ i → i < len → Get g (x0 + i) y = State.KILLED := by
  unfold clearE
  constructor
  · intro h i
    induction i using Nat.strong_induction_on with
    | _ i ih =>
      intro hi0 hil
      have := h (x0 + i) (by omega) (by omega) (fun c hc1 hc2 => by
        have e : c = x0 + (c - x0) := by omega
        rw [e]; exact ih (c - x0) (by omega) (by omega) (by omega))
      rcases this with h1 | h1
      · exact h1
      · rcases hcells i hil with h2 | h2
        · rw [h1] at h2; cases h2
        · exact h2
  · intro h a hxa ha hk
    by_cases h1 : a < x0 + len
    · have e : a = x0 + (a - x0) := by omega
      rw [e]; exact Or.inl (h (a - x0) (by omega) (by omega))
    · by_cases h2 : a = x0 + len
      · rw [h2]; exact Or.inr (hend (by omega))
      · have := hk (x0 + len) (by omega) (by omega)
        rw [hend (by omega)] at this; cases this

theorem clearW_run (g : SeabattleField) (x0 y len i0 : Nat)
    (hcells : ∀ i, i < len → Get g (x0 + i) y = State.SHIP ∨ Get g (x0 + i) y = State.KILLED)
    (hend : 0 < x0 → Get g (x0 - 1) y = State.EMPTY) (hi0 : i0 < len) :
    clearW g (x0 + i0) y ↔ ∀ i, i ≤ i0 → i < len → Get g (x0 + i) y = State.KILLED := by
  unfold clearW
  constructor
  · intro h
    have key : ∀ k i, i0 - i = k → i ≤ i0 → i < len → Get g (x0 + i) y = State.KILLED := by
      intro k
      induction k using Nat.strong_induction_on with
      | _ k ih =>
        intro i hk hi0 hil
        have := h (x0 + i) (by omega) (fun c hc1 hc2 => by
          have e : c = x0 + (c - x0) := by omega
          rw [e]; exact ih (i0 - (c - x0)) (by omega) (c - x0) rfl (by omega) (by omega))
        rcases this with h1 | h1
        · exact h1
        · rcases hcells i hil with h2 | h2
          · rw [h1] at h2; cases h2
          · exact h2
    exact fun i hi hl => key (i0 - i) i rfl hi hl
  · intro h a hxa hk
    by_cases h1 : x0 ≤ a
    · have e : a = x0 + (a - x0) := by omega
      rw [e]; exact Or.inl (h (a - x0) (by omega) (by omega))
    · by_cases h2 : a + 1 = x0
      · have e : a = x0 - 1 := by omega
        rw [e]; exact Or.inr (hend (by omega))
      · have := hk (x0 - 1) (by omega) (by omega)
        rw [hend (by omega)] at this; cases this

theorem clearS_run (g : SeabattleField) (x y0 len i0 : Nat)
    (hcells : ∀ i, i < len → Get g x (y0 + i) = State.SHIP ∨ Get g x (y0 + i) = State.KILLED)
    (hend : y0 + len < field_size → Get g x (y0 + len) = State.EMPTY)
    (hin : y0 + len ≤ field_size) (hi0 : i0 < len) :
    clearS g x (y0 + i0) ↔ ∀ i, i0 ≤ i → i < len → Get g x (y0 + i) = State.KILLED := by
  unfold clearS
  constructor
  · intro h i
    induction i using Nat.strong_induction_on with
    | _ i ih =>
      intro hi0 hil
      have := h (y0 + i) (by omega) (by omega) (fun c hc1 hc2 => by
        have e : c = y0 + (c - y0) := by omega
        rw [e]; exact ih (c - y0) (by omega) (by omega) (by omega))
      rcases this with h1 | h1
      · exact h1
      · rcases hcells i hil with h2 | h2
        · rw [h1] at h2; cases h2
        · exact h2
  · intro h a hxa ha hk
    by_cases h1 : a < y0 + len
    · have e : a = y0 + (a - y0) := by omega
      rw [e]; exact Or.inl (h (a - y0) (by omega) (by omega))
    · by_cases h2 : a = y0 + len
      · rw [h2]; exact Or.inr (hend (by omega))
      · have := hk (y0 + len) (by omega) (by omega)
        rw [hend (by omega)] at this; cases this

theorem clearN_run (g : SeabattleField) (x y0 len i0 : Nat)
    (hcells : ∀ i, i < len → Get g x (y0 + i) = State.SHIP ∨ Get g x (y0 + i) = State.KILLED)
    (hend : 0 < y0 → Get g x (y0 - 1) = State.EMPTY) (hi0 : i0 < len) :
    clearN g x (y0 + i0) ↔ ∀ i, i ≤ i0 → i < len → Get g x (y0 + i) = State.KILLED := by
  unfold clearN
  constructor
  · intro h
    have key : ∀ k i, i0 - i = k → i ≤ i0 → i < len → Get g x (y0 + i) = State.KILLED := by
      intro k
      induction k using Nat.strong_induction_on with
      | _ k ih =>
        intro i hk hi0 hil
        have := h (y0 + i) (by omega) (fun c hc1 hc2 => by
          have e : c = y0 + (c - y0) := by omega
          rw [e]; exact ih (i0 - (c - y0)) (by omega) (c - y0) rfl (by omega) (by omega))
        rcases this with h1 | h1
        · exact h1
        · rcases hcells i hil with h2 | h2
          · rw [h1] at h2; cases h2
          · exact h2
    exact fun i hi hl => key (i0 - i) i rfl hi hl
  · intro h a hxa hk
    by_cases h1 : y0 ≤ a
    · have e : a = y0 + (a - y0) := by omega
      rw [e]; exact Or.inl (h (a - y0) (by omega) (by omega))
    · by_cases h2 : a + 1 = y0
      · have e : a = y0 - 1 := by omega
        rw [e]; exact Or.inr (hend (by omega))
      · have := hk (y0 - 1) (by omega) (by omega)
        rw [hend (by omega)] at this; cases this

/-- A walk across a run: from a `KILLED` cell whose next cell in the
direction is `EMPTY` or outside the grid, the walk meets no obstacle. -/
theorem clearE_side (g : SeabattleField) (x y : Nat) (hk : Get g x y = State.KILLED)
    (hn : x + 1 < field_size → Get g (x + 1) y = State.EMPTY) : clearE g x y := by
  intro a hxa ha hc
  by_cases h1 : a = x
  · rw [h1]; exact Or.inl hk
  · by_cases h2 : a = x + 1
    · rw [h2]; exact Or.inr (hn (by omega))
    · have := hc (x + 1) (by omega) (by omega)
      rw [hn (by omega)] at this; cases this

theorem clearW_side (g : SeabattleField) (x y : Nat) (hk : Get g x y = State.KILLED)
    (hn : 0 < x → Get g (x - 1) y = State.EMPTY) : clearW g x y := by
  intro a hxa hc
  by_cases h1 : a = x
  · rw [h1]; exact Or.inl hk
  · by_cases h2 : a = x - 1
    · rw [h2]; exact Or.inr (hn (by omega))
    · have := hc (x - 1) (by omega) (by omega)
      rw [hn (by omega)] at this; cases this

theorem clearS_side (g : SeabattleField) (x y : Nat) (hk : Get g x y = State.KILLED)
    (hn : y + 1 < field_size → Get g x (y + 1) = State.EMPTY) : clearS g x y := by
  intro a hxa ha hc
  by_cases h1 : a = y
  · rw [h1]; exact Or.inl hk
  · by_cases h2 : a = y + 1
    · rw [h2]; exact Or.inr (hn (by omega))
    · have := hc (y + 1) (by omega) (by omega)
      rw [hn (by omega)] at this; cases this

theorem clearN_side (g : SeabattleField) (x y : Nat) (hk : Get g x y = State.KILLED)
    (hn : 0 < y → Get g x (y - 1) = State.EMPTY) : clearN g x y := by
  intro a hxa hc
  by_cases h1 : a = y
  · rw [h1]; exact Or.inl hk
  · by_cases h2 : a = y - 1
    · rw [h2]; exact Or.inr (hn (by omega))
    · have := hc (y - 1) (by omega) (by omega)
      rw [hn (by omega)] at this; cases this


/-! ### Fleets -/

theorem cheb_comm (p q : Nat × Nat) : cheb p q = cheb q p := by
  unfold cheb; omega

theorem mem_cells_iff (s : Ship) (p : Nat × Nat) :
    p ∈ s.cells ↔ ∃ i, i < s.length ∧
      p = if s.horizontal = true then (s.x + i, s.y) else (s.x, s.y + i) := by
  unfold Ship.cells
  simp only [List.mem_map, List.mem_range]
  constructor
  · rintro ⟨i, hi, e⟩; exact ⟨i, hi, e.symm⟩
  · rintro ⟨i, hi, e⟩; exact ⟨i, hi, e.symm⟩

theorem fleet_separated {ships : List Ship}
    (hp : ships.Pairwise (fun s t => ∀ p ∈ s.cells, ∀ q ∈ t.cells, 2 ≤ cheb p q))
    {s t : Ship} (hs : s ∈ ships) (ht : t ∈ ships) (hne : s ≠ t)
    {p q : Nat × Nat} (h1 : p ∈ s.cells) (h2 : q ∈ t.cells) : 2 ≤ cheb p q := by
  have hsym : Symmetric (fun s t : Ship => ∀ p ∈ s.cells, ∀ q ∈ t.cells, 2 ≤ cheb p q) := by
    intro a b h p hp q hq
    rw [cheb_comm]; exact h q hq p hp
  exact hp.forall hsym hs ht hne p h1 q h2

/-- A cell of the grid next to a cell of a ship of the fleet, and not on that
ship, is `EMPTY`. -/
theorem fleet_neighbour_empty {g : SeabattleField} {ships : List Ship}
    (hf : IsFleet g ships) {s : Ship} (hs : s ∈ ships) {p : Nat × Nat} (hp : p ∈ s.cells)
    {a b : Nat} (ha : a < field_size) (hb : b < field_size)
    (hc : cheb p (a, b) ≤ 1) (hnot : (a, b) ∉ s.cells) : Get g a b = State.EMPTY := by
  refine hf.2.2.2 a ha b hb (fun t ht hqt => ?_)
  by_cases e : s = t
  · subst e; exact hnot hqt
  · have := fleet_separated hf.2.1 hs ht e hp hqt
    omega

/-- On a fleet, the four walks from a `KILLED` cell of a ship meet no obstacle
exactly when every cell of that ship is `KILLED`. -/
theorem fleet_sunk_iff {g : SeabattleField} {ships : List Ship} (hf : IsFleet g ships)
    {s : Ship} (hs : s ∈ ships) {x y : Nat} (hxy : (x, y) ∈ s.cells)
    (hk : Get g x y = State.KILLED) :
    (clearE g x y ∧ clearW g x y ∧ clearS g x y ∧ clearN g x y) ↔
      ∀ p ∈ s.cells, Get g p.1 p.2 = State.KILLED := by
  obtain ⟨i0, hi0, e0⟩ := (mem_cells_iff s (x, y)).mp hxy
  have hinb := hf.1 s hs
  have hst := hf.2.2.1 s hs
  cases hh : s.horizontal with
  | true =>
    rw [hh, if_pos rfl] at e0
    obtain ⟨ex, ey⟩ := Prod.mk.inj e0
    have cell : ∀ i, i < s.length → (s.x + i, s.y) ∈ s.cells := fun i hi =>
      (mem_cells_iff s _).mpr ⟨i, hi, by rw [hh, if_pos rfl]⟩
    have notcell : ∀ a b, (b ≠ s.y ∨ a < s.x ∨ s.x + s.length ≤ a) → (a, b) ∉ s.cells := by
      intro a b hab hm
      obtain ⟨i, hi, e⟩ := (mem_cells_iff s _).mp hm
      rw [hh, if_pos rfl] at e
      obtain ⟨e1, e2⟩ := Prod.mk.inj e
      omega
    have hlast := hinb _ (cell (s.length - 1) (by omega))
    unfold inBounds at hlast
    simp only at hlast
    have hxb : x < field_size := by
      have := (hinb _ hxy).1; exact this
    have hcells : ∀ i, i < s.length →
        Get g (s.x + i) s.y = State.SHIP ∨ Get g (s.x + i) s.y = State.KILLED :=
      fun i hi => hst _ (cell i hi)
    have hE := clearE_run g s.x s.y s.length i0 hcells
      (fun hlt => fleet_neighbour_empty hf hs (cell (s.length - 1) (by omega)) hlt hlast.2
        (by unfold cheb; simp only; omega) (notcell _ _ (by omega)))
      (by omega) hi0
    have hW := clearW_run g s.x s.y s.length i0 hcells
      (fun hlt => fleet_neighbour_empty hf hs (cell 0 (by omega)) (by omega) hlast.2
        (by unfold cheb; simp only; omega) (notcell _ _ (by omega))) hi0
    have hS : clearS g x y := clearS_side g x y hk
      (fun hlt => fleet_neighbour_empty hf hs hxy hxb hlt
        (by unfold cheb; simp only; omega) (notcell _ _ (by omega)))
    have hN : clearN g x y := clearN_side g x y hk
      (fun hlt => fleet_neighbour_empty hf hs hxy hxb (by omega)
        (by unfold cheb; simp only; omega) (notcell _ _ (by omega)))
    rw [ex, ey] at hS hN ⊢
    rw [hE, hW]
    constructor
    · rintro ⟨h1, h2, -, -⟩ p hp
      obtain ⟨i, hi, e⟩ := (mem_cells_iff s p).mp hp
      rw [hh, if_pos rfl] at e
      rw [e]
      by_cases hle : i0 ≤ i
      · exact h1 i hle hi
      · exact h2 i (by omega) hi
    · intro h
      exact ⟨fun i _ hi => h _ (cell i hi), fun i _ hi => h _ (cell i hi), hS, hN⟩
  | false =>
    rw [hh, if_neg (by simp)] at e0
    obtain ⟨ex, ey⟩ := Prod.mk.inj e0
    have cell : ∀ i, i < s.length → (s.x, s.y + i) ∈ s.cells := fun i hi =>
      (mem_cells_iff s _).mpr ⟨i, hi, by rw [hh, if_neg (by simp)]⟩
    have notcell : ∀ a b, (a ≠ s.x ∨ b < s.y ∨ s.y + s.length ≤ b) → (a, b) ∉ s.cells := by
      intro a b hab hm
      obtain ⟨i, hi, e⟩ := (mem_cells_iff s _).mp hm
      rw [hh, if_neg (by simp)] at e
      obtain ⟨e1, e2⟩ := Prod.mk.inj e
      omega
    have hlast := hinb _ (cell (s.length - 1) (by omega))
    unfold inBounds at hlast
    simp only at hlast
    have hyb : y < field_size := by
      have := (hinb _ hxy).2; exact this
    have hcells : ∀ i, i < s.length →
        Get g s.x (s.y + i) = State.SHIP ∨ Get g s.x (s.y + i) = State.KILLED :=
      fun i hi => hst _ (cell i hi)
    have hS := clearS_run g s.x s.y s.length i0 hcells
      (fun hlt => fleet_neighbour_empty hf hs (cell (s.length - 1) (by omega)) hlast.1 hlt
        (by unfold cheb; simp only; omega) (notcell _ _ (by omega)))
      (by omega) hi0
    have hN := clearN_run g s.x s.y s.length i0 hcells
      (fun hlt => fleet_neighbour_empty hf hs (cell 0 (by omega)) hlast.1 (by omega)
        (by unfold cheb; simp only; omega) (notcell _ _ (by omega))) hi0
    have hE : clearE g x y := clearE_side g x y hk
      (fun hlt => fleet_neighbour_empty hf hs hxy hlt hyb
        (by unfold cheb; simp only; omega) (notcell _ _ (by omega)))
    have hW : clearW g x y := clearW_side g x y hk
      (fun hlt => fleet_neighbour_empty hf hs hxy (by omega) hyb
        (by unfold cheb; simp only; omega) (notcell _ _ (by omega)))
    rw [ex, ey] at hE hW ⊢
    rw [hS, hN]
    constructor
    · rintro ⟨-, -, h1, h2⟩ p hp
      obtain ⟨i, hi, e⟩ := (mem_cells_iff s p).mp hp
      rw [hh, if_neg (by simp)] at e
      rw [e]
      by_cases hle : i0 ≤ i
      · exact h1 i hle hi
      · exact h2 i (by omega) hi
    · intro h
      exact ⟨hE, hW, fun i _ hi => h _ (cell i hi), fun i _ hi => h _ (cell i hi)⟩


theorem IsFleet_shotField {f : SeabattleField} {ships : List Ship} (hwf : f.WF)
    (hf : IsFleet f ships) {x y : Nat} (hx : x < field_size) (hy : y < field_size)
    (hs : Get f x y = State.SHIP) : IsFleet (shotField f x y) ships := by
  refine ⟨hf.1, hf.2.1, fun s hs2 p hp => ?_, fun a ha b hb hn => ?_⟩
  · have hb := hf.1 s hs2 p hp
    rw [Get_shotField hwf hx hy hb.1 hb.2]
    by_cases e : p.1 = x ∧ p.2 = y
    · rw [if_pos e]; exact Or.inr rfl
    · rw [if_neg e]; exact hf.2.2.1 s hs2 p hp
  · rw [Get_shotField hwf hx hy ha hb]
    have h1 := hf.2.2.2 a ha b hb hn
    by_cases e : a = x ∧ b = y
    · rw [e.1, e.2, hs] at h1; cases h1
    · rw [if_neg e]; exact h1

theorem fleet_ship_of_SHIP {f : SeabattleField} {ships : List Ship} (hf : IsFleet f ships)
    {x y : Nat} (hx : x < field_size) (hy : y < field_size)
    (hs : Get f x y ≠ State.EMPTY) : ∃ s ∈ ships, (x, y) ∈ s.cells := by
  by_contra hcon
  refine hs (hf.2.2.2 x hx y hy (fun s hs2 hm => hcon ⟨s, hs2, hm⟩))

/-- Claim C3. For every own field whose `SHIP` and `KILLED` cells form straight
runs inside the grid, no two of them adjacent (not even diagonally), with every
other cell `EMPTY`, and for every cell `(x, y)` inside the grid: `Shoot(x, y)`
returns; it returns `MISS` exactly when the cell is not `SHIP`; and when the
cell is `SHIP`, it lies on a ship of the fleet, the result is `KILL` exactly
when after the shot every cell of that ship is `KILLED`, and `HIT` exactly when
some cell of that ship is still `SHIP`. -/
theorem C3_Shoot_result (f : SeabattleField) (ships : List Ship) (x y : Nat) (hwf : f.WF)
    (hf : IsFleet f ships) (hx : x < field_size) (hy : y < field_size) :
    ∃ r g, Shoot f x y = some (r, g) ∧
      (r = ShotResult.MISS ↔ Get f x y ≠ State.SHIP) ∧
      (Get f x y = State.SHIP →
        (∃ s ∈ ships, (x, y) ∈ s.cells) ∧
        ∀ s ∈ ships, (x, y) ∈ s.cells →
          (r = ShotResult.KILL ↔ ∀ p ∈ s.cells, Get g p.1 p.2 = State.KILLED) ∧
          (r = ShotResult.HIT ↔ ∃ p ∈ s.cells, Get g p.1 p.2 = State.SHIP)) := by
  by_cases h : Get f x y = State.SHIP
  · obtain ⟨b, hb, hiff⟩ := Shoot_ship f x y hx hy h
    have hg := IsFleet_shotField hwf hf hx hy h
    have hk : Get (shotField f x y) x y = State.KILLED := by
      rw [Get_shotField hwf hx hy hx hy]; simp
    refine ⟨_, _, hb, ?_, fun _ => ⟨fleet_ship_of_SHIP hf hx hy (by rw [h]; simp), ?_⟩⟩
    · cases b <;> simp [h]
    · intro s hs hxy
      have hsunk := hiff.trans (fleet_sunk_iff hg hs hxy hk)
      have hcells := hg.2.2.1 s hs
      constructor
      · rw [← hsunk]; cases b <;> simp
      · have : (∃ p ∈ s.cells, Get (shotField f x y) p.1 p.2 = State.SHIP) ↔ ¬ b = true := by
          rw [hsunk]
          constructor
          · rintro ⟨p, hp, e⟩ hall
            have := hall p hp
            rw [e] at this; cases this
          · intro hn
            by_contra hcon
            refine hn (fun p hp => ?_)
            rcases hcells p hp with h1 | h1
            · exact absurd ⟨p, hp, h1⟩ hcon
            · exact h1
        rw [this]; cases b <;> simp
  · exact ⟨_, _, Shoot_miss f x y h, by simp [h], fun h2 => absurd h2 h⟩

/-- Witness for C3: the two-cell ship, shot at `(0, 0)`. -/
theorem C3_Shoot_result_witness :
    twoCellField.WF ∧ IsFleet twoCellField twoCellFleet ∧ 0 < field_size ∧
    ∃ r g, Shoot twoCellField 0 0 = some (r, g) ∧
      (r = ShotResult.MISS ↔ Get twoCellField 0 0 ≠ State.SHIP) :=
  ⟨by decide, by decide, by decide,
    (C3_Shoot_result twoCellField twoCellFleet 0 0 (by decide) (by decide) (by decide)
      (by decide)).imp fun _ h => h.imp fun _ h2 => ⟨h2.1, h2.2.1⟩⟩


/-! ### Shooting a single ship cell by cell -/

theorem cells_nodup (s : Ship) : s.cells.Nodup := by
  unfold Ship.cells
  refine List.Nodup.map ?_ (List.nodup_range _)
  intro i j h
  simp only at h
  split at h
  · exact Nat.add_left_cancel (Prod.mk.inj h).1
  · exact Nat.add_left_cancel (Prod.mk.inj h).2

theorem cells_length (s : Ship) : s.cells.length = s.length := by
  unfold Ship.cells; simp

/-- Shooting, in any order without repetition, at the cells of a ship that are
still `SHIP` gives `HIT` for all but the last and `KILL` for the last. -/
theorem shootAll_remaining (s : Ship) :
    ∀ (rest : List (Nat × Nat)) (f : SeabattleField), f.WF → IsFleet f [s] →
      rest.Nodup → rest ≠ [] → (∀ p ∈ rest, p ∈ s.cells) →
      (∀ p ∈ s.cells, (p ∈ rest → Get f p.1 p.2 = State.SHIP) ∧
        (p ∉ rest → Get f p.1 p.2 = State.KILLED)) →
      ∃ g, shootAll f rest =
        some (List.replicate (rest.length - 1) ShotResult.HIT ++ [ShotResult.KILL], g) := by
  intro rest
  induction rest with
  | nil => intro f _ _ _ h; exact absurd rfl h
  | cons p tl ih =>
    intro f hwf hf hnd _ hsub hst
    have hp : p ∈ s.cells := hsub p (List.mem_cons_self _ _)
    have hpb := hf.1 s (List.mem_singleton.mpr rfl) p hp
    have hps : Get f p.1 p.2 = State.SHIP := (hst p hp).1 (List.mem_cons_self _ _)
    obtain ⟨b, hb, hiff⟩ := Shoot_ship f p.1 p.2 hpb.1 hpb.2 hps
    have hg := IsFleet_shotField hwf hf hpb.1 hpb.2 hps
    have hk : Get (shotField f p.1 p.2) p.1 p.2 = State.KILLED := by
      rw [Get_shotField hwf hpb.1 hpb.2 hpb.1 hpb.2]; simp
    have hsunk := hiff.trans (fleet_sunk_iff hg (List.mem_singleton.mpr rfl) hp hk)
    have hptl : p ∉ tl := (List.nodup_cons.mp hnd).1
    have hnew : ∀ q ∈ s.cells,
        (q ∈ tl → Get (shotField f p.1 p.2) q.1 q.2 = State.SHIP) ∧
        (q ∉ tl → Get (shotField f p.1 p.2) q.1 q.2 = State.KILLED) := by
      intro q hq
      have hqb := hf.1 s (List.mem_singleton.mpr rfl) q hq
      rw [Get_shotField hwf hpb.1 hpb.2 hqb.1 hqb.2]
      by_cases e : q.1 = p.1 ∧ q.2 = p.2
      · have e2 : q = p := Prod.ext e.1 e.2
        rw [if_pos e]
        exact ⟨fun h => absurd (e2 ▸ h) hptl, fun _ => rfl⟩
      · have e2 : q ≠ p := fun h => e ⟨by rw [h], by rw [h]⟩
        rw [if_neg e]
        exact ⟨fun h => (hst q hq).1 (List.mem_cons_of_mem _ h),
          fun h => (hst q hq).2 (fun hm => by
            rcases List.mem_cons.mp hm with h1 | h1
            · exact e2 h1
            · exact h h1)⟩
    cases tl with
    | nil =>
      have hbt : b = true := hsunk.mpr (fun q hq => (hnew q hq).2 (List.not_mem_nil q))
      refine ⟨shotField f p.1 p.2, ?_⟩
      unfold shootAll
      rw [hb, hbt]
      rfl
    | cons q tl2 =>
      have hbf : b = false := by
        cases b with
        | false => rfl
        | true =>
          have hq : q ∈ s.cells := hsub q (List.mem_cons_of_mem _ (List.mem_cons_self _ _))
          have h1 := hsunk.mp rfl q hq
          rw [(hnew q hq).1 (List.mem_cons_self _ _)] at h1
          cases h1
      obtain ⟨g, hgs⟩ := ih (shotField f p.1 p.2) (WF_shotField _ _ hwf) hg
        (List.nodup_cons.mp hnd).2 (by simp)
        (fun r hr => hsub r (List.mem_cons_of_mem _ hr)) hnew
      refine ⟨g, ?_⟩
      rw [shootAll, hb, hbf]
      simp only [Bool.false_eq_true, if_false]
      rw [hgs]
      simp only [List.length_cons, Nat.add_sub_cancel]
      rfl

/-- Claim C4. For every single ship of length 1 to 4, horizontal or vertical,
lying inside the grid, on a field whose other cells are all `EMPTY`, and for
every permutation of the cells of the ship: calling `Shoot` on the cells in
that order returns `HIT` for every cell but the last and `KILL` for the last. -/
theorem C4_single_ship_any_order (f : SeabattleField) (s : Ship)
    (order : List (Nat × Nat)) (hwf : f.WF)
    (hlen : 1 ≤ s.length ∧ s.length ≤ 4) (hin : ∀ p ∈ s.cells, inBounds p)
    (hfield : ∀ x, x < field_size → ∀ y, y < field_size →
      Get f x y = if (x, y) ∈ s.cells then State.SHIP else State.EMPTY)
    (hperm : order.Perm s.cells) :
    ∃ g, shootAll f order =
      some (List.replicate (s.length - 1) ShotResult.HIT ++ [ShotResult.KILL], g) := by
  have hf : IsFleet f [s] := by
    refine ⟨fun t ht => ?_, List.pairwise_singleton _ _, fun t ht p hp => ?_,
      fun x hx y hy hn => ?_⟩
    · rw [List.mem_singleton.mp ht]; exact hin
    · rw [List.mem_singleton.mp ht] at hp
      have hb := hin p hp
      rw [hfield p.1 hb.1 p.2 hb.2, if_pos hp]; exact Or.inl rfl
    · rw [hfield x hx y hy, if_neg (hn s (List.mem_singleton.mpr rfl))]
  have hl : order.length = s.length := by rw [hperm.length_eq, cells_length]
  have := shootAll_remaining s order f hwf hf (hperm.nodup_iff.mpr (cells_nodup s))
    (by intro h; rw [h] at hl; simp at hl; omega)
    (fun p hp => hperm.mem_iff.mp hp)
    (fun p hp => ⟨fun _ => by
        have hb := hin p hp
        rw [hfield p.1 hb.1 p.2 hb.2, if_pos hp],
      fun h => absurd (hperm.mem_iff.mpr hp) h⟩)
  rw [hl] at this
  exact this

/-- Witness for C4: the two-cell ship shot at `(1, 0)` first and then at `(0, 0)`. -/
theorem C4_single_ship_any_order_witness :
    twoCellField.WF ∧
    ∃ g, shootAll twoCellField [(1, 0), (0, 0)] =
      some ([ShotResult.HIT, ShotResult.KILL], g) :=
  ⟨by decide,
    C4_single_ship_any_order twoCellField { x := 0, y := 0, horizontal := true, length := 2 }
      [(1, 0), (0, 0)] (by decide) (by decide) (by decide) (by decide)
      (List.Perm.swap _ _ _)⟩


/-! ### Random placement -/

theorem setErase_mem {s : CellSet} {p q : Nat × Nat} : q ∈ setErase s p ↔ q ∈ s ∧ q ≠ p := by
  unfold setErase; simp

theorem szAdd_zero {x : Nat} (hx : x < field_size) : szAdd x 0 = x := by
  unfold szAdd field_size at *; omega

theorem szAdd_one {x : Nat} (hx : x < field_size) : szAdd x 1 = x + 1 := by
  unfold szAdd field_size at *; omega

theorem szAdd_neg_one {x : Nat} (hx : x < field_size) :
    (0 < x ∧ szAdd x (-1) = x - 1) ∨ (x = 0 ∧ field_size ≤ szAdd x (-1)) := by
  unfold szAdd field_size at *; omega

theorem mem_mark_cell_as_used_aux {avail : CellSet} {x y : Nat} {p : Nat × Nat}
    (h : p ∈ mark_cell_as_used avail x y) :
    p ∈ avail ∧ ∀ dx dy : Int, (dx = -1 ∨ dx = 0 ∨ dx = 1) → (dy = -1 ∨ dy = 0 ∨ dy = 1) →
      ¬ (p.1 = szAdd x dx ∧ p.2 = szAdd y dy) := by
  unfold mark_cell_as_used at h
  simp only [List.foldl_cons, List.foldl_nil, setErase_mem, ne_eq, Prod.ext_iff, not_and] at h
  obtain ⟨⟨⟨⟨⟨⟨⟨⟨⟨h0, h1⟩, h2⟩, h3⟩, h4⟩, h5⟩, h6⟩, h7⟩, h8⟩, h9⟩ := h
  refine ⟨h0, ?_⟩
  rintro dx dy (rfl | rfl | rfl) (rfl | rfl | rfl) ⟨e1, e2⟩
  · exact h1 e1 e2
  · exact h4 e1 e2
  · exact h7 e1 e2
  · exact h2 e1 e2
  · exact h5 e1 e2
  · exact h8 e1 e2
  · exact h3 e1 e2
  · exact h6 e1 e2
  · exact h9 e1 e2

theorem mem_mark_cell_as_used {avail : CellSet} {x y : Nat} {p : Nat × Nat}
    (h : p ∈ mark_cell_as_used avail x y) : p ∈ avail ∧ (inBounds p → 2 ≤ cheb p (x, y)) := by
  obtain ⟨h0, hne⟩ := mem_mark_cell_as_used_aux h
  refine ⟨h0, fun hb => ?_⟩
  obtain ⟨hb1, hb2⟩ := hb
  by_contra hlt
  unfold cheb at hlt
  simp only at hlt
  unfold field_size at hb1 hb2
  refine hne ((p.1 : Int) - x) ((p.2 : Int) - y) (by omega) (by omega) ⟨?_, ?_⟩
  · unfold szAdd; omega
  · unfold szAdd; omega

theorem markStep_spec (cs : List (Nat × Nat)) :
    ∀ (st : SeabattleField × CellSet), st.1.WF →
      (∀ p ∈ cs, inBounds p ∧ Get st.1 p.1 p.2 ≠ State.SHIP) → cs.Nodup →
      (cs.foldl (fun s c => (SetCell s.1 c.1 c.2 State.SHIP, mark_cell_as_used s.2 c.1 c.2))
          st).1.WF ∧
      (cs.foldl (fun s c => (SetCell s.1 c.1 c.2 State.SHIP, mark_cell_as_used s.2 c.1 c.2))
          st).1.weight = st.1.weight ∧
      (∀ a b, a < field_size → b < field_size →
        Get (cs.foldl
          (fun s c => (SetCell s.1 c.1 c.2 State.SHIP, mark_cell_as_used s.2 c.1 c.2)) st).1 a b =
          if (a, b) ∈ cs then State.SHIP else Get st.1 a b) ∧
      countState (cs.foldl
          (fun s c => (SetCell s.1 c.1 c.2 State.SHIP, mark_cell_as_used s.2 c.1 c.2)) st).1
          State.SHIP = countState st.1 State.SHIP + cs.length ∧
      (∀ p ∈ (cs.foldl
          (fun s c => (SetCell s.1 c.1 c.2 State.SHIP, mark_cell_as_used s.2 c.1 c.2)) st).2,
        p ∈ st.2 ∧ (inBounds p → ∀ q ∈ cs, 2 ≤ cheb p q)) := by
  induction cs with
  | nil =>
    intro st hwf _ _
    exact ⟨hwf, rfl, fun a b _ _ => by simp, by simp,
      fun p hp => ⟨hp, fun _ q hq => absurd hq (List.not_mem_nil q)⟩⟩
  | cons c cs ih =>
    intro st hwf hcs hnd
    have hc := hcs c (List.mem_cons_self _ _)
    obtain ⟨hcn, hnd2⟩ := List.nodup_cons.mp hnd
    have hwf1 : (SetCell st.1 c.1 c.2 State.SHIP).WF := WF_SetCell _ _ _ hwf
    have hget1 : ∀ a b, a < field_size → b < field_size →
        Get (SetCell st.1 c.1 c.2 State.SHIP) a b =
          if a = c.1 ∧ b = c.2 then State.SHIP else Get st.1 a b :=
      fun a b ha hb => Get_SetCell hwf _ hc.1.1 hc.1.2 ha hb
    have hcount := countState_SetCell hwf hc.1.1 hc.1.2 State.SHIP State.SHIP
    rw [if_neg hc.2, if_pos rfl] at hcount
    obtain ⟨i1, i2, i3, i4, i5⟩ := ih
      (SetCell st.1 c.1 c.2 State.SHIP, mark_cell_as_used st.2 c.1 c.2) hwf1
      (fun p hp => by
        have hpb := hcs p (List.mem_cons_of_mem _ hp)
        refine ⟨hpb.1, ?_⟩
        simp only
        rw [hget1 p.1 p.2 hpb.1.1 hpb.1.2, if_neg]
        · exact hpb.2
        · intro e
          exact hcn ((Prod.ext e.1 e.2 : p = c) ▸ hp))
      hnd2
    simp only [List.foldl_cons]
    refine ⟨i1, i2, fun a b ha hb => ?_, ?_, fun p hp => ?_⟩
    · rw [i3 a b ha hb]
      simp only
      rw [hget1 a b ha hb]
      by_cases e1 : (a, b) ∈ cs
      · rw [if_pos e1, if_pos (List.mem_cons_of_mem _ e1)]
      · rw [if_neg e1]
        by_cases e2 : a = c.1 ∧ b = c.2
        · rw [if_pos e2, if_pos]
          rw [e2.1, e2.2]; exact List.mem_cons_self _ _
        · rw [if_neg e2, if_neg]
          intro hm
          rcases List.mem_cons.mp hm with h1 | h1
          · exact e2 ⟨by rw [← h1], by rw [← h1]⟩
          · exact e1 h1
    · rw [i4]; simp only [List.length_cons]; omega
    · obtain ⟨h1, h2⟩ := i5 p hp
      obtain ⟨h3, h4⟩ := mem_mark_cell_as_used h1
      refine ⟨h3, fun hb q hq => ?_⟩
      rcases List.mem_cons.mp hq with e | e
      · rw [e]; exact h4 hb
      · exact h2 hb q e

theorem mark_ship_eq (st : SeabattleField × CellSet) (x y dir len : Nat) :
    mark_ship st x y dir len =
      (placedCells x y dir len).foldl
        (fun s c => (SetCell s.1 c.1 c.2 State.SHIP, mark_cell_as_used s.2 c.1 c.2)) st := by
  unfold mark_ship placedCells
  rw [List.foldl_map]

theorem check_ship_available_cells {avail : CellSet} {x y dir len : Nat}
    (h : check_ship_available avail x y dir len = true) :
    ∀ p ∈ placedCells x y dir len, inBounds p ∧ p ∈ avail := by
  intro p hp
  unfold placedCells at hp
  obtain ⟨i, hi, e⟩ := List.mem_map.mp hp
  unfold check_ship_available at h
  have := List.all_eq_true.mp h i hi
  simp only at this
  split at this
  · cases this
  · split at this
    · cases this
    · rename_i h1 h2
      rw [← e]
      exact ⟨⟨by simp only; omega, by simp only; omega⟩, not_not.mp h2⟩


theorem dir_to_dxdy_cases {dir : Nat} (h : dir < 4) :
    (dir = 0 ∧ dir_to_dxdy dir = (0, 1)) ∨ (dir = 1 ∧ dir_to_dxdy dir = (1, 0)) ∨
    (dir = 2 ∧ dir_to_dxdy dir = (0, -1)) ∨ (dir = 3 ∧ dir_to_dxdy dir = (-1, 0)) := by
  have : dir = 0 ∨ dir = 1 ∨ dir = 2 ∨ dir = 3 := by omega
  rcases this with e | e | e | e <;> subst e <;> simp [dir_to_dxdy]

theorem mem_placedCells_iff (x y dir len : Nat) (p : Nat × Nat) :
    p ∈ placedCells x y dir len ↔ ∃ i, i < len ∧
      p = (szAdd x ((dir_to_dxdy dir).1 * (i : Int)), szAdd y ((dir_to_dxdy dir).2 * (i : Int))) := by
  unfold placedCells
  simp only [List.mem_map, List.mem_range]
  constructor
  · rintro ⟨i, hi, e⟩; exact ⟨i, hi, e.symm⟩
  · rintro ⟨i, hi, e⟩; exact ⟨i, hi, e.symm⟩

theorem placedShip_length (x y dir len : Nat) : (placedShip x y dir len).length = len := by
  unfold placedShip; split_ifs <;> rfl

/-- The cells assigned by `mark_ship`, when they all lie inside the grid, are
the cells of the run `placedShip`. -/
theorem placedShip_cells {x y dir len : Nat} (hd : dir < 4)
    (hx : x < field_size) (hy : y < field_size)
    (hin : ∀ p ∈ placedCells x y dir len, inBounds p) (p : Nat × Nat) :
    p ∈ (placedShip x y dir len).cells ↔ p ∈ placedCells x y dir len := by
  have hcell : ∀ i, i < len → inBounds
      (szAdd x ((dir_to_dxdy dir).1 * (i : Int)), szAdd y ((dir_to_dxdy dir).2 * (i : Int))) :=
    fun i hi => hin _ ((mem_placedCells_iff x y dir len _).mpr ⟨i, hi, rfl⟩)
  rw [mem_placedCells_iff, mem_cells_iff]
  unfold inBounds field_size at hcell
  unfold field_size at hx hy
  rcases dir_to_dxdy_cases hd with ⟨e, ed⟩ | ⟨e, ed⟩ | ⟨e, ed⟩ | ⟨e, ed⟩
  · subst e
    rw [ed] at hcell ⊢
    have hlen : len ≤ 8 - y := by
      by_contra hc
      have := (hcell (8 - y) (by omega)).2
      unfold szAdd at this; simp only at this; omega
    have hs : placedShip x y 0 len = { x := x, y := y, horizontal := false, length := len } := rfl
    rw [hs]
    simp only [Bool.false_eq_true, if_false]
    constructor
    · rintro ⟨i, hi, e⟩
      refine ⟨i, hi, ?_⟩
      rw [e]; unfold szAdd; ext <;> simp only <;> omega
    · rintro ⟨i, hi, e⟩
      refine ⟨i, hi, ?_⟩
      rw [e]; unfold szAdd; ext <;> simp only <;> omega
  · subst e
    rw [ed] at hcell ⊢
    have hlen : len ≤ 8 - x := by
      by_contra hc
      have := (hcell (8 - x) (by omega)).1
      unfold szAdd at this; simp only at this; omega
    have hs : placedShip x y 1 len = { x := x, y := y, horizontal := true, length := len } := rfl
    rw [hs]
    simp only [if_true]
    constructor
    · rintro ⟨i, hi, e⟩
      refine ⟨i, hi, ?_⟩
      rw [e]; unfold szAdd; ext <;> simp only <;> omega
    · rintro ⟨i, hi, e⟩
      refine ⟨i, hi, ?_⟩
      rw [e]; unfold szAdd; ext <;> simp only <;> omega
  · subst e
    rw [ed] at hcell ⊢
    have hlen : len ≤ y + 1 := by
      by_contra hc
      have := (hcell (y + 1) (by omega)).2
      unfold szAdd at this; simp only at this; omega
    have hs : placedShip x y 2 len =
        { x := x, y := y + 1 - len, horizontal := false, length := len } := rfl
    rw [hs]
    simp only [Bool.false_eq_true, if_false]
    constructor
    · rintro ⟨i, hi, e⟩
      refine ⟨len - 1 - i, by omega, ?_⟩
      rw [e]; unfold szAdd; ext <;> simp only <;> omega
    · rintro ⟨i, hi, e⟩
      refine ⟨len - 1 - i, by omega, ?_⟩
      rw [e]; unfold szAdd; ext <;> simp only <;> omega
  · subst e
    rw [ed] at hcell ⊢
    have hlen : len ≤ x + 1 := by
      by_contra hc
      have := (hcell (x + 1) (by omega)).1
      unfold szAdd at this; simp only at this; omega
    have hs : placedShip x y 3 len =
        { x := x + 1 - len, y := y, horizontal := true, length := len } := rfl
    rw [hs]
    simp only [if_true]
    constructor
    · rintro ⟨i, hi, e⟩
      refine ⟨len - 1 - i, by omega, ?_⟩
      rw [e]; unfold szAdd; ext <;> simp only <;> omega
    · rintro ⟨i, hi, e⟩
      refine ⟨len - 1 - i, by omega, ?_⟩
      rw [e]; unfold szAdd; ext <;> simp only <;> omega


theorem placedCells_len_le {x y dir len : Nat} (hd : dir < 4)
    (hx : x < field_size) (hy : y < field_size)
    (hin : ∀ p ∈ placedCells x y dir len, inBounds p) : len ≤ 8 := by
  have hcell : ∀ i, i < len → inBounds
      (szAdd x ((dir_to_dxdy dir).1 * (i : Int)), szAdd y ((dir_to_dxdy dir).2 * (i : Int))) :=
    fun i hi => hin _ ((mem_placedCells_iff x y dir len _).mpr ⟨i, hi, rfl⟩)
  unfold inBounds field_size at hcell
  unfold field_size at hx hy
  by_contra hc
  have h8 := hcell 8 (by omega)
  rcases dir_to_dxdy_cases hd with ⟨_, ed⟩ | ⟨_, ed⟩ | ⟨_, ed⟩ | ⟨_, ed⟩ <;>
    (rw [ed] at h8; unfold szAdd at h8; simp only at h8; omega)

theorem placedCells_nodup {x y dir len : Nat} (hd : dir < 4)
    (hx : x < field_size) (hy : y < field_size)
    (hin : ∀ p ∈ placedCells x y dir len, inBounds p) : (placedCells x y dir len).Nodup := by
  have hlen := placedCells_len_le hd hx hy hin
  unfold field_size at hx hy
  unfold placedCells
  refine List.Nodup.map_on ?_ (List.nodup_range _)
  intro i hi j hj e
  rw [List.mem_range] at hi hj
  obtain ⟨e1, e2⟩ := Prod.mk.inj e
  rcases dir_to_dxdy_cases hd with ⟨_, ed⟩ | ⟨_, ed⟩ | ⟨_, ed⟩ | ⟨_, ed⟩ <;>
    (rw [ed] at e1 e2; unfold szAdd at e1 e2; simp only at e1 e2; omega)

theorem findPlace_some :
    ∀ (n : Nat) (rng : Nat → Nat) (p : Nat) (avail : CellSet) (len : Nat)
      (pos : Nat × Nat) (dir p1 : Nat),
      findPlace n rng p avail len = (some (pos, dir), p1) →
        check_ship_available avail pos.1 pos.2 dir len = true ∧ dir < 4 ∧
        (pos ∈ avail ∨ pos = (0, 0)) := by
  intro n
  induction n with
  | zero =>
    intro rng p avail len pos dir p1 h
    unfold findPlace at h
    cases (Prod.mk.inj h).1
  | succ n ih =>
    intro rng p avail len pos dir p1 h
    unfold findPlace at h
    split at h
    · cases (Prod.mk.inj h).1
    · simp only at h
      split at h
      · rename_i hc
        obtain ⟨h1, -⟩ := Prod.mk.inj h
        obtain ⟨h2, h3⟩ := Prod.mk.inj (Option.some.inj h1)
        rw [← h2, ← h3]
        refine ⟨hc, ?_, ?_⟩
        · unfold draw; simp only; omega
        · rw [List.getD_eq_getElem?_getD]
          cases hg : avail[(draw rng p 0 (avail.length - 1)).1]? with
          | none => exact Or.inr rfl
          | some v => exact Or.inl (List.getElem?_mem hg)
      · exact ih _ _ _ _ _ _ _ h


theorem placedCells_length (x y dir len : Nat) : (placedCells x y dir len).length = len := by
  unfold placedCells; simp

/-- Placing one ship on cells that `check_ship_available` accepted keeps the
invariant of the placement loop. -/
theorem PlaceInv_step {st : SeabattleField × CellSet} {ships : List Ship}
    (h : PlaceInv st ships) {x y dir len : Nat} (hd : dir < 4)
    (hx : x < field_size) (hy : y < field_size)
    (hc : check_ship_available st.2 x y dir len = true) :
    PlaceInv (mark_ship st x y dir len) (ships ++ [placedShip x y dir len]) := by
  obtain ⟨hwf, hw, hf, hsh, hcnt, hav⟩ := h
  have hcells := check_ship_available_cells hc
  have hin : ∀ p ∈ placedCells x y dir len, inBounds p := fun p hp => (hcells p hp).1
  have hsep : ∀ p ∈ placedCells x y dir len, ∀ s ∈ ships, ∀ q ∈ s.cells, 2 ≤ cheb p q :=
    fun p hp => (hav p (hcells p hp).2).2
  have hnot : ∀ p ∈ placedCells x y dir len, Get st.1 p.1 p.2 ≠ State.SHIP := by
    intro p hp
    have hb := hin p hp
    rw [hf.2.2.2 p.1 hb.1 p.2 hb.2 (fun s hs hm => by
      have := hsep p hp s hs p hm
      unfold cheb at this; omega)]
    simp
  have hnew := placedShip_cells hd hx hy hin
  obtain ⟨i1, i2, i3, i4, i5⟩ := markStep_spec (placedCells x y dir len) st hwf
    (fun p hp => ⟨hin p hp, hnot p hp⟩) (placedCells_nodup hd hx hy hin)
  rw [← mark_ship_eq] at i1 i2 i3 i4 i5
  have hget : ∀ p, inBounds p →
      (p ∈ placedCells x y dir len ∨ Get st.1 p.1 p.2 = State.SHIP) →
      Get (mark_ship st x y dir len).1 p.1 p.2 = State.SHIP := by
    intro p hb hp
    rw [i3 p.1 p.2 hb.1 hb.2]
    by_cases e : (p.1, p.2) ∈ placedCells x y dir len
    · rw [if_pos e]
    · rw [if_neg e]
      rcases hp with hp | hp
      · exact absurd hp e
      · exact hp
  have hall : ∀ s ∈ ships ++ [placedShip x y dir len], ∀ p ∈ s.cells,
      inBounds p ∧ Get (mark_ship st x y dir len).1 p.1 p.2 = State.SHIP := by
    intro s hs p hp
    rcases List.mem_append.mp hs with h1 | h1
    · exact ⟨hf.1 s h1 p hp, hget p (hf.1 s h1 p hp) (Or.inr (hsh s h1 p hp))⟩
    · rw [List.mem_singleton.mp h1] at hp
      have hp2 := (hnew p).mp hp
      exact ⟨hin p hp2, hget p (hin p hp2) (Or.inl hp2)⟩
  refine ⟨i1, i2.trans hw, ⟨fun s hs p hp => (hall s hs p hp).1, ?_,
    fun s hs p hp => Or.inl (hall s hs p hp).2, fun a ha b hb hn => ?_⟩,
    fun s hs p hp => (hall s hs p hp).2, ?_, fun p hp => ?_⟩
  · rw [List.pairwise_append]
    refine ⟨hf.2.1, List.pairwise_singleton _ _, fun s hs t ht p hp q hq => ?_⟩
    rw [List.mem_singleton.mp ht] at hq
    rw [cheb_comm]
    exact hsep q ((hnew q).mp hq) s hs p hp
  · rw [i3 a b ha hb, if_neg]
    · exact hf.2.2.2 a ha b hb
        (fun s hs => hn s (List.mem_append.mpr (Or.inl hs)))
    · intro hm
      exact hn _ (List.mem_append.mpr (Or.inr (List.mem_singleton.mpr rfl))) ((hnew _).mpr hm)
  · rw [i4, hcnt, placedCells_length, List.map_append, List.sum_append]
    simp [placedShip_length]
  · obtain ⟨h1, h2⟩ := i5 p hp
    obtain ⟨h3, h4⟩ := hav p h1
    refine ⟨h3, fun s hs q hq => ?_⟩
    rcases List.mem_append.mp hs with e | e
    · exact h4 s e q hq
    · rw [List.mem_singleton.mp e] at hq
      exact h2 h3 q ((hnew q).mp hq)

theorem placeShips_inv :
    ∀ (sizes : List Nat) (rng : Nat → Nat) (p : Nat) (st : SeabattleField × CellSet)
      (ships : List Ship) (f : SeabattleField) (p1 : Nat),
      PlaceInv st ships → placeShips sizes rng p st = (some f, p1) →
      ∃ ships2, ships2.map Ship.length = ships.map Ship.length ++ sizes ∧
        PlaceInv (f, []) ships2 := by
  intro sizes
  induction sizes with
  | nil =>
    intro rng p st ships f p1 h e
    unfold placeShips at e
    obtain ⟨e1, -⟩ := Prod.mk.inj e
    rw [← Option.some.inj e1]
    exact ⟨ships, by simp, h.1, h.2.1, h.2.2.1, h.2.2.2.1, h.2.2.2.2.1,
      fun q hq => absurd hq (List.not_mem_nil q)⟩
  | cons len rest ih =>
    intro rng p st ships f p1 h e
    unfold placeShips at e
    cases hfp : findPlace max_attempts rng p st.2 len with
    | mk o p2 =>
      rw [hfp] at e
      cases o with
      | none => cases (Prod.mk.inj e).1
      | some pd =>
        obtain ⟨pos, dir⟩ := pd
        simp only at e
        obtain ⟨hc, hd, hpos⟩ := findPlace_some _ _ _ _ _ _ _ _ hfp
        have hb : inBounds pos := by
          rcases hpos with h1 | h1
          · exact (h.2.2.2.2.2 pos h1).1
          · rw [h1]; exact ⟨by decide, by decide⟩
        obtain ⟨ships2, hl, hinv⟩ := ih rng p2 _ _ f p1 (PlaceInv_step h hd hb.1 hb.2 hc) e
        refine ⟨ships2, ?_, hinv⟩
        rw [hl, List.map_append]
        simp [placedShip_length]

theorem PlaceInv_init : PlaceInv (SeabattleField.init State.EMPTY, initAvail) [] := by
  refine ⟨WF_init _, rfl, ⟨fun s hs => absurd hs (List.not_mem_nil s), List.Pairwise.nil,
    fun s hs => absurd hs (List.not_mem_nil s), fun x hx y hy _ => Get_init _ hx hy⟩,
    fun s hs => absurd hs (List.not_mem_nil s), by decide, ?_⟩
  have : ∀ p ∈ initAvail, inBounds p := by decide
  exact fun p hp => ⟨this p hp, fun s hs => absurd hs (List.not_mem_nil s)⟩

/-- Every field returned by `TryGetRandomField` has a fleet whose lengths are
`ship_sizes` in order, all of whose cells are `SHIP`; its weight is 20 and it
has 20 `SHIP` cells. -/
theorem TryGetRandomField_inv {rng : Nat → Nat} {p : Nat} {f : SeabattleField}
    (h : (TryGetRandomField rng p).1 = some f) :
    ∃ ships, ships.map Ship.length = ship_sizes ∧ PlaceInv (f, []) ships := by
  unfold TryGetRandomField at h
  cases hps : placeShips ship_sizes rng p (SeabattleField.init State.EMPTY, initAvail) with
  | mk o p1 =>
    rw [hps] at h
    simp only at h
    rw [h] at hps
    obtain ⟨ships, hl, hinv⟩ := placeShips_inv _ _ _ _ _ _ _ PlaceInv_init hps
    exact ⟨ships, by simpa using hl, hinv⟩

theorem GetRandomField_some :
    ∀ (n : Nat) (rng : Nat → Nat) (p : Nat) (f : SeabattleField),
      GetRandomField n rng p = some f → ∃ p1, (TryGetRandomField rng p1).1 = some f := by
  intro n
  induction n with
  | zero => intro rng p f h; cases h
  | succ n ih =>
    intro rng p f h
    unfold GetRandomField at h
    cases ht : TryGetRandomField rng p with
    | mk o p1 =>
      rw [ht] at h
      cases o with
      | none => exact ih rng p1 f h
      | some res =>
        simp only at h
        exact ⟨p, by rw [ht, ← Option.some.inj h]⟩


theorem TryGetRandomField_countingStream :
    (TryGetRandomField countingStream 0).1 = some generatedSample := by
  decide


theorem generated_of_either {rng : Nat → Nat} {p : Nat} {f : SeabattleField}
    (h : (TryGetRandomField rng p).1 = some f ∨ ∃ n, GetRandomField n rng p = some f) :
    ∃ ships, ships.map Ship.length = ship_sizes ∧ PlaceInv (f, []) ships := by
  rcases h with h | ⟨n, h⟩
  · exact TryGetRandomField_inv h
  · obtain ⟨p1, h1⟩ := GetRandomField_some n rng p f h
    exact TryGetRandomField_inv h1

theorem fleet_SHIP_iff {f : SeabattleField} {ships : List Ship} (hf : IsFleet f ships)
    (hsh : ∀ s ∈ ships, ∀ p ∈ s.cells, Get f p.1 p.2 = State.SHIP)
    {x y : Nat} (hx : x < field_size) (hy : y < field_size) :
    Get f x y = State.SHIP ↔ ∃ s ∈ ships, (x, y) ∈ s.cells := by
  constructor
  · intro h
    exact fleet_ship_of_SHIP hf hx hy (by rw [h]; simp)
  · rintro ⟨s, hs, hm⟩
    exact hsh s hs _ hm

/-- Claim C1. For every random stream on which `TryGetRandomField` returns a
field, and for every field returned by `GetRandomField`: the weight is 20, the
array has exactly 20 cells in state `SHIP`, every cell of the grid is `SHIP` or
`EMPTY`, and the `SHIP` cells are the union of 10 pairwise disjoint straight
horizontal or vertical runs inside the grid whose lengths are, in the order of
placement, 4, 3, 3, 2, 2, 2, 1, 1, 1, 1 (so as a multiset
`{4, 3, 3, 2, 2, 2, 1, 1, 1, 1}`). -/
theorem C1_generated_field_fleet (rng : Nat → Nat) (p : Nat) (f : SeabattleField)
    (h : (TryGetRandomField rng p).1 = some f ∨ ∃ n, GetRandomField n rng p = some f) :
    f.weight = 20 ∧ f.field.length = 64 ∧ countState f State.SHIP = 20 ∧
    (∀ x, x < field_size → ∀ y, y < field_size →
      Get f x y = State.SHIP ∨ Get f x y = State.EMPTY) ∧
    ∃ ships : List Ship,
      ships.length = 10 ∧
      ships.map Ship.length = [4, 3, 3, 2, 2, 2, 1, 1, 1, 1] ∧
      ((ships.map Ship.length : List Nat) : Multiset Nat) = {4, 3, 3, 2, 2, 2, 1, 1, 1, 1} ∧
      (∀ s ∈ ships, ∀ c ∈ s.cells, inBounds c) ∧
      ships.Pairwise (fun s t => List.Disjoint s.cells t.cells) ∧
      (∀ x, x < field_size → ∀ y, y < field_size →
        (Get f x y = State.SHIP ↔ ∃ s ∈ ships, (x, y) ∈ s.cells)) := by
  obtain ⟨ships, hl, hwf, hw, hf, hsh, hcnt, -⟩ := generated_of_either h
  simp only at hwf hw hf hsh hcnt
  have hl2 : ships.map Ship.length = [4, 3, 3, 2, 2, 2, 1, 1, 1, 1] := hl
  refine ⟨hw, hwf, by rw [hcnt, hl2]; rfl, fun x hx y hy => ?_, ships, ?_, hl2,
    by rw [hl2]; rfl, hf.1, ?_, fun x hx y hy => fleet_SHIP_iff hf hsh hx hy⟩
  · by_cases e : ∃ s ∈ ships, (x, y) ∈ s.cells
    · obtain ⟨s, hs, hm⟩ := e
      exact Or.inl (hsh s hs _ hm)
    · exact Or.inr (hf.2.2.2 x hx y hy (fun s hs hm => e ⟨s, hs, hm⟩))
  · have := congrArg List.length hl2
    simpa using this
  · refine hf.2.1.imp (fun {s t} hst => ?_)
    intro c hc1 hc2
    have := hst c hc1 c hc2
    unfold cheb at this; omega

/-- Witness for C1: the field generated from the stream `0, 1, 2, ...`. -/
theorem C1_generated_field_fleet_witness :
    (TryGetRandomField countingStream 0).1 = some generatedSample ∧
    generatedSample.weight = 20 ∧ countState generatedSample State.SHIP = 20 :=
  ⟨TryGetRandomField_countingStream,
    (C1_generated_field_fleet countingStream 0 generatedSample
      (Or.inl TryGetRandomField_countingStream)).1,
    (C1_generated_field_fleet countingStream 0 generatedSample
      (Or.inl TryGetRandomField_countingStream)).2.2.1⟩

/-- Claim C2. For every field returned by `TryGetRandomField` or
`GetRandomField`, the placed ships (10 runs inside the grid, of the lengths
`ship_sizes`, covering exactly the `SHIP` cells) are never adjacent, not even
diagonally: a cell of one ship and a cell of a different ship are at Chebyshev
distance at least 2. -/
theorem C2_generated_ships_apart (rng : Nat → Nat) (p : Nat) (f : SeabattleField)
    (h : (TryGetRandomField rng p).1 = some f ∨ ∃ n, GetRandomField n rng p = some f) :
    ∃ ships : List Ship,
      ships.map Ship.length = ship_sizes ∧
      (∀ s ∈ ships, ∀ c ∈ s.cells, inBounds c) ∧
      (∀ x, x < field_size → ∀ y, y < field_size →
        (Get f x y = State.SHIP ↔ ∃ s ∈ ships, (x, y) ∈ s.cells)) ∧
      ships.Pairwise (fun s t => ∀ c ∈ s.cells, ∀ d ∈ t.cells, 2 ≤ cheb c d) ∧
      (∀ s ∈ ships, ∀ t ∈ ships, s ≠ t → ∀ c ∈ s.cells, ∀ d ∈ t.cells, 2 ≤ cheb c d) := by
  obtain ⟨ships, hl, hwf, hw, hf, hsh, hcnt, -⟩ := generated_of_either h
  simp only at hf hsh
  exact ⟨ships, hl, hf.1, fun x hx y hy => fleet_SHIP_iff hf hsh hx hy, hf.2.1,
    fun s hs t ht hne c hc d hd => fleet_separated hf.2.1 hs ht hne hc hd⟩

/-- Witness for C2: the field generated from the stream `0, 1, 2, ...`; its
first ship lies on the grid edge, at `(0, 0)`. -/
theorem C2_generated_ships_apart_witness :
    (TryGetRandomField countingStream 0).1 = some generatedSample ∧
    Get generatedSample 0 0 = State.SHIP ∧
    ∃ ships : List Ship,
      ships.map Ship.length = ship_sizes ∧
      (∀ x, x < field_size → ∀ y, y < field_size →
        (Get generatedSample x y = State.SHIP ↔ ∃ s ∈ ships, (x, y) ∈ s.cells)) ∧
      ships.Pairwise (fun s t => ∀ c ∈ s.cells, ∀ d ∈ t.cells, 2 ≤ cheb c d) :=
  ⟨TryGetRandomField_countingStream, by decide,
    (C2_generated_ships_apart countingStream 0 generatedSample
      (Or.inl TryGetRandomField_countingStream)).imp
      fun _ hs => ⟨hs.1, hs.2.2.1, hs.2.2.2.1⟩⟩


/-! ### Weight and the number of `SHIP` cells -/

theorem mem_field_iff {f : SeabattleField} (hwf : f.WF) (s : State) :
    s ∈ f.field ↔ ∃ a b, a < field_size ∧ b < field_size ∧ Get f a b = s := by
  unfold SeabattleField.WF at hwf
  constructor
  · intro h
    obtain ⟨i, hi, e⟩ := List.getElem_of_mem h
    refine ⟨i % 8, i / 8, by unfold field_size; omega, by unfold field_size; omega, ?_⟩
    rw [← getD_eq_Get f (by omega), List.getD_eq_getElem _ _ hi, e]
  · rintro ⟨a, b, ha, hb, e⟩
    have hl := cellIndex_lt ha hb
    unfold Get at e
    rw [List.getD_eq_getElem _ _ (by omega)] at e
    rw [← e]
    exact List.getElem_mem _

/-- One shot inside the grid returns; it turns the cell into `KILLED` when it
was `SHIP`, changes nothing else, and keeps the difference between the weight
and the number of `SHIP` cells. -/
theorem Shoot_step {f : SeabattleField} (hwf : f.WF) {x y : Nat}
    (hx : x < field_size) (hy : y < field_size) :
    ∃ r g, Shoot f x y = some (r, g) ∧ g.WF ∧
      (∀ a b, a < field_size → b < field_size →
        Get g a b = if Get f a b = State.SHIP ∧ (a, b) = (x, y) then State.KILLED
          else Get f a b) ∧
      g.weight - (countState g State.SHIP : Int) = f.weight - (countState f State.SHIP : Int) := by
  by_cases h : Get f x y = State.SHIP
  · obtain ⟨b, hb, -⟩ := Shoot_ship f x y hx hy h
    refine ⟨_, _, hb, WF_shotField x y hwf, fun a c ha hc => ?_, ?_⟩
    · rw [Get_shotField hwf hx hy ha hc]
      by_cases e : a = x ∧ c = y
      · rw [if_pos e, if_pos]
        rw [e.1, e.2]; exact ⟨h, rfl⟩
      · rw [if_neg e, if_neg]
        intro h2
        exact e (Prod.mk.inj h2.2)
    · have hc := countState_SetCell hwf hx hy State.KILLED State.SHIP
      rw [h] at hc
      simp only [reduceCtorEq, if_false, if_true, Nat.add_zero] at hc
      have e1 : countState (shotField f x y) State.SHIP = countState (SetCell f x y State.KILLED)
          State.SHIP := rfl
      have e2 : (shotField f x y).weight = f.weight - 1 := rfl
      rw [e1, e2, ← hc]; push_cast; ring
  · refine ⟨_, _, Shoot_miss f x y h, hwf, fun a c ha hc => ?_, rfl⟩
    rw [if_neg]
    rintro ⟨h1, h2⟩
    obtain ⟨e1, e2⟩ := Prod.mk.inj h2
    rw [e1, e2] at h1
    exact h h1

/-- A sequence of shots inside the grid runs to its end; afterwards exactly
the `SHIP` cells that were shot at are `KILLED`, everything else is as before. -/
theorem shootAll_spec :
    ∀ (moves : List (Nat × Nat)) (f0 : SeabattleField), f0.WF →
      (∀ m ∈ moves, inBounds m) →
      ∃ rs f, shootAll f0 moves = some (rs, f) ∧ f.WF ∧
        (∀ a b, a < field_size → b < field_size →
          Get f a b = if Get f0 a b = State.SHIP ∧ (a, b) ∈ moves then State.KILLED
            else Get f0 a b) ∧
        f.weight - (countState f State.SHIP : Int) =
          f0.weight - (countState f0 State.SHIP : Int) := by
  intro moves
  induction moves with
  | nil =>
    intro f0 hwf _
    exact ⟨[], f0, rfl, hwf, fun a b _ _ => by simp, rfl⟩
  | cons m rest ih =>
    intro f0 hwf hb
    obtain ⟨mx, my⟩ := m
    have hm := hb (mx, my) (List.mem_cons_self _ _)
    obtain ⟨r, g, hs, hgwf, hget, hwt⟩ := Shoot_step hwf hm.1 hm.2
    obtain ⟨rs, f, hr, hfwf, hget2, hwt2⟩ := ih g hgwf
      (fun m2 h2 => hb m2 (List.mem_cons_of_mem _ h2))
    refine ⟨r :: rs, f, ?_, hfwf, fun a b ha hb2 => ?_, hwt2.trans hwt⟩
    · unfold shootAll
      simp only [hs, hr]
    · rw [hget2 a b ha hb2, hget a b ha hb2]
      by_cases e1 : Get f0 a b = State.SHIP <;> by_cases e2 : (a, b) = (mx, my) <;>
        by_cases e3 : (a, b) ∈ rest <;> simp [e1, e2, e3, List.mem_cons]

/-- Claim C6. For every field produced by `GetRandomField` and every finite
sequence of `Shoot` calls inside the grid: the sequence runs to its end, the
weight of the resulting field equals its number of `SHIP` cells, `IsLoser()`
holds exactly when no cell is `SHIP` any more, which is exactly when every
ship cell of the generated field has been shot at; the freshly generated field
is not a loser.  Step form: on any field a shot inside the grid keeps
`weight = number of SHIP cells`.  Example: a one-cell ship at `(0, 0)` with
weight 1 answers `KILL` to `Shoot(0, 0)`, the weight becomes 0 and the field
reports loss. -/
theorem C6_weight_is_ship_count (n : Nat) (rng : Nat → Nat) (p : Nat) (f0 : SeabattleField)
    (moves : List (Nat × Nat)) (hgen : GetRandomField n rng p = some f0)
    (hmoves : ∀ m ∈ moves, inBounds m) :
    IsLoser f0 = false ∧
    (∃ rs f, shootAll f0 moves = some (rs, f) ∧
      f.weight = (countState f State.SHIP : Int) ∧
      (IsLoser f = true ↔
        ∀ x, x < field_size → ∀ y, y < field_size → Get f x y ≠ State.SHIP) ∧
      (IsLoser f = true ↔
        ∀ x, x < field_size → ∀ y, y < field_size →
          Get f0 x y = State.SHIP → (x, y) ∈ moves)) ∧
    (∀ (g : SeabattleField) (x y : Nat), g.WF → x < field_size → y < field_size →
      g.weight = (countState g State.SHIP : Int) →
      ∃ r g1, Shoot g x y = some (r, g1) ∧ g1.weight = (countState g1 State.SHIP : Int)) ∧
    (∃ g1, Shoot oneCellField 0 0 = some (ShotResult.KILL, g1) ∧
      oneCellField.weight = 1 ∧ g1.weight = 0 ∧ IsLoser g1 = true) := by
  obtain ⟨ships, hl, hwf, hw, hf, hsh, hcnt, -⟩ := generated_of_either (Or.inr ⟨n, hgen⟩)
  simp only at hwf hw hf hsh hcnt
  have hc20 : countState f0 State.SHIP = 20 := by
    rw [hcnt, hl]; rfl
  refine ⟨by unfold IsLoser; rw [hw]; rfl, ?_, ?_, ?_⟩
  · obtain ⟨rs, f, hs, hfwf, hget, hwt⟩ := shootAll_spec moves f0 hwf hmoves
    have hweq : f.weight = (countState f State.SHIP : Int) := by
      rw [hw, hc20] at hwt; push_cast at hwt; omega
    have hlose : IsLoser f = true ↔
        ∀ x, x < field_size → ∀ y, y < field_size → Get f x y ≠ State.SHIP := by
      unfold IsLoser
      rw [beq_iff_eq, hweq]
      unfold countState
      rw [Int.natCast_eq_zero, List.count_eq_zero, mem_field_iff hfwf]
      constructor
      · intro h x hx y hy e; exact h ⟨x, y, hx, hy, e⟩
      · rintro h ⟨x, y, hx, hy, e⟩; exact h x hx y hy e
    refine ⟨rs, f, hs, hweq, hlose, hlose.trans ?_⟩
    constructor
    · intro h x hx y hy e
      by_contra hn
      have := hget x y hx hy
      rw [if_neg (fun h2 => hn h2.2), e] at this
      exact h x hx y hy this
    · intro h x hx y hy e
      rw [hget x y hx hy] at e
      by_cases e1 : Get f0 x y = State.SHIP
      · rw [if_pos ⟨e1, h x hx y hy e1⟩] at e; cases e
      · rw [if_neg (fun h2 => e1 h2.1)] at e; exact e1 e
  · intro g x y hgwf hx hy hg
    obtain ⟨r, g1, hs, -, -, hwt⟩ := Shoot_step hgwf hx hy
    exact ⟨r, g1, hs, by omega⟩
  · exact ⟨shotField oneCellField 0 0, by decide, rfl, by decide, by decide⟩


theorem GetRandomField_countingStream :
    GetRandomField 1 countingStream 0 = some generatedSample := by
  have h := TryGetRandomField_countingStream
  unfold GetRandomField
  cases ht : TryGetRandomField countingStream 0 with
  | mk o p1 =>
    rw [ht] at h
    simp only at h
    rw [h]

/-- Witness for C6: the field generated from the stream `0, 1, 2, ...`, shot
at `(0, 0)` (a ship cell) and at `(5, 5)` (an empty cell). -/
theorem C6_weight_is_ship_count_witness :
    GetRandomField 1 countingStream 0 = some generatedSample ∧
    (∀ m ∈ [((0 : Nat), (0 : Nat)), (5, 5)], inBounds m) ∧
    IsLoser generatedSample = false ∧
    ∃ rs f, shootAll generatedSample [(0, 0), (5, 5)] = some (rs, f) ∧
      f.weight = (countState f State.SHIP : Int) :=
  ⟨GetRandomField_countingStream, by decide,
    (C6_weight_is_ship_count 1 countingStream 0 generatedSample [(0, 0), (5, 5)]
      GetRandomField_countingStream (by decide)).1,
    (C6_weight_is_ship_count 1 countingStream 0 generatedSample [(0, 0), (5, 5)]
      GetRandomField_countingStream (by decide)).2.1.imp
      fun _ h => h.imp fun _ h2 => ⟨h2.1, h2.2.1⟩⟩

/-- A fleet stays a fleet under any sequence of shots inside the grid. -/
theorem IsFleet_shootAll {f0 : SeabattleField} {ships : List Ship} (hwf : f0.WF)
    (hf : IsFleet f0 ships) (moves : List (Nat × Nat)) (hb : ∀ m ∈ moves, inBounds m) :
    ∃ rs f, shootAll f0 moves = some (rs, f) ∧ f.WF ∧ IsFleet f ships := by
  obtain ⟨rs, f, hs, hfwf, hget, -⟩ := shootAll_spec moves f0 hwf hb
  refine ⟨rs, f, hs, hfwf, hf.1, hf.2.1, fun s hs2 c hc => ?_, fun x hx y hy hn => ?_⟩
  · have hcb := hf.1 s hs2 c hc
    rw [hget c.1 c.2 hcb.1 hcb.2]
    split
    · exact Or.inr rfl
    · exact hf.2.2.1 s hs2 c hc
  · have h0 := hf.2.2.2 x hx y hy hn
    rw [hget x y hx hy, if_neg (by rw [h0]; simp), h0]




/-! ### The move message on the receiving side -/

theorem playRound_opponent (char_signed : Bool) (io : RoundIO) (s : SeabattleAgent)
    (h : s.my_initiative_ = false) :
    playRound char_signed io s =
      match receivedShot char_signed io.read2 with
      | none => RoundResult.stop s
      | some p => answerMove io s p.1 p.2 := by
  unfold playRound receivedShot
  rw [if_neg (by rw [h]; simp)]
  cases ReadMove char_signed io.read2 <;> rfl

theorem receivedShot_valid (char_signed : Bool) (b0 b1 : Byte)
    (h : 65 ≤ b0.val ∧ b0.val ≤ 72 ∧ 49 ≤ b1.val ∧ b1.val ≤ 56) :
    receivedShot char_signed (some (b0, b1)) = some (b1.val - 49, b0.val - 65) := by
  unfold receivedShot ReadMove
  simp only [ParseMove_pair, if_pos h]
  unfold toSize
  congr 2 <;> omega

/-- Claim C11, as amended. For every valid 2-byte move message `b0 b1` (`b0` in
`'A'..'H'`, `b1` in `'1'..'8'`), the coordinate the receiver decodes and passes
to `Shoot(x, y)` on its own field has `x = b1 - '1'` (the digit is the column)
and `y = b0 - 'A'` (the letter is the row); the letter `b0` is the label that
`PrintLine` gives to row `y`. -/
theorem C11_receiver_coordinates (char_signed : Bool) (b0 b1 : Byte) (io : RoundIO)
    (s : SeabattleAgent)
    (hvalid : 65 ≤ b0.val ∧ b0.val ≤ 72 ∧ 49 ≤ b1.val ∧ b1.val ≤ 56)
    (hturn : s.my_initiative_ = false) (hread : io.read2 = some (b0, b1)) :
    receivedShot char_signed (some (b0, b1)) = some (b1.val - 49, b0.val - 65) ∧
    playRound char_signed io s = answerMove io s (b1.val - 49) (b0.val - 65) ∧
    PrintLine_label (b0.val - 65) = b0 := by
  have h1 := receivedShot_valid char_signed b0 b1 hvalid
  refine ⟨h1, ?_, ?_⟩
  · rw [playRound_opponent char_signed io s hturn, hread, h1]
  · unfold PrintLine_label intToByte
    apply Fin.ext
    simp only
    omega

/-- Witness for C11 (amended): the message `"B1"`. -/
theorem C11_receiver_coordinates_witness :
    (65 ≤ (66 : Byte).val ∧ (66 : Byte).val ≤ 72 ∧ 49 ≤ (49 : Byte).val ∧ (49 : Byte).val ≤ 56) ∧
    receivedShot false (some (66, 49)) = some (0, 1) :=
  ⟨by decide,
    (C11_receiver_coordinates false 66 49
      { input := [], write_ok := true, read1 := none, read2 := some (66, 49) } sampleAgent
      (by decide) rfl rfl).1⟩

/-- Counterexample to C11 as stated: for the valid message `"B1"` the claim
gives `x = 'B' - 'A' = 1`, `y = '1' - '1' = 0`, but the receiver calls
`Shoot(0, 1)`: on `twoCellField`, whose ship lies on `(0, 0)` and `(1, 0)`, the
round is a `MISS` that leaves the field as it is, while `Shoot(1, 0)` is a
`HIT`. -/
theorem C11_counterexample :
    (65 ≤ (66 : Byte).val ∧ (66 : Byte).val ≤ 72 ∧ 49 ≤ (49 : Byte).val ∧ (49 : Byte).val ≤ 56) ∧
    receivedShot false (some (66, 49)) = some (0, 1) ∧
    receivedShot false (some (66, 49)) ≠ some ((66 : Byte).val - 65, (49 : Byte).val - 49) ∧
    playRound false { input := [], write_ok := true, read1 := none, read2 := some (66, 49) }
      sampleAgent = RoundResult.next { sampleAgent with my_initiative_ := true } ∧
    (Shoot twoCellField 1 0).map Prod.fst = some ShotResult.HIT := by
  decide

/-! ### Whose turn is next -/

theorem ParseMove_some {char_signed : Bool} {s : List Byte} {m : Int × Int}
    (h : ParseMove char_signed s = some m) :
    ∃ c0 c1 : Byte, s = [c0, c1] ∧
      (65 ≤ c0.val ∧ c0.val ≤ 72 ∧ 49 ≤ c1.val ∧ c1.val ≤ 56) ∧
      m = ((c1.val : Int) - 49, (c0.val : Int) - 65) := by
  match s, h with
  | [], h => rw [ParseMove_length _ _ (by simp)] at h; cases h
  | [_], h => rw [ParseMove_length _ _ (by simp)] at h; cases h
  | [c0, c1], h =>
    rw [ParseMove_pair] at h
    by_cases hc : 65 ≤ c0.val ∧ c0.val ≤ 72 ∧ 49 ≤ c1.val ∧ c1.val ≤ 56
    · rw [if_pos hc] at h
      exact ⟨c0, c1, rfl, hc, (Option.some.inj h).symm⟩
    · rw [if_neg hc] at h; cases h
  | _ :: _ :: _ :: _, h => rw [ParseMove_length _ _ (by simp)] at h; cases h

theorem ParseMove_bounds {char_signed : Bool} {s : List Byte} {m : Int × Int}
    (h : ParseMove char_signed s = some m) :
    toSize m.1 < field_size ∧ toSize m.2 < field_size := by
  obtain ⟨c0, c1, -, hc, rfl⟩ := ParseMove_some h
  unfold toSize field_size
  simp only
  omega

/-- A round of the local player that reaches the end of the loop body. -/
theorem playRound_mine_next {char_signed : Bool} {io : RoundIO} {s s1 : SeabattleAgent}
    (hturn : s.my_initiative_ = true)
    (h : playRound char_signed io s = RoundResult.next s1) :
    ∃ move other, GetMoveFromUser char_signed io.input = some move ∧ io.write_ok = true ∧
      ProcessResult s.other_field_ move (ReadResult char_signed io.read1) = some other ∧
      s1 = { s with other_field_ := other,
                    my_initiative_ :=
                      if ReadResult char_signed io.read1 = ShotResult.MISS.toInt then false
                      else s.my_initiative_ } := by
  unfold playRound at h
  rw [if_pos hturn] at h
  cases hm : GetMoveFromUser char_signed io.input with
  | none => rw [hm] at h; cases h
  | some move =>
    rw [hm] at h
    simp only at h
    by_cases hw : io.write_ok = false
    · rw [if_pos hw] at h; cases h
    · rw [if_neg hw] at h
      cases hp : ProcessResult s.other_field_ move (ReadResult char_signed io.read1) with
      | none => rw [hp] at h; cases h
      | some other =>
        rw [hp] at h
        simp only at h
        exact ⟨move, other, rfl, by simpa using hw, hp, (RoundResult.next.inj h).symm⟩

/-- An answer to an opponent move that reaches the end of the loop body. -/
theorem answerMove_next {io : RoundIO} {s s1 : SeabattleAgent} {x y : Nat}
    (h : answerMove io s x y = RoundResult.next s1) :
    ∃ r f1 f2, Shoot s.my_field_ x y = some (r, f1) ∧ io.write_ok = true ∧
      UpdateFieldWithResult f1 x y r = some f2 ∧
      s1 = { s with my_field_ := f2,
                    my_initiative_ := if r = ShotResult.MISS then true else s.my_initiative_ } := by
  unfold answerMove at h
  cases hs : Shoot s.my_field_ x y with
  | none => rw [hs] at h; cases h
  | some rf =>
    obtain ⟨r, f1⟩ := rf
    rw [hs] at h
    simp only at h
    by_cases hw : io.write_ok = false
    · rw [if_pos hw] at h; cases h
    · rw [if_neg hw] at h
      cases hu : UpdateFieldWithResult f1 x y r with
      | none => rw [hu] at h; cases h
      | some f2 =>
        rw [hu] at h
        simp only at h
        exact ⟨r, f1, f2, rfl, by simpa using hw, hu, (RoundResult.next.inj h).symm⟩

/-- A round of the opponent that reaches the end of the loop body. -/
theorem playRound_opponent_next {char_signed : Bool} {io : RoundIO} {s s1 : SeabattleAgent}
    (hturn : s.my_initiative_ = false)
    (h : playRound char_signed io s = RoundResult.next s1) :
    ∃ p r f1 f2, receivedShot char_signed io.read2 = some p ∧
      p.1 < field_size ∧ p.2 < field_size ∧
      Shoot s.my_field_ p.1 p.2 = some (r, f1) ∧ io.write_ok = true ∧
      UpdateFieldWithResult f1 p.1 p.2 r = some f2 ∧
      s1 = { s with my_field_ := f2,
                    my_initiative_ := if r = ShotResult.MISS then true else s.my_initiative_ } := by
  rw [playRound_opponent char_signed io s hturn] at h
  cases hp : receivedShot char_signed io.read2 with
  | none => rw [hp] at h; cases h
  | some p =>
    rw [hp] at h
    simp only at h
    obtain ⟨r, f1, f2, h1, h2, h3, h4⟩ := answerMove_next h
    refine ⟨p, r, f1, f2, rfl, ?_, ?_, h1, h2, h3, h4⟩
    all_goals
      unfold receivedShot ReadMove at hp
      cases hr : io.read2 with
      | none => rw [hr] at hp; cases hp
      | some b =>
        rw [hr] at hp
        simp only at hp
        cases hm : ParseMove char_signed [b.1, b.2] with
        | none => rw [hm] at hp; cases hp
        | some m =>
          rw [hm] at hp
          simp only [Option.some.injEq] at hp
          rw [← hp]
          first | exact (ParseMove_bounds hm).1 | exact (ParseMove_bounds hm).2

/-- Claim C12. For every round of `StartGame` that completes its exchange and
reaches the end of the loop body: on the local player's turn the turn passes
to the opponent exactly when the received result is `MISS`, and stays on `HIT`
or `KILL`; on the opponent's turn the turn passes to the local player exactly
when `Shoot` on the own field returned `MISS`, and stays on `HIT` or `KILL`.
Hence three rounds with the results `HIT`, `HIT`, `MISS` keep the same shooter
after the first two and pass the turn after the third. -/
theorem C12_turn_passes_on_miss (char_signed : Bool) (io : RoundIO) (s s1 : SeabattleAgent)
    (h : playRound char_signed io s = RoundResult.next s1) :
    (s.my_initiative_ = true →
      (s1.my_initiative_ = false ↔ ReadResult char_signed io.read1 = ShotResult.MISS.toInt) ∧
      (ReadResult char_signed io.read1 = ShotResult.HIT.toInt ∨
        ReadResult char_signed io.read1 = ShotResult.KILL.toInt → s1.my_initiative_ = true)) ∧
    (s.my_initiative_ = false →
      ∃ p r f1, receivedShot char_signed io.read2 = some p ∧
        Shoot s.my_field_ p.1 p.2 = some (r, f1) ∧
        (s1.my_initiative_ = true ↔ r = ShotResult.MISS) ∧
        (r = ShotResult.HIT ∨ r = ShotResult.KILL → s1.my_initiative_ = false)) ∧
    (∀ (io2 io3 : RoundIO) (s2 s3 : SeabattleAgent),
      s.my_initiative_ = true →
      playRound char_signed io2 s1 = RoundResult.next s2 →
      playRound char_signed io3 s2 = RoundResult.next s3 →
      ReadResult char_signed io.read1 = ShotResult.HIT.toInt →
      ReadResult char_signed io2.read1 = ShotResult.HIT.toInt →
      ReadResult char_signed io3.read1 = ShotResult.MISS.toInt →
      s1.my_initiative_ = true ∧ s2.my_initiative_ = true ∧ s3.my_initiative_ = false) ∧
    (∀ (io2 io3 : RoundIO) (s2 s3 : SeabattleAgent) (p p2 p3 : Nat × Nat)
      (f1 f2 f3 : SeabattleField),
      s.my_initiative_ = false →
      playRound char_signed io2 s1 = RoundResult.next s2 →
      playRound char_signed io3 s2 = RoundResult.next s3 →
      receivedShot char_signed io.read2 = some p →
      receivedShot char_signed io2.read2 = some p2 →
      receivedShot char_signed io3.read2 = some p3 →
      Shoot s.my_field_ p.1 p.2 = some (ShotResult.HIT, f1) →
      Shoot s1.my_field_ p2.1 p2.2 = some (ShotResult.HIT, f2) →
      Shoot s2.my_field_ p3.1 p3.2 = some (ShotResult.MISS, f3) →
      s1.my_initiative_ = false ∧ s2.my_initiative_ = false ∧ s3.my_initiative_ = true) := by
  have mine : ∀ {io : RoundIO} {s s1 : SeabattleAgent},
      playRound char_signed io s = RoundResult.next s1 → s.my_initiative_ = true →
      s1.my_initiative_ =
        if ReadResult char_signed io.read1 = ShotResult.MISS.toInt then false else true := by
    intro io s s1 h ht
    obtain ⟨_, _, -, -, -, e⟩ := playRound_mine_next ht h
    rw [e, ht]
  have opp : ∀ {io : RoundIO} {s s1 : SeabattleAgent},
      playRound char_signed io s = RoundResult.next s1 → s.my_initiative_ = false →
      ∃ p r f1, receivedShot char_signed io.read2 = some p ∧
        Shoot s.my_field_ p.1 p.2 = some (r, f1) ∧
        s1.my_initiative_ = if r = ShotResult.MISS then true else false := by
    intro io s s1 h ht
    obtain ⟨p, r, f1, _, hp, -, -, hs, -, -, e⟩ := playRound_opponent_next ht h
    exact ⟨p, r, f1, hp, hs, by rw [e, ht]⟩
  refine ⟨fun ht => ?_, fun ht => ?_, ?_, ?_⟩
  · have e := mine h ht
    rw [e]
    constructor
    · split <;> simp_all
    · rintro (h1 | h1) <;> rw [h1] <;> decide
  · obtain ⟨p, r, f1, hp, hs, e⟩ := opp h ht
    refine ⟨p, r, f1, hp, hs, ?_, ?_⟩
    · rw [e]; cases r <;> simp
    · rw [e]; rintro (h1 | h1) <;> rw [h1] <;> decide
  · intro io2 io3 s2 s3 ht h2 h3 r1 r2 r3
    have e1 := mine h ht
    rw [r1] at e1
    have e2 := mine h2 (by rw [e1]; decide)
    rw [r2] at e2
    have e3 := mine h3 (by rw [e2]; decide)
    rw [r3] at e3
    exact ⟨by rw [e1]; decide, by rw [e2]; decide, by rw [e3]; decide⟩
  · intro io2 io3 s2 s3 p p2 p3 f1 f2 f3 ht h2 h3 q1 q2 q3 k1 k2 k3
    obtain ⟨p', r, f', hp, hs, e1⟩ := opp h ht
    rw [q1] at hp; cases hp
    rw [k1] at hs; cases hs
    have t1 : s1.my_initiative_ = false := by rw [e1]; decide
    obtain ⟨p', r, f', hp, hs, e2⟩ := opp h2 t1
    rw [q2] at hp; cases hp
    rw [k2] at hs; cases hs
    have t2 : s2.my_initiative_ = false := by rw [e2]; decide
    obtain ⟨p', r, f', hp, hs, e3⟩ := opp h3 t2
    rw [q3] at hp; cases hp
    rw [k3] at hs; cases hs
    exact ⟨t1, t2, by rw [e3]; decide⟩

/-- Witness for C12: the local player shoots at `"A1"` and receives `'1'`
(`HIT`); the turn stays with the local player. -/
theorem C12_turn_passes_on_miss_witness :
    playRound false { input := [65, 49], write_ok := true, read1 := some 49, read2 := none }
      sampleAgentFirst =
      RoundResult.next { sampleAgentFirst with
        other_field_ := MarkHit (SeabattleField.init State.UNKNOWN) 0 0 } ∧
    ((MarkHit (SeabattleField.init State.UNKNOWN) 0 0).weight = 19 ∧
      sampleAgentFirst.my_initiative_ = true) ∧
    (ReadResult false (some 49) = ShotResult.HIT.toInt ∨
      ReadResult false (some 49) = ShotResult.KILL.toInt →
      ({ sampleAgentFirst with
        other_field_ := MarkHit (SeabattleField.init State.UNKNOWN) 0 0 } :
          SeabattleAgent).my_initiative_ = true) :=
  ⟨by decide, by decide,
    ((C12_turn_passes_on_miss false
      { input := [65, 49], write_ok := true, read1 := some 49, read2 := none }
      sampleAgentFirst _ (by decide)).1 (by decide)).2⟩

/-! ### Rounds that end at a `break`, and the verdict -/

/-- The three `break` statements of `StartGame`: a round ends at a `break`
exactly when `SendMove` fails (nothing has changed), when `ReadMove` returns no
move (nothing has changed), or when `SendResult` fails (the own field is the
one after `Shoot`). -/
theorem playRound_stop {char_signed : Bool} {io : RoundIO} {s s1 : SeabattleAgent}
    (h : playRound char_signed io s = RoundResult.stop s1) :
    (s.my_initiative_ = true ∧ io.write_ok = false ∧
      (GetMoveFromUser char_signed io.input).isSome = true ∧ s1 = s) ∨
    (s.my_initiative_ = false ∧ ReadMove char_signed io.read2 = none ∧ s1 = s) ∨
    (s.my_initiative_ = false ∧ io.write_ok = false ∧
      ∃ p r f1, receivedShot char_signed io.read2 = some p ∧
        Shoot s.my_field_ p.1 p.2 = some (r, f1) ∧ s1 = { s with my_field_ := f1 }) := by
  by_cases ht : s.my_initiative_ = true
  · left
    unfold playRound at h
    rw [if_pos ht] at h
    cases hm : GetMoveFromUser char_signed io.input with
    | none => rw [hm] at h; cases h
    | some move =>
      rw [hm] at h
      simp only at h
      by_cases hw : io.write_ok = false
      · rw [if_pos hw] at h
        exact ⟨ht, hw, rfl, (RoundResult.stop.inj h).symm⟩
      · rw [if_neg hw] at h
        cases hp : ProcessResult s.other_field_ move (ReadResult char_signed io.read1) with
        | none => rw [hp] at h; cases h
        | some other => rw [hp] at h; cases h
  · right
    have hf : s.my_initiative_ = false := by simpa using ht
    rw [playRound_opponent char_signed io s hf] at h
    unfold receivedShot at h ⊢
    cases hm : ReadMove char_signed io.read2 with
    | none =>
      rw [hm] at h
      exact Or.inl ⟨hf, rfl, (RoundResult.stop.inj h).symm⟩
    | some move =>
      rw [hm] at h
      simp only at h
      right
      unfold answerMove at h
      cases hs : Shoot s.my_field_ (toSize move.1) (toSize move.2) with
      | none => rw [hs] at h; cases h
      | some rf =>
        obtain ⟨r, f1⟩ := rf
        rw [hs] at h
        simp only at h
        by_cases hw : io.write_ok = false
        · rw [if_pos hw] at h
          exact ⟨hf, hw, _, r, f1, rfl, hs, (RoundResult.stop.inj h).symm⟩
        · rw [if_neg hw] at h
          cases hu : UpdateFieldWithResult f1 (toSize move.1) (toSize move.2) r with
          | none => rw [hu] at h; cases h
          | some f2 => rw [hu] at h; cases h

/-- The verdict after the loop is ` You lost.` exactly when `my_field_.IsLoser()`. -/
theorem StartGame_over {char_signed : Bool} :
    ∀ (ios : List RoundIO) (s s1 : SeabattleAgent) (lost : Bool),
      StartGame char_signed ios s = GameResult.over s1 lost → lost = IsLoser s1.my_field_ := by
  intro ios
  induction ios with
  | nil =>
    intro s s1 lost h
    unfold StartGame at h
    split at h
    · cases h; rfl
    · cases h
  | cons io rest ih =>
    intro s s1 lost h
    unfold StartGame at h
    split at h
    · cases h; rfl
    · split at h
      · exact ih _ _ _ h
      · cases h; rfl
      · cases h
      · cases h

/-- Evaluation of the code for C13. The local player moves `"A1"`, `SendMove`
succeeds and the read of the result message does not complete: `ReadResult`
answers `MISS`, so the round does not end at a `break`; the cell `(0, 0)` of
the opponent view, `UNKNOWN` before, is `EMPTY` after, the turn flag has
changed, and `StartGame` goes on to a further round.  The three other failures
(`SendMove`, `ReadMove`, `SendResult`) do end the round at a `break`. -/
theorem C13_failed_result_read_goes_on :
    playRound false { input := [65, 49], write_ok := true, read1 := none, read2 := none }
      sampleAgentFirst =
      RoundResult.next { sampleAgentFirst with
        other_field_ := MarkMiss (SeabattleField.init State.UNKNOWN) 0 0,
        my_initiative_ := false } ∧
    Get sampleAgentFirst.other_field_ 0 0 = State.UNKNOWN ∧
    Get (MarkMiss (SeabattleField.init State.UNKNOWN) 0 0) 0 0 = State.EMPTY ∧
    sampleAgentFirst.my_initiative_ = true ∧
    StartGame false [{ input := [65, 49], write_ok := true, read1 := none, read2 := none }]
      sampleAgentFirst =
      GameResult.waiting { sampleAgentFirst with
        other_field_ := MarkMiss (SeabattleField.init State.UNKNOWN) 0 0,
        my_initiative_ := false } ∧
    (∀ (cs : Bool) (io : RoundIO) (s : SeabattleAgent) (move : Int × Int),
      s.my_initiative_ = true → GetMoveFromUser cs io.input = some move →
      io.write_ok = false → playRound cs io s = RoundResult.stop s) ∧
    (∀ (cs : Bool) (io : RoundIO) (s : SeabattleAgent),
      s.my_initiative_ = false → ReadMove cs io.read2 = none →
      playRound cs io s = RoundResult.stop s) ∧
    (∀ (cs : Bool) (io : RoundIO) (s : SeabattleAgent) (p : Nat × Nat) (r : ShotResult)
      (f1 : SeabattleField),
      s.my_initiative_ = false → receivedShot cs io.read2 = some p →
      Shoot s.my_field_ p.1 p.2 = some (r, f1) → io.write_ok = false →
      playRound cs io s = RoundResult.stop { s with my_field_ := f1 }) := by
  refine ⟨by decide, by decide, by decide, by decide, by decide, ?_, ?_, ?_⟩
  · intro cs io s move ht hm hw
    unfold playRound
    rw [if_pos ht, hm]
    simp only
    rw [if_pos hw]
  · intro cs io s ht hm
    unfold playRound
    rw [if_neg (by rw [ht]; simp), hm]
  · intro cs io s p r f1 ht hp hs hw
    rw [playRound_opponent cs io s ht, hp]
    simp only
    unfold answerMove
    rw [hs]
    simp only
    rw [if_pos hw]

/-- Counterexample to C14 as stated. On the opponent's turn the read of the
move message does not complete (or the message is the malformed `"I1"`): the
loop ends at the `break`, and `StartGame` reports ` You won!` although neither
field has weight 0. -/
theorem C14_counterexample :
    StartGame false [{ input := [], write_ok := true, read1 := none, read2 := none }]
      sampleAgent = GameResult.over sampleAgent false ∧
    StartGame false [{ input := [], write_ok := true, read1 := none, read2 := some (73, 49) }]
      sampleAgent = GameResult.over sampleAgent false ∧
    sampleAgent.my_field_.weight = 2 ∧ sampleAgent.other_field_.weight = 20 ∧
    IsGameEnded sampleAgent = false := by
  decide

/-- Claim C14, as amended. When the loop of `StartGame` ends at a `break`, that
is because of a connection failure (`SendMove`, `ReadMove` or `SendResult` did
not complete) or a malformed move message, a verdict is reported all the
same: ` You lost.` when the own field's weight is 0 and ` You won!` otherwise,
whether or not some field's weight is 0. -/
theorem C14_verdict_always_reported (char_signed : Bool) (io : RoundIO) (rest : List RoundIO)
    (s s1 : SeabattleAgent) (hgo : IsGameEnded s = false)
    (hstop : playRound char_signed io s = RoundResult.stop s1) :
    StartGame char_signed (io :: rest) s = GameResult.over s1 (IsLoser s1.my_field_) ∧
    (IsLoser s1.my_field_ = true ↔ s1.my_field_.weight = 0) ∧
    (∀ (ios : List RoundIO) (t t1 : SeabattleAgent) (lost : Bool),
      StartGame char_signed ios t = GameResult.over t1 lost →
      (lost = true ↔ t1.my_field_.weight = 0)) := by
  refine ⟨?_, by unfold IsLoser; simp, fun ios t t1 lost h => ?_⟩
  · unfold StartGame
    rw [if_neg (by rw [hgo]; simp), hstop]
  · rw [StartGame_over ios t t1 lost h]
    unfold IsLoser; simp

/-- Witness for C14 (amended): the read of the opponent's move does not complete. -/
theorem C14_verdict_always_reported_witness :
    IsGameEnded sampleAgent = false ∧
    StartGame false [{ input := [], write_ok := true, read1 := none, read2 := none }]
      sampleAgent = GameResult.over sampleAgent (IsLoser sampleAgent.my_field_) :=
  ⟨by decide,
    (C14_verdict_always_reported false
      { input := [], write_ok := true, read1 := none, read2 := none } [] sampleAgent
      sampleAgent (by decide) (by decide)).1⟩

/-- Evaluation of the code for C15. The local player enters `"Z9"` (or the
one-character word `"A"`): `ParseMove` returns no move, `GetMoveFromUser`
dereferences the empty optional, and the round, and with it `StartGame`, ends
in undefined behaviour instead of a new prompt.  The same holds for every word
that `ParseMove` rejects; a word that `ParseMove` accepts yields its move. -/
theorem C15_invalid_input_is_dereferenced :
    ParseMove false [90, 57] = none ∧
    GetMoveFromUser false [90, 57] = none ∧
    playRound false { input := [90, 57], write_ok := true, read1 := some 48, read2 := none }
      sampleAgentFirst = RoundResult.undefined ∧
    StartGame false
      [{ input := [90, 57], write_ok := true, read1 := some 48, read2 := none },
       { input := [65, 49], write_ok := true, read1 := some 48, read2 := none }]
      sampleAgentFirst = GameResult.undefined ∧
    playRound false { input := [65], write_ok := true, read1 := some 48, read2 := none }
      sampleAgentFirst = RoundResult.undefined ∧
    (∀ (cs : Bool) (io : RoundIO) (s : SeabattleAgent),
      s.my_initiative_ = true → ParseMove cs io.input = none →
      playRound cs io s = RoundResult.undefined) ∧
    (∀ (cs : Bool) (word : List Byte) (m : Int × Int),
      GetMoveFromUser cs word = some m ↔ ParseMove cs word = some m) := by
  refine ⟨by decide, by decide, by decide, by decide, by decide, ?_, fun _ _ _ => Iff.rfl⟩
  intro cs io s ht hp
  unfold playRound GetMoveFromUser
  rw [if_pos ht, hp]

/-! ### The loop condition and the loser -/

theorem IsLoser_iff (f : SeabattleField) : IsLoser f = true ↔ f.weight = 0 := by
  unfold IsLoser; simp

theorem IsGameEnded_false_iff (s : SeabattleAgent) :
    IsGameEnded s = false ↔ s.my_field_.weight ≠ 0 ∧ s.other_field_.weight ≠ 0 := by
  unfold IsGameEnded IsLoser; simp

/-- A round from a state in which neither weight is 0 changes at most one of
the two fields, so afterwards the two weights are not both 0. -/
theorem playRound_not_both {char_signed : Bool} {io : RoundIO} {s s1 : SeabattleAgent}
    (hs : IsGameEnded s = false)
    (h : playRound char_signed io s = RoundResult.next s1 ∨
      playRound char_signed io s = RoundResult.stop s1) :
    ¬ (s1.my_field_.weight = 0 ∧ s1.other_field_.weight = 0) := by
  obtain ⟨h1, h2⟩ := (IsGameEnded_false_iff s).mp hs
  rcases h with h | h
  · by_cases ht : s.my_initiative_ = true
    · obtain ⟨_, _, -, -, -, e⟩ := playRound_mine_next ht h
      rw [e]; exact fun hc => h1 hc.1
    · obtain ⟨_, _, _, _, -, -, -, -, -, -, e⟩ := playRound_opponent_next (by simpa using ht) h
      rw [e]; exact fun hc => h2 hc.2
  · rcases playRound_stop h with ⟨-, -, -, e⟩ | ⟨-, -, e⟩ | ⟨-, -, _, _, _, -, -, e⟩
    · rw [e]; exact fun hc => h1 hc.1
    · rw [e]; exact fun hc => h1 hc.1
    · rw [e]; exact fun hc => h2 hc.2

theorem StartGame_not_both {char_signed : Bool} :
    ∀ (ios : List RoundIO) (s s1 : SeabattleAgent) (lost : Bool),
      ¬ (s.my_field_.weight = 0 ∧ s.other_field_.weight = 0) →
      StartGame char_signed ios s = GameResult.over s1 lost →
      ¬ (s1.my_field_.weight = 0 ∧ s1.other_field_.weight = 0) := by
  intro ios
  induction ios with
  | nil =>
    intro s s1 lost hs h
    unfold StartGame at h
    split at h
    · cases h; exact hs
    · cases h
  | cons io rest ih =>
    intro s s1 lost hs h
    unfold StartGame at h
    split at h
    · cases h; exact hs
    · rename_i hg
      have hg2 : IsGameEnded s = false := by simpa using hg
      split at h
      · rename_i s2 hr
        exact ih _ _ _ (playRound_not_both hg2 (Or.inl hr)) h
      · rename_i s2 hr
        cases h
        exact playRound_not_both hg2 (Or.inr hr)
      · cases h
      · cases h

/-- Claim C16. `StartGame` starts a new round exactly when neither the own
field nor the opponent view has weight 0: with a weight 0 it reports the
verdict without a further round, otherwise it runs the next round.  When a
game that started with the two weights not both 0 (they are 20 and 20 at the
start) has ended, the verdict is ` You lost.` exactly when the own field's
weight is 0, and, when the loop has ended because a field is exhausted, it is
` You won!` exactly when the opponent view's weight is 0. -/
theorem C16_loop_condition_and_loser (char_signed : Bool) (ios : List RoundIO)
    (s s1 : SeabattleAgent) (lost : Bool)
    (hstart : ¬ (s.my_field_.weight = 0 ∧ s.other_field_.weight = 0))
    (hend : StartGame char_signed ios s = GameResult.over s1 lost) :
    (IsGameEnded s = false ↔ s.my_field_.weight ≠ 0 ∧ s.other_field_.weight ≠ 0) ∧
    (IsGameEnded s = true →
      ∀ ios2, StartGame char_signed ios2 s = GameResult.over s (IsLoser s.my_field_)) ∧
    (IsGameEnded s = false → ∀ io rest,
      StartGame char_signed (io :: rest) s =
        match playRound char_signed io s with
        | RoundResult.next s2 => StartGame char_signed rest s2
        | RoundResult.stop s2 => GameResult.over s2 (IsLoser s2.my_field_)
        | RoundResult.undefined => GameResult.undefined
        | RoundResult.unfinished => GameResult.unfinished) ∧
    (lost = true ↔ s1.my_field_.weight = 0) ∧
    (IsGameEnded s1 = true → (lost = false ↔ s1.other_field_.weight = 0)) := by
  refine ⟨IsGameEnded_false_iff s, fun hg ios2 => ?_, fun hg io rest => ?_, ?_, fun hg => ?_⟩
  · cases ios2 <;> unfold StartGame <;> rw [if_pos hg]
  · rw [StartGame, if_neg (by rw [hg]; simp)]
  · rw [StartGame_over ios s s1 lost hend]; exact IsLoser_iff _
  · have hnb := StartGame_not_both ios s s1 lost hstart hend
    have hl := StartGame_over ios s s1 lost hend
    have hg2 : s1.my_field_.weight = 0 ∨ s1.other_field_.weight = 0 := by
      by_contra hc
      have := (IsGameEnded_false_iff s1).mpr ⟨fun h => hc (Or.inl h), fun h => hc (Or.inr h)⟩
      rw [hg] at this; cases this
    rw [hl]
    constructor
    · intro hf
      have : ¬ s1.my_field_.weight = 0 := fun h => by
        rw [(IsLoser_iff _).mpr h] at hf; cases hf
      rcases hg2 with h | h
      · exact absurd h this
      · exact h
    · intro ho
      have : ¬ s1.my_field_.weight = 0 := fun h => hnb ⟨h, ho⟩
      cases hb : IsLoser s1.my_field_ with
      | false => rfl
      | true => exact absurd ((IsLoser_iff _).mp hb) this

/-- Witness for C16: the opponent sinks the two-cell ship of `twoCellField`
with `"A1"` and `"A2"`; the game ends with ` You lost.`. -/
theorem C16_loop_condition_and_loser_witness :
    ¬ (sampleAgent.my_field_.weight = 0 ∧ sampleAgent.other_field_.weight = 0) ∧
    (∃ s1, StartGame false
      [{ input := [], write_ok := true, read1 := none, read2 := some (65, 49) },
       { input := [], write_ok := true, read1 := none, read2 := some (65, 50) }]
      sampleAgent = GameResult.over s1 true ∧
      ((true = true ↔ s1.my_field_.weight = 0) ∧
        (IsGameEnded s1 = true → (true = false ↔ s1.other_field_.weight = 0)))) :=
  ⟨by decide,
    ⟨{ sampleAgent with my_field_ := shotField (shotField twoCellField 0 0) 1 0 }, by decide,
      (C16_loop_condition_and_loser false
        [{ input := [], write_ok := true, read1 := none, read2 := some (65, 49) },
         { input := [], write_ok := true, read1 := none, read2 := some (65, 50) }]
        sampleAgent { sampleAgent with my_field_ := shotField (shotField twoCellField 0 0) 1 0 }
        true (by decide) (by decide)).2.2.2⟩⟩


/-! ### The result message and the move codec -/

theorem ProcessResult_toInt (other_field_ : SeabattleField) (move : Int × Int)
    (r : ShotResult) :
    ProcessResult other_field_ move r.toInt =
      UpdateFieldWithResult other_field_ (toSize move.1) (toSize move.2) r := by
  cases r <;> rfl

/-- Claim C17. The result message is one byte: `SendResult` writes `'0'`, `'1'`,
`'2'` (48, 49, 50) for `MISS`, `HIT`, `KILL`, and `ReadResult` turns a received
`'0'`, `'1'`, `'2'` into `MISS`, `HIT`, `KILL`; so for every shot result `r`,
`ReadResult` applied to the byte that `SendResult` writes for `r` returns `r`
(for either signedness of `char`), and two results with the same decoded value
are the same. -/
theorem C17_result_codec (char_signed : Bool) (r : ShotResult) :
    SendResult_data ShotResult.MISS = [48] ∧
    SendResult_data ShotResult.HIT = [49] ∧
    SendResult_data ShotResult.KILL = [50] ∧
    ReadResult char_signed (some 48) = ShotResult.MISS.toInt ∧
    ReadResult char_signed (some 49) = ShotResult.HIT.toInt ∧
    ReadResult char_signed (some 50) = ShotResult.KILL.toInt ∧
    (∃ b, SendResult_data r = [b] ∧ ReadResult char_signed (some b) = r.toInt) ∧
    (∀ r2 : ShotResult, r2.toInt = r.toInt → r2 = r) := by
  refine ⟨by decide, by decide, by decide, ?_, ?_, ?_, ?_, ?_⟩
  · cases char_signed <;> decide
  · cases char_signed <;> decide
  · cases char_signed <;> decide
  · cases r <;> cases char_signed <;> exact ⟨_, rfl, by decide⟩
  · intro r2 h
    cases r <;> cases r2 <;> first | rfl | (exact absurd h (by decide))

theorem MoveToString_ParseMove {char_signed : Bool} {m : Int × Int}
    (h1 : 0 ≤ m.1 ∧ m.1 ≤ 7) (h2 : 0 ≤ m.2 ∧ m.2 ≤ 7) :
    ParseMove char_signed (MoveToString m) = some m := by
  unfold MoveToString
  rw [ParseMove_pair, if_pos]
  · unfold intToByte
    simp only [Option.some.injEq]
    ext <;> simp only <;> omega
  · unfold intToByte
    simp only
    omega

theorem ParseMove_MoveToString {char_signed : Bool} {s : List Byte} {m : Int × Int}
    (h : ParseMove char_signed s = some m) : MoveToString m = s := by
  obtain ⟨c0, c1, rfl, hc, rfl⟩ := ParseMove_some h
  have h0 := c0.isLt
  have h1 := c1.isLt
  unfold MoveToString intToByte
  simp only [List.cons.injEq, and_true]
  constructor <;> (apply Fin.ext; simp only; omega)

/-- Claim C19. For every coordinate pair `m` with both components in `0..7`,
`ParseMove(MoveToString(m)) = m`; for every string `s` that `ParseMove` accepts,
`MoveToString(ParseMove(s)) = s`.  Hence, when the shooter sends
`MoveToString(m)`, the receiver calls `Shoot` with the coordinates
`(m.first, m.second)`, the coordinates at which the shooter's `ProcessResult`
marks its opponent view. -/
theorem C19_move_codec_round_trip (char_signed : Bool) (m : Int × Int)
    (h1 : 0 ≤ m.1 ∧ m.1 ≤ 7) (h2 : 0 ≤ m.2 ∧ m.2 ≤ 7) :
    ParseMove char_signed (MoveToString m) = some m ∧
    (∀ (s : List Byte) (m2 : Int × Int),
      ParseMove char_signed s = some m2 → MoveToString m2 = s) ∧
    (∀ b0 b1 : Byte, MoveToString m = [b0, b1] →
      receivedShot char_signed (some (b0, b1)) = some (toSize m.1, toSize m.2)) ∧
    (∀ (other_field_ : SeabattleField) (r : ShotResult),
      ProcessResult other_field_ m r.toInt =
        UpdateFieldWithResult other_field_ (toSize m.1) (toSize m.2) r) := by
  have hp := @MoveToString_ParseMove char_signed m h1 h2
  refine ⟨hp, fun s m2 h => ParseMove_MoveToString h, fun b0 b1 hb => ?_,
    fun o r => ProcessResult_toInt o m r⟩
  unfold receivedShot ReadMove
  simp only
  rw [← hb, hp]

/-- Witness for C19: the move `(0, 1)`, sent as `"B1"`. -/
theorem C19_move_codec_round_trip_witness :
    MoveToString (0, 1) = [66, 49] ∧ ParseMove false (MoveToString (0, 1)) = some (0, 1) :=
  ⟨by decide, (C19_move_codec_round_trip false (0, 1) (by decide) (by decide)).1⟩

/-! ### Marking the own field after a shot -/

theorem UpdateFieldWithResult_known (f : SeabattleField) (x y : Nat) (r : ShotResult)
    (h : Get f x y ≠ State.UNKNOWN) : UpdateFieldWithResult f x y r = some f := by
  cases r
  · exact congrArg some (MarkMiss_known f x y h)
  · exact congrArg some (MarkHit_known f x y h)
  · exact MarkKill_known f x y h

/-- Claim C20. For every field with no `UNKNOWN` cell, every cell `(x, y)`
inside the grid and every result, `UpdateFieldWithResult` returns the field as
it is (all cells and the weight).  So on the opponent's turn, where `StartGame`
calls `Shoot` and then `UpdateFieldWithResult` on the own field, the field
after the round is the field after `Shoot`: an incoming hit lowers the weight
by exactly 1, a miss leaves it, and the own field still has no `UNKNOWN` cell.
Every generated field, after any shots inside the grid, has no `UNKNOWN` cell. -/
theorem C20_own_field_marks_are_noops (f : SeabattleField) (x y : Nat) (hwf : f.WF)
    (hx : x < field_size) (hy : y < field_size)
    (hno : ∀ a, a < field_size → ∀ b, b < field_size → Get f a b ≠ State.UNKNOWN) :
    (∀ r, UpdateFieldWithResult f x y r = some f) ∧
    (∃ r f1, Shoot f x y = some (r, f1) ∧ UpdateFieldWithResult f1 x y r = some f1 ∧
      f1.weight = f.weight - (if Get f x y = State.SHIP then 1 else 0) ∧
      (∀ a, a < field_size → ∀ b, b < field_size → Get f1 a b ≠ State.UNKNOWN) ∧
      ∀ (io : RoundIO) (s : SeabattleAgent), s.my_field_ = f → io.write_ok = true →
        answerMove io s x y = RoundResult.next
          { s with my_field_ := f1,
                   my_initiative_ :=
                     if r = ShotResult.MISS then true else s.my_initiative_ }) ∧
    (∀ (n : Nat) (rng : Nat → Nat) (p : Nat) (f0 : SeabattleField) (moves : List (Nat × Nat)),
      GetRandomField n rng p = some f0 → (∀ m ∈ moves, inBounds m) →
      ∃ rs g, shootAll f0 moves = some (rs, g) ∧
        ∀ a, a < field_size → ∀ b, b < field_size → Get g a b ≠ State.UNKNOWN) := by
  refine ⟨fun r => UpdateFieldWithResult_known f x y r (hno x hx y hy), ?_, ?_⟩
  · obtain ⟨r, f1, hs, hwf1, hget, -⟩ := Shoot_step hwf hx hy
    have hno1 : ∀ a, a < field_size → ∀ b, b < field_size → Get f1 a b ≠ State.UNKNOWN := by
      intro a ha b hb
      rw [hget a b ha hb]
      split
      · simp
      · exact hno a ha b hb
    have hu := UpdateFieldWithResult_known f1 x y r (hno1 x hx y hy)
    refine ⟨r, f1, hs, hu, ?_, hno1, fun io s hsf hw => ?_⟩
    · by_cases h : Get f x y = State.SHIP
      · obtain ⟨b, hb, -⟩ := Shoot_ship f x y hx hy h
        rw [hb] at hs
        rw [if_pos h, ← (Prod.mk.inj (Option.some.inj hs)).2]
        rfl
      · rw [Shoot_miss f x y h] at hs
        rw [if_neg h, ← (Prod.mk.inj (Option.some.inj hs)).2]
        simp
    · unfold answerMove
      rw [hsf, hs]
      simp only
      rw [if_neg (by rw [hw]; simp), hu]
  · intro n rng p f0 moves hgen hm
    obtain ⟨ships, -, hwf0, -, hf, -, -, -⟩ := generated_of_either (Or.inr ⟨n, hgen⟩)
    obtain ⟨rs, g, hs, -, hg⟩ := IsFleet_shootAll hwf0 hf moves hm
    refine ⟨rs, g, hs, fun a ha b hb => ?_⟩
    by_cases hc : ∃ s ∈ ships, (a, b) ∈ s.cells
    · obtain ⟨s, hs2, hmem⟩ := hc
      rcases hg.2.2.1 s hs2 _ hmem with h | h <;> (simp only at h; rw [h]; simp)
    · rw [hg.2.2.2 a ha b hb (fun s hs2 hmem => hc ⟨s, hs2, hmem⟩)]; simp

/-- Witness for C20: the generated sample field and the cell `(0, 0)`. -/
theorem C20_own_field_marks_are_noops_witness :
    generatedSample.WF ∧
    (∀ a, a < field_size → ∀ b, b < field_size → Get generatedSample a b ≠ State.UNKNOWN) ∧
    (∀ r, UpdateFieldWithResult generatedSample 0 0 r = some generatedSample) :=
  ⟨by decide, by decide,
    (C20_own_field_marks_are_noops generatedSample 0 0 (by decide) (by decide) (by decide)
      (by decide)).1⟩


/-! ### The opponent view agrees with the field it tracks -/

/-- A cell of the grid next to a cell of a ship of the fleet that is not
`EMPTY` lies on that ship. -/
theorem fleet_adjacent_same {g : SeabattleField} {ships : List Ship}
    (hf : IsFleet g ships) {s : Ship} (hs : s ∈ ships) {p : Nat × Nat} (hp : p ∈ s.cells)
    {a b : Nat} (ha : a < field_size) (hb : b < field_size)
    (hc : cheb p (a, b) ≤ 1) (hne : Get g a b ≠ State.EMPTY) : (a, b) ∈ s.cells := by
  by_contra hnot
  exact hne (fleet_neighbour_empty hf hs hp ha hb hc hnot)

/-- The cells reached from a cell of a ship through `KILLED` cells of the
view lie on that ship. -/
theorem inR_subset_ship {F V : SeabattleField} {ships : List Ship} (hf : IsFleet F ships)
    {s : Ship} (hs : s ∈ ships) {x y : Nat} (hxy : (x, y) ∈ s.cells)
    (hk : ∀ c, c < field_size → ∀ d, d < field_size →
      Get V c d = State.KILLED → Get F c d ≠ State.EMPTY)
    {p : Nat × Nat} (hp : inR V x y p) : p ∈ s.cells := by
  obtain ⟨px, py⟩ := p
  obtain ⟨⟨hpx, hpy⟩, hr⟩ := hp
  simp only at hpx hpy hr
  have hxb := (hf.1 s hs _ hxy).1
  have hyb := (hf.1 s hs _ hxy).2
  simp only at hxb hyb
  rcases hr with ⟨e, hr⟩ | ⟨e, hr⟩
  · subst e
    by_cases hle : x ≤ px
    · have key : ∀ k, x + k ≤ px → (x + k, py) ∈ s.cells := by
        intro k
        induction k with
        | zero => intro _; exact hxy
        | succ k ih =>
          intro hk2
          have h1 := ih (by omega)
          refine fleet_adjacent_same hf hs h1 (by omega) hpy (by unfold cheb; simp only; omega)
            (hk _ (by omega) _ hpy (hr _ (Or.inr ⟨by omega, by omega⟩)))
      have := key (px - x) (by omega)
      rwa [show x + (px - x) = px by omega] at this
    · have key : ∀ k, px + k ≤ x → (x - k, py) ∈ s.cells := by
        intro k
        induction k with
        | zero => intro _; exact hxy
        | succ k ih =>
          intro hk2
          have h1 := ih (by omega)
          refine fleet_adjacent_same hf hs h1 (by omega) hpy (by unfold cheb; simp only; omega)
            (hk _ (by omega) _ hpy (hr _ (Or.inl ⟨by omega, by omega⟩)))
      have := key (x - px) (by omega)
      rwa [show x - (x - px) = px by omega] at this
  · subst e
    by_cases hle : y ≤ py
    · have key : ∀ k, y + k ≤ py → (px, y + k) ∈ s.cells := by
        intro k
        induction k with
        | zero => intro _; exact hxy
        | succ k ih =>
          intro hk2
          have h1 := ih (by omega)
          refine fleet_adjacent_same hf hs h1 hpx (by omega) (by unfold cheb; simp only; omega)
            (hk _ hpx _ (by omega) (hr _ (Or.inr ⟨by omega, by omega⟩)))
      have := key (py - y) (by omega)
      rwa [show y + (py - y) = py by omega] at this
    · have key : ∀ k, py + k ≤ y → (px, y - k) ∈ s.cells := by
        intro k
        induction k with
        | zero => intro _; exact hxy
        | succ k ih =>
          intro hk2
          have h1 := ih (by omega)
          refine fleet_adjacent_same hf hs h1 hpx (by omega) (by unfold cheb; simp only; omega)
            (hk _ hpx _ (by omega) (hr _ (Or.inl ⟨by omega, by omega⟩)))
      have := key (y - py) (by omega)
      rwa [show y - (y - py) = py by omega] at this

/-- One exchange inside the grid returns and keeps the view in agreement with
the field. -/
theorem Sync_exchange {F V : SeabattleField} {ships : List Ship} (h : Sync F V ships)
    {x y : Nat} (hx : x < field_size) (hy : y < field_size) :
    ∃ F1 V1, exchange F V x y = some (F1, V1) ∧ Sync F1 V1 ships := by
  obtain ⟨hFwf, hVwf, hf, hw, hc⟩ := h
  by_cases hship : Get F x y = State.SHIP
  · -- the shot hits a ship cell; the view has that cell still `UNKNOWN`
    obtain ⟨b, hb, hiff⟩ := Shoot_ship F x y hx hy hship
    have hg := IsFleet_shotField hFwf hf hx hy hship
    have hF1wf := WF_shotField x y hFwf
    have hF1w : (shotField F x y).weight = F.weight - 1 := rfl
    have hF1 : ∀ a c, a < field_size → c < field_size →
        Get (shotField F x y) a c = if a = x ∧ c = y then State.KILLED else Get F a c :=
      fun a c ha hc2 => Get_shotField hFwf hx hy ha hc2
    have hVu : Get V x y = State.UNKNOWN := by
      obtain ⟨h1, h2, h3⟩ := hc x hx y hy
      cases hv : Get V x y with
      | UNKNOWN => rfl
      | EMPTY => have := h2 hv; rw [hship] at this; cases this
      | KILLED => have := h1.mp hv; rw [hship] at this; cases this
      | SHIP => exact absurd hv h3
    cases b with
    | false =>
      obtain ⟨m1, m2, -, m4⟩ := MarkHit_unknown hVwf hx hy hVu
      refine ⟨shotField F x y, MarkHit V x y, ?_, hF1wf, m1, hg, by rw [m2, hF1w, hw],
        fun a ha c hc2 => ?_⟩
      · unfold exchange
        rw [hb]
        rfl
      · rw [m4 a c ha hc2, hF1 a c ha hc2]
        by_cases e : a = x ∧ c = y
        · rw [if_pos e, if_pos e]; simp
        · rw [if_neg e, if_neg e]; exact hc a ha c hc2
    | true =>
      obtain ⟨g, k1, k2, k3, k4, k5⟩ := MarkKill_unknown hVwf hx hy hVu
      obtain ⟨s, hs, hxy⟩ := fleet_ship_of_SHIP hf hx hy (by rw [hship]; simp)
      have hkF1 : Get (shotField F x y) x y = State.KILLED := by
        rw [hF1 x y hx hy]; simp
      have hsunk := (hiff.trans (fleet_sunk_iff hg hs hxy hkF1)).mp rfl
      refine ⟨shotField F x y, g, ?_, hF1wf, k2, hg, by rw [k3, hF1w, hw],
        fun a ha c hc2 => ?_⟩
      · unfold exchange
        rw [hb]
        simp only [if_true]
        unfold UpdateFieldWithResult
        simp only
        rw [k1]
      · rw [hF1 a c ha hc2]
        by_cases e : a = x ∧ c = y
        · rw [if_pos e, e.1, e.2, k4]; simp
        · rw [if_neg e]
          have hcell := k5 a c ha hc2 e
          by_cases hn : Get V a c = State.UNKNOWN ∧ nearR V x y a c
          · rw [hcell.1 hn]
            have hFe : Get F a c = State.EMPTY := by
              by_contra hne
              obtain ⟨p, hp, hch⟩ := hn.2
              have hps := inR_subset_ship hf hs hxy
                (fun c2 hc3 d hd hk => by
                  rw [((hc c2 hc3 d hd).1).mp hk]; simp) hp
              have hmem := fleet_adjacent_same hf hs hps ha hc2
                (by rw [cheb_comm]; exact hch) hne
              have hk1 := hsunk _ hmem
              simp only at hk1
              rw [hF1 a c ha hc2, if_neg e] at hk1
              have := ((hc a ha c hc2).1).mpr hk1
              rw [hn.1] at this; cases this
            rw [hFe]; simp
          · rw [hcell.2 hn]; exact hc a ha c hc2
  · -- a miss: the field is unchanged
    have hs := Shoot_miss F x y hship
    by_cases hu : Get V x y = State.UNKNOWN
    · obtain ⟨m1, m2, -, m4⟩ := MarkMiss_unknown hVwf hx hy hu
      have hFe : Get F x y = State.EMPTY := by
        by_cases hcs : ∃ s ∈ ships, (x, y) ∈ s.cells
        · obtain ⟨s, hs2, hm⟩ := hcs
          rcases hf.2.2.1 s hs2 _ hm with h1 | h1
          · exact absurd h1 hship
          · have := ((hc x hx y hy).1).mpr h1
            rw [hu] at this; cases this
        · exact hf.2.2.2 x hx y hy (fun s hs2 hm => hcs ⟨s, hs2, hm⟩)
      refine ⟨F, MarkMiss V x y, ?_, hFwf, m1, hf, by rw [m2, hw], fun a ha c hc2 => ?_⟩
      · unfold exchange
        rw [hs]
        rfl
      · rw [m4 a c ha hc2]
        by_cases e : a = x ∧ c = y
        · rw [if_pos e, e.1, e.2, hFe]; simp
        · rw [if_neg e]; exact hc a ha c hc2
    · refine ⟨F, V, ?_, hFwf, hVwf, hf, hw, hc⟩
      unfold exchange
      rw [hs]
      simp only
      unfold UpdateFieldWithResult
      simp only
      rw [MarkMiss_known V x y hu]

theorem Sync_exchangeAll {ships : List Ship} :
    ∀ (moves : List (Nat × Nat)) (F V : SeabattleField), Sync F V ships →
      (∀ m ∈ moves, inBounds m) →
      ∃ F1 V1, exchangeAll F V moves = some (F1, V1) ∧ Sync F1 V1 ships := by
  intro moves
  induction moves with
  | nil => intro F V h _; exact ⟨F, V, rfl, h⟩
  | cons m rest ih =>
    intro F V h hb
    have hm := hb m (List.mem_cons_self _ _)
    obtain ⟨F1, V1, e1, h1⟩ := Sync_exchange h hm.1 hm.2
    obtain ⟨F2, V2, e2, h2⟩ := ih F1 V1 h1 (fun m2 hm2 => hb m2 (List.mem_cons_of_mem _ hm2))
    refine ⟨F2, V2, ?_, h2⟩
    unfold exchangeAll
    rw [e1]
    exact e2

/-- A generated field and the default view agree. -/
theorem Sync_generated {n : Nat} {rng : Nat → Nat} {p : Nat} {F : SeabattleField}
    (hgen : GetRandomField n rng p = some F) :
    ∃ ships, Sync F (SeabattleField.init State.UNKNOWN) ships := by
  obtain ⟨ships, -, hwf, hw, hf, hsh, -, -⟩ := generated_of_either (Or.inr ⟨n, hgen⟩)
  simp only at hwf hw hf hsh
  refine ⟨ships, hwf, WF_init _, hf, by rw [hw]; rfl, fun a ha b hb => ?_⟩
  rw [Get_init _ ha hb]
  refine ⟨⟨fun h => (by cases h), fun h => ?_⟩, fun h => (by cases h), by simp⟩
  by_cases hc : ∃ s ∈ ships, (a, b) ∈ s.cells
  · obtain ⟨s, hs, hm⟩ := hc
    have := hsh s hs _ hm
    simp only at this
    rw [this] at h; cases h
  · rw [hf.2.2.2 a ha b hb (fun s hs hm => hc ⟨s, hs, hm⟩)] at h; cases h

/-- Claim C18. For every field `F` produced by `GetRandomField`, the opponent
view `V` that starts all `UNKNOWN` with weight 20, and every finite sequence of
shots inside the grid in which each result `r = F.Shoot(x, y)` is applied to
`V` as `MarkMiss` / `MarkHit` / `MarkKill(x, y)` according to `r`: after every
shot (after every initial part of the sequence) the exchanges have returned,
a cell is `KILLED` in `V` exactly when it is `KILLED` in `F`, every cell that is
`EMPTY` in `V` is neither `SHIP` nor `KILLED` in `F`, `V` has no `SHIP` cell, and
the weight of `V` equals the weight of `F`, so `IsLoser()` gives the same answer
on both. -/
theorem C18_view_agrees_with_field (n : Nat) (rng : Nat → Nat) (p : Nat) (F : SeabattleField)
    (moves : List (Nat × Nat)) (hgen : GetRandomField n rng p = some F)
    (hmoves : ∀ m ∈ moves, inBounds m) (k : Nat) :
    ∃ F1 V1, exchangeAll F (SeabattleField.init State.UNKNOWN) (moves.take k) = some (F1, V1) ∧
      (∀ a, a < field_size → ∀ b, b < field_size →
        (Get V1 a b = State.KILLED ↔ Get F1 a b = State.KILLED) ∧
        (Get V1 a b = State.EMPTY → Get F1 a b ≠ State.SHIP ∧ Get F1 a b ≠ State.KILLED) ∧
        Get V1 a b ≠ State.SHIP) ∧
      V1.weight = F1.weight ∧ IsLoser V1 = IsLoser F1 := by
  obtain ⟨ships, h0⟩ := Sync_generated hgen
  obtain ⟨F1, V1, e, -, -, -, hw, hc⟩ := Sync_exchangeAll (moves.take k) F _ h0
    (fun m hm => hmoves m (List.mem_of_mem_take hm))
  refine ⟨F1, V1, e, fun a ha b hb => ?_, hw, by unfold IsLoser; rw [hw]⟩
  obtain ⟨h1, h2, h3⟩ := hc a ha b hb
  refine ⟨h1, fun he => ?_, h3⟩
  rw [h2 he]; simp

/-- Witness for C18: the field generated from the stream `0, 1, 2, ...`; the
four cells of its first ship are shot one after the other. -/
theorem C18_view_agrees_with_field_witness :
    GetRandomField 1 countingStream 0 = some generatedSample ∧
    (∀ m ∈ [((0 : Nat), (0 : Nat)), (1, 0), (2, 0), (3, 0)], inBounds m) ∧
    ∃ F1 V1, exchangeAll generatedSample (SeabattleField.init State.UNKNOWN)
        ([((0 : Nat), (0 : Nat)), (1, 0), (2, 0), (3, 0)].take 4) = some (F1, V1) ∧
      V1.weight = F1.weight :=
  ⟨GetRandomField_countingStream, by decide,
    (C18_view_agrees_with_field 1 countingStream 0 generatedSample
      [(0, 0), (1, 0), (2, 0), (3, 0)] GetRandomField_countingStream (by decide) 4).imp
      fun _ h => h.imp fun _ h2 => ⟨h2.1, h2.2.2.1⟩⟩

end Seabattle
